import Mathlib

/-!
Shallow embedding of the Devconnect Pretix sync service
(class `DevconnectPretixSyncService` and the free function
`startDevconnectPretixSyncService`) together with proofs about
fetch-failure isolation, validation gating, allow-list drift,
idempotence of `syncEvent`, the consumed-flag frame property,
order-to-ticket conversion, the readiness flag, and the timer lifecycle.

The store query layer (`fetchPretixEventInfo`, `insertPretixEventsInfo`, ...),
`pretixTicketsDifferent` and `getI18nString` are imported by the sync service
from modules that are not part of the embedded sources; those are modelled
from the specification and say so in their doc comments.  Everything else is
a direct transcription of the sync service source.  Concurrency (`Promise.all`
fan-out over organizers and events) is linearized in configuration order;
`Promise.all` rejection is modelled with `Except`.
-/

set_option maxHeartbeats 1000000

namespace DevconnectSync

/-- Event settings fetched from the provider (`DevconnectPretixEventSettings`). -/
structure PretixSettings where
  attendee_emails_asked : Bool
  attendee_emails_required : Bool
deriving DecidableEq

/-- A product fetched from the provider (`DevconnectPretixItem`).  The localized
name map is modelled as its resolved display string; the JS values `null` and
`undefined` of `generate_tickets` are both modelled as `none`. -/
structure PretixItem where
  id : Nat
  name : String
  admission : Bool
  personalized : Bool
  generate_tickets : Option Bool
deriving DecidableEq

/-- Event metadata fetched from the provider (`DevconnectPretixEvent`). -/
structure PretixEventMeta where
  slug : String
  name : String
deriving DecidableEq

/-- One order position (`DevconnectPretixOrder.positions` entries); a missing or
null attendee name/email is `none`, an empty-string email is `some ""` (both are
falsy in the source). -/
structure PretixPosition where
  id : Nat
  positionid : Nat
  item : Nat
  attendee_name : Option String
  attendee_email : Option String
  secret : String
deriving DecidableEq

/-- An order fetched from the provider (`DevconnectPretixOrder`).  The status is
the wire value; `"p"` means paid. -/
structure PretixOrder where
  code : String
  email : String
  status : String
  positions : List PretixPosition
deriving DecidableEq

/-- Collection of API data for a single event (interface `EventData`). -/
structure EventData where
  settings : PretixSettings
  eventInfo : PretixEventMeta
  items : List PretixItem
  tickets : List PretixOrder
deriving DecidableEq

/-- Event configuration (`DevconnectPretixEventConfig`): the event-config row id,
the provider event identifier and the allow-list of active item ids. -/
structure EventConfig where
  id : String
  eventID : String
  activeItemIDs : List String
deriving DecidableEq

/-- Organizer configuration (`DevconnectPretixOrganizerConfig`). -/
structure OrganizerConfig where
  id : Nat
  orgURL : String
  token : String
  events : List EventConfig
deriving DecidableEq

/-- Persisted event-info row.  Modelled from the spec: EventInfo is keyed by the
EventConfig identity and holds the display name; `updatePretixEventsInfo` takes
an `is_deleted` argument, so the row carries a soft-delete flag. -/
structure EventInfoRow where
  id : Nat
  pretix_events_config_id : String
  event_name : String
  is_deleted : Bool
deriving DecidableEq

/-- Persisted item-info row (`PretixItemInfo`).  Modelled from the spec: natural
key is (event, provider item id); it holds the display name and a soft-delete
flag. -/
structure ItemInfoRow where
  id : Nat
  item_id : String
  devconnect_pretix_events_info_id : Nat
  item_name : String
  is_deleted : Bool
deriving DecidableEq

/-- A ticket (`DevconnectPretixTicket`), both as produced by
`ordersToDevconnectTickets` and as persisted (natural key `position_id`). -/
structure TicketRow where
  email : String
  full_name : Option String
  devconnect_pretix_items_info_id : Nat
  is_deleted : Bool
  is_consumed : Bool
  position_id : String
  secret : String
deriving DecidableEq

/-- The relational store visible to the sync service: three tables plus the next
fresh row id handed out by inserts.  Modelled from the spec: the store is an
external collaborator with keyed fetch/insert/update/soft-delete. -/
structure Store where
  nextId : Nat
  events : List EventInfoRow
  items : List ItemInfoRow
  tickets : List TicketRow
deriving DecidableEq

/-- Modelled from the spec: keyed fetch of the EventInfo row by event-config id
(query `fetchPretixEventInfo`, not part of the embedded sources). -/
def fetchPretixEventInfo (db : Store) (eventConfigID : String) : Option EventInfoRow :=
  db.events.find? (fun r => r.pretix_events_config_id == eventConfigID)

/-- Modelled from the spec: insert a fresh EventInfo row, active, with a fresh id
(query `insertPretixEventsInfo`). -/
def insertPretixEventsInfo (db : Store) (eventName : String) (eventConfigID : String) : Store :=
  { db with
    nextId := db.nextId + 1
    events := db.events ++ [⟨db.nextId, eventConfigID, eventName, false⟩] }

/-- Modelled from the spec: update the EventInfo row with the given row id,
setting the display name and the soft-delete flag
(query `updatePretixEventsInfo`). -/
def updatePretixEventsInfo (db : Store) (id : Nat) (eventName : String) (isDeleted : Bool) : Store :=
  { db with
    events := db.events.map (fun r =>
      if r.id == id then { r with event_name := eventName, is_deleted := isDeleted } else r) }

/-- Modelled from the spec: fetch all ItemInfo rows of one event
(query `fetchPretixItemsInfoByEvent`).  Soft-deleted rows are included: the
update paths of the sync service pass `is_deleted = false` explicitly, which is
how a soft-deleted row transitions back to active instead of duplicating
(spec section 3, soft-delete reversibility). -/
def fetchPretixItemsInfoByEvent (db : Store) (eventInfoID : Nat) : List ItemInfoRow :=
  db.items.filter (fun r => r.devconnect_pretix_events_info_id == eventInfoID)

/-- Modelled from the spec: insert a fresh ItemInfo row, active, with a fresh id
(query `insertPretixItemsInfo`). -/
def insertPretixItemsInfo (db : Store) (itemID : String) (eventInfoID : Nat) (itemName : String) : Store :=
  { db with
    nextId := db.nextId + 1
    items := db.items ++ [⟨db.nextId, itemID, eventInfoID, itemName, false⟩] }

/-- Modelled from the spec: update the ItemInfo row with the given row id,
setting the display name and the soft-delete flag
(query `updatePretixItemsInfo`). -/
def updatePretixItemsInfo (db : Store) (id : Nat) (itemName : String) (isDeleted : Bool) : Store :=
  { db with
    items := db.items.map (fun r =>
      if r.id == id then { r with item_name := itemName, is_deleted := isDeleted } else r) }

/-- Modelled from the spec: soft-delete the ItemInfo row with the given row id
(query `softDeletePretixItemInfo`); soft-deleted rows are never physically
removed. -/
def softDeletePretixItemInfo (db : Store) (id : Nat) : Store :=
  { db with
    items := db.items.map (fun r => if r.id == id then { r with is_deleted := true } else r) }

/-- Whether a ticket row belongs to the event with the given event-config id:
its owning ItemInfo row is joined to its EventInfo row, whose event-config id
must match. -/
def ticketJoins (items : List ItemInfoRow) (events : List EventInfoRow) (eventConfigID : String)
    (t : TicketRow) : Bool :=
  match items.find? (fun i => i.id == t.devconnect_pretix_items_info_id) with
  | some i =>
    match events.find? (fun e => e.id == i.devconnect_pretix_events_info_id) with
    | some e => e.pretix_events_config_id == eventConfigID
    | none => false
  | none => false

/-- Modelled from the spec: fetch all ticket rows of one event, by joining each
ticket's owning ItemInfo row to its EventInfo row and comparing the event-config
id (query `fetchDevconnectPretixTicketsByEvent`).  Soft-deleted tickets are
included, for the same reversibility reason as for items. -/
def fetchDevconnectPretixTicketsByEvent (db : Store) (eventConfigID : String) : List TicketRow :=
  db.tickets.filter (ticketJoins db.items db.events eventConfigID)

/-- Modelled from the spec: insert a ticket row as given
(query `insertDevconnectPretixTicket`). -/
def insertDevconnectPretixTicket (db : Store) (ticket : TicketRow) : Store :=
  { db with tickets := db.tickets ++ [ticket] }

/-- Modelled from the spec: update the ticket row(s) with the given natural key
(position id) to the given field values, except that the consumed flag is owned
by downstream redemption logic and is never written by this core
(query `updateDevconnectPretixTicket`; spec sections 3 and 4.5). -/
def updateDevconnectPretixTicket (db : Store) (ticket : TicketRow) : Store :=
  { db with
    tickets := db.tickets.map (fun old =>
      if old.position_id == ticket.position_id then
        { ticket with is_consumed := old.is_consumed }
      else old) }

/-- Modelled from the spec: soft-delete the ticket row(s) with the given natural
key (query `softDeleteDevconnectPretixTicket`). -/
def softDeleteDevconnectPretixTicket (db : Store) (ticket : TicketRow) : Store :=
  { db with
    tickets := db.tickets.map (fun old =>
      if old.position_id == ticket.position_id then { old with is_deleted := true } else old) }

/-- Modelled from the spec: provider names are localized maps resolved to one
display string; names are modelled as the resolved string, so the resolver is
the identity (`getI18nString`, not part of the embedded sources). -/
def getI18nString (s : String) : String := s

/-- Modelled from the spec: two tickets differ when any comparison-relevant
field differs — email, name, owning item, and the other consumed-independent
fields (soft-delete flag and secret); the consumed flag is never compared
(`pretixTicketsDifferent` from `util/devconnectTicket`, not part of the
embedded sources; spec section 4.4). -/
def pretixTicketsDifferent (oldTicket newTicket : TicketRow) : Bool :=
  oldTicket.email != newTicket.email ||
  oldTicket.full_name != newTicket.full_name ||
  oldTicket.devconnect_pretix_items_info_id != newTicket.devconnect_pretix_items_info_id ||
  oldTicket.is_deleted != newTicket.is_deleted ||
  oldTicket.secret != newTicket.secret

/-- Transcribes `validateEventSettings`: both attendee-email flags must be true. -/
def validateEventSettings (settings : PretixSettings) : List String :=
  if !(settings.attendee_emails_asked) || !(settings.attendee_emails_required) then
    ["Ask for email addresses per ticket setting should be set to Ask and require input"]
  else []

/-- Transcribes `validateEventItem`: the item must be an admission product, must
be personalized, and `generate_tickets` must be null/undefined (`none`) or
`false`.  The source pushes one error per violated rule; interpolated ids are
abstracted to fixed messages. -/
def validateEventItem (item : PretixItem) : List String :=
  (if item.admission != true then ["Product type is not Admission"] else []) ++
  (if item.personalized != true then ["Personalization is not set to Personalized ticket"] else []) ++
  (if item.generate_tickets == some true then
    ["Generate tickets is not set to Choose automatically or Never"]
  else [])

/-- Transcribes `checkEventData`: one combined error if the settings are invalid,
then one combined error per active item that fails `validateEventItem`;
non-active items are never validated.  The JS `Set` of active ids is modelled by
list membership; interpolated message contents are abstracted. -/
def checkEventData (eventData : EventData) (eventConfig : EventConfig) : List String :=
  (if (validateEventSettings eventData.settings).length > 0 then
    ["Event settings are invalid"]
  else []) ++
  (eventData.items.filter (fun item =>
      eventConfig.activeItemIDs.contains (toString item.id) &&
      (validateEventItem item).length > 0)).map
    (fun _ => "Product in event is invalid")

/-- The JS truthiness fallback `attendee_email || order.email`: `none` and the
empty string are falsy. -/
def jsEmailOr (attendeeEmail : Option String) (orderEmail : String) : String :=
  match attendeeEmail with
  | none => orderEmail
  | some s => if s == "" then orderEmail else s

/-- One loop iteration of `ordersToDevconnectTickets` for a single position of a
paid order: look the item up in the item-info map (JS `Map` semantics: the last
binding for a key wins); drop the position silently if there is no match,
otherwise build the ticket with the lowercased email fallback. -/
def positionToTicket (order : PretixOrder) (itemsInfo : List ItemInfoRow)
    (p : PretixPosition) : Option TicketRow :=
  match (itemsInfo.filter (fun i => i.item_id == toString p.item)).getLast? with
  | none => none
  | some existingItem =>
    some
      { email := (jsEmailOr p.attendee_email order.email).toLower
        full_name := p.attendee_name
        devconnect_pretix_items_info_id := existingItem.id
        is_deleted := false
        is_consumed := false
        position_id := toString p.id
        secret := p.secret }

/-- Transcribes `ordersToDevconnectTickets`: skip any order whose status is not
`"p"` (paid); for each position of a paid order, convert it with
`positionToTicket` (dropped positions are skipped silently). -/
def ordersToDevconnectTickets (orders : List PretixOrder) (itemsInfo : List ItemInfoRow) :
    List TicketRow :=
  orders.flatMap (fun order =>
    if order.status != "p" then []
    else order.positions.filterMap (positionToTicket order itemsInfo))

/-- Which write `syncEventInfos` performed. -/
inductive EventInfoAction where
  | inserted
  | updated
deriving DecidableEq

/-- Result of the event-info phase: success flag, the write that was applied and
the store afterwards. -/
structure EventInfoStep where
  success : Bool
  action : Option EventInfoAction
  db : Store
deriving DecidableEq

/-- Transcribes `syncEventInfos`: upsert the EventInfo row for the event-config
id — insert when absent, otherwise an unconditional update with the fetched
display name and `is_deleted = false`. -/
def syncEventInfos (db : Store) (event : EventConfig) (eventInfo : PretixEventMeta) :
    EventInfoStep :=
  match fetchPretixEventInfo db event.id with
  | none => ⟨true, some .inserted, insertPretixEventsInfo db eventInfo.name event.id⟩
  | some existingEvent =>
    ⟨true, some .updated, updatePretixEventsInfo db existingEvent.id eventInfo.name false⟩

/-- Why the item-info phase failed. -/
inductive ItemSyncError where
  | missingEventInfo
  | activeItemsMissing
deriving DecidableEq

/-- Result of the item-info phase: success flag, error (if any), the three write
sets in source order (inserts, updates, soft-deletes) and the store afterwards. -/
structure ItemSyncResult where
  success : Bool
  error : Option ItemSyncError
  inserted : List PretixItem
  updated : List PretixItem
  removed : List ItemInfoRow
  db : Store
deriving DecidableEq

/-- The last binding of a key in an item-info list, mirroring JS `Map`
construction where a later entry for the same key overwrites an earlier one. -/
def lastItemBinding (l : List ItemInfoRow) (key : String) : Option ItemInfoRow :=
  (l.filter (fun i => i.item_id == key)).getLast?

/-- Step 1 of `syncItemInfos`: insert the new active items, in order. -/
def applyItemInserts (db : Store) (eventInfoID : Nat) (xs : List PretixItem) : Store :=
  xs.foldl
    (fun d item => insertPretixItemsInfo d (toString item.id) eventInfoID (getI18nString item.name))
    db

/-- Step 2 of `syncItemInfos`: update each changed item, addressing the row via
the pre-read map of existing rows. -/
def applyItemUpdates (db : Store) (existingItemsInfo : List ItemInfoRow) (xs : List PretixItem) :
    Store :=
  xs.foldl
    (fun d item =>
      match lastItemBinding existingItemsInfo (toString item.id) with
      | some oldItem => updatePretixItemsInfo d oldItem.id (getI18nString item.name) false
      | none => d)
    db

/-- Step 3 of `syncItemInfos`: soft-delete the no-longer-active rows. -/
def applyItemRemovals (db : Store) (xs : List ItemInfoRow) : Store :=
  xs.foldl (fun d item => softDeletePretixItemInfo d item.id) db

/-- Transcribes `syncItemInfos`: look up the EventInfo row (hard failure when
absent), fail with no writes when a configured active item id is missing from
the fetched items (configuration drift), otherwise insert the new active items,
update the active items whose stored name differs, and soft-delete the existing
rows that are no longer active. -/
def syncItemInfos (db : Store) (event : EventConfig) (itemsFromAPI : List PretixItem) :
    ItemSyncResult :=
  match fetchPretixEventInfo db event.id with
  | none => ⟨false, some .missingEventInfo, [], [], [], db⟩
  | some eventInfo =>
    let newItemIDs := itemsFromAPI.map (fun i => toString i.id)
    if event.activeItemIDs.any (fun i => !(newItemIDs.contains i)) then
      ⟨false, some .activeItemsMissing, [], [], [], db⟩
    else
      let newActiveItems := itemsFromAPI.filter
        (fun i => event.activeItemIDs.contains (toString i.id))
      let existingItemsInfo := fetchPretixItemsInfoByEvent db eventInfo.id
      let itemsToInsert := newActiveItems.filter
        (fun i => !(existingItemsInfo.any (fun e => e.item_id == toString i.id)))
      let db1 := applyItemInserts db eventInfo.id itemsToInsert
      let itemsToUpdate := (newActiveItems.filter
          (fun i => existingItemsInfo.any (fun e => e.item_id == toString i.id))).filter
        (fun i =>
          match lastItemBinding existingItemsInfo (toString i.id) with
          | some oldItem => oldItem.item_name != getI18nString i.name
          | none => false)
      let db2 := applyItemUpdates db1 existingItemsInfo itemsToUpdate
      let itemsToRemove := existingItemsInfo.filter
        (fun e => !(newActiveItems.any (fun i => toString i.id == e.item_id)))
      let db3 := applyItemRemovals db2 itemsToRemove
      ⟨true, none, itemsToInsert, itemsToUpdate, itemsToRemove, db3⟩

/-- Why the ticket phase failed. -/
inductive TicketSyncError where
  | missingEventInfo
deriving DecidableEq

/-- Result of the ticket phase: success flag, error (if any), the three write
sets in source order and the store afterwards. -/
structure TicketSyncResult where
  success : Bool
  error : Option TicketSyncError
  inserted : List TicketRow
  updated : List TicketRow
  removed : List TicketRow
  db : Store
deriving DecidableEq

/-- The last binding of a position id in a ticket list, mirroring JS `Map`
construction. -/
def lastTicketBinding (l : List TicketRow) (pos : String) : Option TicketRow :=
  (l.filter (fun t => t.position_id == pos)).getLast?

/-- Step 1 of `syncTickets`: insert the new tickets, in order. -/
def applyTicketInserts (db : Store) (xs : List TicketRow) : Store :=
  xs.foldl (fun d t => insertDevconnectPretixTicket d t) db

/-- Step 2 of `syncTickets`: update the changed tickets, in order. -/
def applyTicketUpdates (db : Store) (xs : List TicketRow) : Store :=
  xs.foldl (fun d t => updateDevconnectPretixTicket d t) db

/-- Step 3 of `syncTickets`: soft-delete the disappeared tickets, in order. -/
def applyTicketRemovals (db : Store) (xs : List TicketRow) : Store :=
  xs.foldl (fun d t => softDeleteDevconnectPretixTicket d t) db

/-- Transcribes `syncTickets`: look up the EventInfo row (hard failure when
absent), re-fetch the item-info rows written by the item phase, convert the
orders to tickets, then diff against the existing tickets by position id:
insert the tickets absent from the store, update the present ones for which
`pretixTicketsDifferent` holds against the last stored binding, and soft-delete
the stored tickets absent from the fetch. -/
def syncTickets (db : Store) (event : EventConfig) (pretixOrders : List PretixOrder) :
    TicketSyncResult :=
  match fetchPretixEventInfo db event.id with
  | none => ⟨false, some .missingEventInfo, [], [], [], db⟩
  | some eventInfo =>
    let updatedItemsInfo := fetchPretixItemsInfoByEvent db eventInfo.id
    let ticketsFromPretix := ordersToDevconnectTickets pretixOrders updatedItemsInfo
    let existingTickets := fetchDevconnectPretixTicketsByEvent db event.id
    let newTickets := ticketsFromPretix.filter
      (fun t => !(existingTickets.any (fun e => e.position_id == t.position_id)))
    let db1 := applyTicketInserts db newTickets
    let updatedTickets := (ticketsFromPretix.filter
        (fun t => existingTickets.any (fun e => e.position_id == t.position_id))).filter
      (fun t =>
        match lastTicketBinding existingTickets t.position_id with
        | some oldTicket => pretixTicketsDifferent oldTicket t
        | none => false)
    let db2 := applyTicketUpdates db1 updatedTickets
    let removedTickets := existingTickets.filter
      (fun e => !(ticketsFromPretix.any (fun t => t.position_id == e.position_id)))
    let db3 := applyTicketRemovals db2 removedTickets
    ⟨true, none, newTickets, updatedTickets, removedTickets, db3⟩

/-- Result of `syncEvent`: the three phase results (a phase that never ran is
`none`) and the store afterwards. -/
structure EventSyncResult where
  eventInfoStep : EventInfoStep
  itemResult : Option ItemSyncResult
  ticketResult : Option TicketSyncResult
  db : Store
deriving DecidableEq

/-- Transcribes `syncEvent`: run the three phases strictly in order, aborting
the remaining phases (only) of this event when a phase fails; earlier phases'
writes stand. -/
def syncEvent (db : Store) (event : EventConfig) (eventData : EventData) : EventSyncResult :=
  let s1 := syncEventInfos db event eventData.eventInfo
  if s1.success = false then ⟨s1, none, none, s1.db⟩
  else
    let ir := syncItemInfos s1.db event eventData.items
    if ir.success = false then ⟨s1, some ir, none, ir.db⟩
    else
      let tr := syncTickets ir.db event eventData.tickets
      ⟨s1, some ir, some tr, tr.db⟩

/-- The items the item-info phase of an event sync inserted. -/
def itemInsertsOf (r : EventSyncResult) : List PretixItem :=
  match r.itemResult with
  | some ir => ir.inserted
  | none => []

/-- The items the item-info phase of an event sync updated. -/
def itemUpdatesOf (r : EventSyncResult) : List PretixItem :=
  match r.itemResult with
  | some ir => ir.updated
  | none => []

/-- The rows the item-info phase of an event sync soft-deleted. -/
def itemRemovalsOf (r : EventSyncResult) : List ItemInfoRow :=
  match r.itemResult with
  | some ir => ir.removed
  | none => []

/-- The success flag of the item-info phase (when it ran). -/
def itemSuccessOf (r : EventSyncResult) : Option Bool :=
  match r.itemResult with
  | some ir => some ir.success
  | none => none

/-- The error of the item-info phase (when it ran and failed). -/
def itemErrorOf (r : EventSyncResult) : Option ItemSyncError :=
  match r.itemResult with
  | some ir => ir.error
  | none => none

/-- The tickets the ticket phase of an event sync inserted. -/
def ticketInsertsOf (r : EventSyncResult) : List TicketRow :=
  match r.ticketResult with
  | some tr => tr.inserted
  | none => []

/-- The tickets the ticket phase of an event sync updated. -/
def ticketUpdatesOf (r : EventSyncResult) : List TicketRow :=
  match r.ticketResult with
  | some tr => tr.updated
  | none => []

/-- Why a whole organizer's pass aborted (the caught exception of
`syncOrganizer`). -/
inductive OrgError where
  | fetchFailed (msg : String)
  | validationFailed (errors : List String)
deriving DecidableEq

/-- Transcribes the `Promise.all` over per-event `fetchEventData` calls in
`syncOrganizer`: a single rejection rejects the whole batch.  The provider is
modelled as a function from event config to an `Except`-valued fetch result
(one value standing for the conjunction of the four per-event calls, all of
which must succeed). -/
def fetchAllEventData (events : List EventConfig)
    (fetchData : EventConfig → Except String EventData) :
    Except String (List (EventConfig × EventData)) :=
  match events with
  | [] => .ok []
  | e :: rest =>
    match fetchData e with
    | .error msg => .error msg
    | .ok d =>
      match fetchAllEventData rest fetchData with
      | .error msg => .error msg
      | .ok ds => .ok ((e, d) :: ds)

/-- Sequentially apply `syncEvent` to each event, collecting the per-event
results (transcribes the `Promise.allSettled` fan-out, linearized in
configuration order; `syncEvent` isolates its own errors, so no result can
reject). -/
def syncAllEvents (db : Store) (allEventData : List (EventConfig × EventData)) :
    List EventSyncResult × Store :=
  allEventData.foldl
    (fun acc ed =>
      let r := syncEvent acc.2 ed.1 ed.2
      (acc.1 ++ [r], r.db))
    ([], db)

/-- Transcribes `syncOrganizer`: fetch all events' data (any rejection aborts
the organizer), validate every event and concatenate all violations, abort the
organizer with no writes when any violation exists, otherwise sync each event.
The surrounding try/catch converts both failure modes into a caught, reported
error, so the function is total and an error leaves the store exactly as it
was — no store call precedes either throw in the source. -/
def syncOrganizer (db : Store) (organizer : OrganizerConfig)
    (fetchData : EventConfig → Except String EventData) :
    Except OrgError (List EventSyncResult) × Store :=
  match fetchAllEventData organizer.events fetchData with
  | .error msg => (.error (.fetchFailed msg), db)
  | .ok allEventData =>
    let errors := allEventData.flatMap (fun ed => checkEventData ed.2 ed.1)
    if errors.length > 0 then (.error (.validationFailed errors), db)
    else
      let r := syncAllEvents db allEventData
      (.ok r.1, r.2)

/-- Transcribes `sync`: one task per organizer, joined with `Promise.all`
(linearized in configuration order).  Each organizer task catches its own
failures (`syncOrganizer` is total), so no failure propagates to the join
point; the per-organizer outcomes are collected for observation. -/
def sync (db : Store) (organizers : List OrganizerConfig)
    (fetchData : OrganizerConfig → EventConfig → Except String EventData) :
    List (Except OrgError (List EventSyncResult)) × Store :=
  organizers.foldl
    (fun acc org =>
      let r := syncOrganizer acc.2 org (fetchData org)
      (acc.1 ++ [r.1], r.2))
    ([], db)

/-- Whether an organizer outcome is the caught fetch failure. -/
def outcomeIsFetchFailed (r : Except OrgError (List EventSyncResult)) : Bool :=
  match r with
  | .error (.fetchFailed _) => true
  | _ => false

/-- Whether an organizer outcome is the caught validation failure. -/
def outcomeIsValidationFailed (r : Except OrgError (List EventSyncResult)) : Bool :=
  match r with
  | .error (.validationFailed _) => true
  | _ => false

/-- Whether an organizer outcome is any caught failure. -/
def outcomeFailed (r : Except OrgError (List EventSyncResult)) : Bool :=
  match r with
  | .error _ => true
  | .ok _ => false

/-- Service state relevant to one `trySync` pass: the readiness flag
`_hasCompletedSyncSinceStarting` and the store. -/
structure ServiceState where
  hasCompletedSyncSinceStarting : Bool
  db : Store
deriving DecidableEq

/-- The environment of one `trySync` pass: either the configuration load fails
(`getDevconnectPretixConfig` rejects or returns null), or it yields a
configuration together with the provider fetch behaviour and whether the
downstream `semaphoreService.reload()` succeeds. -/
inductive PassInput where
  | configLoadFailure
  | pass (organizers : List OrganizerConfig)
      (fetchData : OrganizerConfig → EventConfig → Except String EventData)
      (reloadOk : Bool)

/-- Transcribes `trySync`: on configuration-load failure the caught error leaves
flag and store untouched; otherwise `sync` runs (its writes stand), then the
group-membership reload, and only if that also returns does the flag become
true.  The per-organizer outcomes are returned for observation (`none` when the
pass never reached `sync`). -/
def trySync (st : ServiceState) (input : PassInput) :
    ServiceState × Option (List (Except OrgError (List EventSyncResult))) :=
  match input with
  | .configLoadFailure => (st, none)
  | .pass organizers fetchData reloadOk =>
    let r := sync st.db organizers fetchData
    if reloadOk then ({ hasCompletedSyncSinceStarting := true, db := r.2 }, some r.1)
    else ({ st with db := r.2 }, some r.1)

/-- The service state at process start: the constructor sets
`_hasCompletedSyncSinceStarting = false`. -/
def initialServiceState (db : Store) : ServiceState :=
  ⟨false, db⟩

/-- A sequence of `trySync` passes driven by the timer loop. -/
def runPasses (st : ServiceState) (inputs : List PassInput) : ServiceState :=
  inputs.foldl (fun s i => (trySync s i).1) st

/-- Whether a pass input loads its configuration and completes the downstream
reload — the only two awaited steps of `trySync` that can throw. -/
def passLoadsAndReloads (input : PassInput) : Bool :=
  match input with
  | .configLoadFailure => false
  | .pass _ _ reloadOk => reloadOk

/-- Lifecycle state of the service object: the `timeout` field (never cleared
by `stop`), whether a scheduled next-run timer is actually live, the API
handle, the readiness flag and a fresh-handle counter.  `startSyncLoop` is
modelled at the point where its first pass has completed and `setTimeout` has
stored a fresh handle. -/
structure SyncLoopState where
  api : Nat
  timeout : Option Nat
  pendingTimer : Bool
  hasCompleted : Bool
  nextHandle : Nat
deriving DecidableEq

/-- Transcribes `startSyncLoop` (after the first pass settles): a fresh timer
handle is stored in `this.timeout` and a next run is pending. -/
def startSyncLoop (s : SyncLoopState) : SyncLoopState :=
  { s with timeout := some s.nextHandle, pendingTimer := true, nextHandle := s.nextHandle + 1 }

/-- Transcribes `stop`: `clearTimeout(this.timeout)` cancels the pending timer
when the field is set, but the field itself is never cleared. -/
def stop (s : SyncLoopState) : SyncLoopState :=
  if s.timeout.isSome then { s with pendingTimer := false } else s

/-- Transcribes `replaceApi`: observe `wasRunning = !!this.timeout`, stop if it
was running, swap the API, reset the readiness flag, and restart the loop if it
was running. -/
def replaceApi (s : SyncLoopState) (newAPI : Nat) : SyncLoopState :=
  let wasRunning := s.timeout.isSome
  let s1 := if wasRunning then stop s else s
  let s2 := { s1 with api := newAPI, hasCompleted := false }
  if wasRunning then startSyncLoop s2 else s2

/-- The view of a ticket table that the consumed-flag frame property speaks
about: each row's natural key paired with its consumed flag, in row order. -/
def consumedView (l : List TicketRow) : List (String × Bool) :=
  l.map (fun t => (t.position_id, t.is_consumed))

/-- A ticket table evolved from `l` without touching any existing row's
consumed flag: positionally, the old rows keep their key and consumed flag, and
every appended row has the consumed flag initialized to false. -/
def ConsumedPreserved (l l' : List TicketRow) : Prop :=
  ∃ ext, consumedView l' = consumedView l ++ ext ∧ ∀ p ∈ ext, p.2 = false

/-- Sanity side conditions on a store: row ids in the event and item tables are
unique and below the fresh-id counter (what serial primary keys give a real
database). -/
def WFStore (db : Store) : Prop :=
  (db.events.map (fun r => r.id)).Nodup ∧
  (db.items.map (fun r => r.id)).Nodup ∧
  (∀ r ∈ db.events, r.id < db.nextId) ∧
  (∀ r ∈ db.items, r.id < db.nextId)

/-- The tickets the ticket phase of an event sync soft-deleted. -/
def ticketRemovalsOf (r : EventSyncResult) : List TicketRow :=
  match r.ticketResult with
  | some tr => tr.removed
  | none => []

/-- The rows `applyItemInserts` appends when called with fresh-id counter `n`:
one active row per item, with consecutive ids. -/
def insertedItemRows (n : Nat) (eventInfoID : Nat) : List PretixItem → List ItemInfoRow
  | [] => []
  | x :: rest =>
    ⟨n, toString x.id, eventInfoID, getI18nString x.name, false⟩ ::
      insertedItemRows (n + 1) eventInfoID rest

/-- The row-level effect of one `updatePretixItemsInfo` call issued by the
update step of the item phase for the fetched item `item`. -/
def itemUpdateStep (existing : List ItemInfoRow) (item : PretixItem) (r : ItemInfoRow) :
    ItemInfoRow :=
  match lastItemBinding existing (toString item.id) with
  | some oldItem =>
    if r.id == oldItem.id then
      { r with item_name := getI18nString item.name, is_deleted := false }
    else r
  | none => r

/-- The row-level effect of the whole update step of the item phase. -/
def itemUpdateFn (existing : List ItemInfoRow) (xs : List PretixItem) (row : ItemInfoRow) :
    ItemInfoRow :=
  xs.foldl (fun r item => itemUpdateStep existing item r) row

/-- The row-level effect of the whole soft-delete step of the item phase. -/
def itemRemoveFn (xs : List ItemInfoRow) (row : ItemInfoRow) : ItemInfoRow :=
  xs.foldl (fun r x => if r.id == x.id then { r with is_deleted := true } else r) row

/-- The row-level effect of one update of the ticket phase. -/
def ticketUpdateStep (t old : TicketRow) : TicketRow :=
  if old.position_id == t.position_id then { t with is_consumed := old.is_consumed } else old

/-- The row-level effect of the whole update step of the ticket phase. -/
def ticketUpdateFn (xs : List TicketRow) (row : TicketRow) : TicketRow :=
  xs.foldl (fun r t => ticketUpdateStep t r) row

/-- The row-level effect of the whole soft-delete step of the ticket phase. -/
def ticketRemoveFn (xs : List TicketRow) (row : TicketRow) : TicketRow :=
  xs.foldl (fun r t => if r.position_id == t.position_id then { r with is_deleted := true } else r)
    row

/-- The active-item sublist of a fetch; abbreviates the `newActiveItems` local
of `syncItemInfos` for the statements below. -/
def newActiveOf (event : EventConfig) (items : List PretixItem) : List PretixItem :=
  items.filter (fun i => event.activeItemIDs.contains (toString i.id))

/-- The insert set of the item phase, as a function of the pre-read rows `E`
and the active items `NA`. -/
def itemsToInsertOf (E : List ItemInfoRow) (NA : List PretixItem) : List PretixItem :=
  NA.filter (fun i => !(E.any (fun e => e.item_id == toString i.id)))

/-- The update set of the item phase. -/
def itemsToUpdateOf (E : List ItemInfoRow) (NA : List PretixItem) : List PretixItem :=
  (NA.filter (fun i => E.any (fun e => e.item_id == toString i.id))).filter
    (fun i =>
      match lastItemBinding E (toString i.id) with
      | some oldItem => oldItem.item_name != getI18nString i.name
      | none => false)

/-- The soft-delete set of the item phase. -/
def itemsToRemoveOf (E : List ItemInfoRow) (NA : List PretixItem) : List ItemInfoRow :=
  E.filter (fun e => !(NA.any (fun i => toString i.id == e.item_id)))

/-- The insert set of the ticket phase, as a function of the existing tickets
`ET` and the converted tickets `T`. -/
def ticketsToInsertOf (ET T : List TicketRow) : List TicketRow :=
  T.filter (fun t => !(ET.any (fun e => e.position_id == t.position_id)))

/-- The update set of the ticket phase. -/
def ticketsToUpdateOf (ET T : List TicketRow) : List TicketRow :=
  (T.filter (fun t => ET.any (fun e => e.position_id == t.position_id))).filter
    (fun t =>
      match lastTicketBinding ET t.position_id with
      | some oldTicket => pretixTicketsDifferent oldTicket t
      | none => false)

/-- The soft-delete set of the ticket phase. -/
def ticketsToRemoveOf (ET T : List TicketRow) : List TicketRow :=
  ET.filter (fun e => !(T.any (fun t => t.position_id == e.position_id)))

/-- Whether a provider fetch result is a rejection. -/
def fetchRejected (r : Except String EventData) : Bool :=
  match r with
  | .error _ => true
  | .ok _ => false

/-! Concrete inputs used by the witnesses and counterexamples below. -/

/-- An empty store. -/
def exEmptyStore : Store := ⟨0, [], [], []⟩

/-- An event config with no active items. -/
def exEventConfig : EventConfig := ⟨"cfg1", "event1", []⟩

/-- A second event config with no active items. -/
def exEventConfig2 : EventConfig := ⟨"cfg2", "event2", []⟩

/-- Event data that passes validation (both settings flags true, nothing else). -/
def exGoodData : EventData := ⟨⟨true, true⟩, ⟨"slug", "Event Name"⟩, [], []⟩

/-- Event data that fails validation (both settings flags false). -/
def exBadData : EventData := ⟨⟨false, false⟩, ⟨"slug", "Event Name"⟩, [], []⟩

/-- An organizer with two configured events. -/
def exOrgTwoEvents : OrganizerConfig :=
  ⟨1, "https://org.example", "token", [exEventConfig, exEventConfig2]⟩

/-- A provider that rejects the fetch for the first event and returns valid data
for every other event. -/
def exFetchFailFirst : EventConfig → Except String EventData :=
  fun e => if e.eventID == "event1" then .error "connection refused" else .ok exGoodData

/-- An organizer with one event (used with invalid data). -/
def exOrgBad : OrganizerConfig := ⟨2, "https://bad.example", "token", [exEventConfig]⟩

/-- An organizer with one event (used with valid data). -/
def exOrgGood : OrganizerConfig := ⟨3, "https://good.example", "token", [exEventConfig]⟩

/-- A provider that always returns the valid data. -/
def exFetchGood : EventConfig → Except String EventData := fun _ => .ok exGoodData

/-- A provider that always returns the invalid data. -/
def exFetchBad : EventConfig → Except String EventData := fun _ => .ok exBadData

/-- A provider keyed on the organizer: invalid data for organizer 2, valid data
otherwise. -/
def exFetchPerOrg : OrganizerConfig → EventConfig → Except String EventData :=
  fun org _ => if org.id == 2 then .ok exBadData else .ok exGoodData

/-- An event config whose allow-list contains item id 7. -/
def exC2Event : EventConfig := ⟨"cfg1", "event1", ["7"]⟩

/-- Event data with one valid active item (id 7) and one paid order with one
position for it. -/
def exC2Data : EventData :=
  ⟨⟨true, true⟩, ⟨"slug", "Event Name"⟩,
    [⟨7, "General Admission", true, true, none⟩],
    [⟨"ORD1", "Buyer@X.com", "p", [⟨101, 1, 7, some "Alice", some "A@X.com", "sec1"⟩]⟩]⟩

/-- An event config whose allow-list names item id 42, which no fetch below
returns. -/
def exC5Event : EventConfig := ⟨"cfg1", "event1", ["42"]⟩

/-! General list helpers (kept version-independent). -/

theorem list_map_id_of_eq {α : Type} {l : List α} {f : α → α} (h : ∀ a ∈ l, f a = a) :
    l.map f = l := by
  induction l with
  | nil => rfl
  | cons a t ih =>
    simp only [List.map_cons]
    rw [h a (by simp), ih (fun b hb => h b (by simp [hb]))]

theorem list_filter_eq_nil {α : Type} {l : List α} {p : α → Bool}
    (h : ∀ a ∈ l, p a = false) : l.filter p = [] := by
  induction l with
  | nil => rfl
  | cons a t ih =>
    rw [List.filter_cons, h a (by simp)]
    exact ih (fun b hb => h b (by simp [hb]))

theorem list_find?_append_none {α : Type} {l₁ : List α} (l₂ : List α) {p : α → Bool}
    (h : l₁.find? p = none) : (l₁ ++ l₂).find? p = l₂.find? p := by
  induction l₁ with
  | nil => rfl
  | cons a t ih =>
    cases hpa : p a with
    | true => simp [List.find?, hpa] at h
    | false =>
      simp only [List.find?, hpa] at h
      simp only [List.cons_append, List.find?, hpa]
      exact ih h

theorem list_find?_append_some {α : Type} {l₁ : List α} (l₂ : List α) {p : α → Bool} {a : α}
    (h : l₁.find? p = some a) : (l₁ ++ l₂).find? p = some a := by
  induction l₁ with
  | nil => simp [List.find?] at h
  | cons b t ih =>
    cases hpb : p b with
    | true =>
      simp only [List.find?, hpb] at h
      simp only [List.cons_append, List.find?, hpb]
      exact h
    | false =>
      simp only [List.find?, hpb] at h
      simp only [List.cons_append, List.find?, hpb]
      exact ih h

theorem list_find?_map_pres {α : Type} {l : List α} {f : α → α} {p : α → Bool}
    (hf : ∀ a, p (f a) = p a) : (l.map f).find? p = (l.find? p).map f := by
  induction l with
  | nil => rfl
  | cons a t ih =>
    cases hpa : p a with
    | true => simp only [List.map_cons, List.find?, hf a, hpa]; rfl
    | false => simp only [List.map_cons, List.find?, hf a, hpa]; exact ih

theorem list_getLast?_append {α : Type} (l₁ l₂ : List α) :
    (l₁ ++ l₂).getLast? = match l₂.getLast? with
      | some a => some a
      | none => l₁.getLast? := by
  cases h : l₂.getLast? with
  | some a =>
    have h2 : l₂ ≠ [] := by
      intro hnil; rw [hnil] at h; simp at h
    simp [List.getLast?_append_of_ne_nil, h2, h]
  | none =>
    have h2 : l₂ = [] := by
      cases l₂ with
      | nil => rfl
      | cons b t => simp [List.getLast?_cons] at h
    simp [h2]

theorem list_getLast?_map {α β : Type} (l : List α) (f : α → β) :
    (l.map f).getLast? = (l.getLast?).map f := by
  induction l with
  | nil => rfl
  | cons a t ih =>
    cases t with
    | nil => rfl
    | cons b u =>
      simp only [List.map_cons, List.getLast?_cons_cons] at *
      exact ih

theorem list_map_congr {α β : Type} {l : List α} {f g : α → β}
    (h : ∀ a ∈ l, f a = g a) : l.map f = l.map g := by
  induction l with
  | nil => rfl
  | cons a t ih =>
    simp only [List.map_cons]
    rw [h a (by simp), ih (fun b hb => h b (by simp [hb]))]

theorem list_flatMap_ne_nil {α β : Type} {l : List α} {f : α → List β} {x : α}
    (hx : x ∈ l) (hfx : f x ≠ []) : l.flatMap f ≠ [] := by
  intro h
  rcases List.exists_mem_of_ne_nil _ hfx with ⟨b, hb⟩
  have : b ∈ l.flatMap f := List.mem_flatMap.mpr ⟨x, hx, hb⟩
  rw [h] at this
  simp at this

/-! Claim C8: orders whose status is not paid contribute no tickets. -/

/-- C8: for every list of fetched orders, an order whose status is not `"p"`
("paid" on the wire) contributes zero tickets to the order-to-ticket
conversion, regardless of its positions: deleting it from the order list does
not change the conversion result. -/
theorem C8_non_paid_orders_contribute_nothing (itemsInfo : List ItemInfoRow)
    (pre post : List PretixOrder) (order : PretixOrder) (h : order.status ≠ "p") :
    ordersToDevconnectTickets (pre ++ order :: post) itemsInfo =
      ordersToDevconnectTickets (pre ++ post) itemsInfo := by
  unfold ordersToDevconnectTickets
  rw [List.flatMap_append, List.flatMap_cons, List.flatMap_append]
  have hb : (order.status != "p") = true := by
    simp [bne_iff_ne]; exact h
  rw [hb]
  simp

/-- Witness for C8 at a concrete pending order carrying a position. -/
theorem C8_non_paid_orders_contribute_nothing_witness :
    ("pending" ≠ "p") ∧
    (ordersToDevconnectTickets
        ([] ++ (⟨"ORD2", "b@x.com", "pending",
            [⟨55, 1, 7, some "Bob", some "bob@x.com", "sec"⟩]⟩ : PretixOrder) :: []) [] =
      ordersToDevconnectTickets ([] ++ []) []) :=
  ⟨by decide,
    C8_non_paid_orders_contribute_nothing [] [] []
      ⟨"ORD2", "b@x.com", "pending", [⟨55, 1, 7, some "Bob", some "bob@x.com", "sec"⟩]⟩
      (by decide)⟩

/-! Claim C9: attendee-email fallback in the conversion. -/

/-- C9: for every position of an order whose item id matches a row of the
item-info map, the conversion produces a ticket (it never fails, even with a
missing attendee email), and its email is the attendee email lowercased when
present and non-empty, and the order's purchaser email lowercased otherwise. -/
theorem C9_email_fallback (order : PretixOrder) (itemsInfo : List ItemInfoRow)
    (p : PretixPosition) (item : ItemInfoRow)
    (h : lastItemBinding itemsInfo (toString p.item) = some item) :
    (positionToTicket order itemsInfo p).map (fun t => t.email) =
      some (match p.attendee_email with
        | some ae => if ae = "" then order.email.toLower else ae.toLower
        | none => order.email.toLower) := by
  unfold positionToTicket
  unfold lastItemBinding at h
  rw [h]
  simp only [Option.map_some]
  cases hae : p.attendee_email with
  | none => simp [jsEmailOr]
  | some ae =>
    by_cases h0 : ae = ""
    · simp [jsEmailOr, h0]
    · simp [jsEmailOr, h0]

/-- Witness for C9 at a concrete position lacking an attendee email: the ticket
gets the purchaser email lowercased. -/
theorem C9_email_fallback_witness :
    (lastItemBinding [⟨10, "7", 1, "General Admission", false⟩] (toString (7 : Nat)) =
      some ⟨10, "7", 1, "General Admission", false⟩) ∧
    ((positionToTicket ⟨"ORD1", "Buyer@X.com", "p", []⟩
          [⟨10, "7", 1, "General Admission", false⟩]
          ⟨101, 1, 7, some "Alice", none, "sec1"⟩).map (fun t => t.email) =
      some (match (none : Option String) with
        | some ae => if ae = "" then ("Buyer@X.com" : String).toLower else ae.toLower
        | none => ("Buyer@X.com" : String).toLower)) :=
  ⟨by decide,
    C9_email_fallback ⟨"ORD1", "Buyer@X.com", "p", []⟩
      [⟨10, "7", 1, "General Admission", false⟩]
      ⟨101, 1, 7, some "Alice", none, "sec1"⟩
      ⟨10, "7", 1, "General Admission", false⟩ (by decide)⟩

/-! Claim C10: `stop` does not clear the timer-handle field, so a later
`replaceApi` sees the service as running and restarts the loop. -/

/-- C10: after `startSyncLoop` and then `stop`, the `timeout` field still holds
the handle (`stop` never clears it) even though the pending timer is gone; a
subsequent `replaceApi` therefore observes `wasRunning = true` (`!!timeout`)
and restarts the loop. -/
theorem C10_stop_leaves_timeout_set (s : SyncLoopState) (newAPI : Nat) :
    (stop (startSyncLoop s)).timeout = some s.nextHandle ∧
    (stop (startSyncLoop s)).timeout.isSome = true ∧
    (stop (startSyncLoop s)).pendingTimer = false ∧
    (replaceApi (stop (startSyncLoop s)) newAPI).timeout.isSome = true ∧
    (replaceApi (stop (startSyncLoop s)) newAPI).pendingTimer = true := by
  simp [stop, startSyncLoop, replaceApi]

/-! Claim C7: the readiness flag. -/

/-- Helper: the readiness flag after a sequence of passes is the initial flag
or-ed with "some pass loaded its configuration and completed the reload". -/
theorem runPasses_flag (inputs : List PassInput) : ∀ st : ServiceState,
    (runPasses st inputs).hasCompletedSyncSinceStarting =
      (st.hasCompletedSyncSinceStarting || inputs.any passLoadsAndReloads) := by
  induction inputs with
  | nil => intro st; simp [runPasses]
  | cons i rest ih =>
    intro st
    have h1 : runPasses st (i :: rest) = runPasses ((trySync st i).1) rest := rfl
    rw [h1, ih]
    cases i with
    | configLoadFailure => simp [trySync, passLoadsAndReloads]
    | pass orgs f reloadOk =>
      cases reloadOk with
      | true => simp [trySync, passLoadsAndReloads]
      | false => simp [trySync, passLoadsAndReloads]

/-- C7 counterexample: one pass whose configuration loads and whose reload
succeeds, but which contains a validation failure (the organizer outcome is a
caught error), still sets the readiness flag — contradicting the claim that
the flag stays false while every completed pass contains a failure. -/
theorem C7_counterexample :
    (let res := trySync (initialServiceState exEmptyStore)
        (PassInput.pass [exOrgBad] (fun _ => exFetchBad) true);
      res.1.hasCompletedSyncSinceStarting = true ∧
      (res.2.getD []).any outcomeFailed = true) := by
  decide

/-- C7 as amended: starting from process start (flag false), the readiness flag
is true exactly when some completed pass loaded its configuration and completed
the downstream reload — regardless of fetch, validation, or phase failures
swallowed inside `sync`; it stays false only while every pass failed at
configuration load or at the reload. -/
theorem C7_amended_readiness_flag (db : Store) (inputs : List PassInput) :
    (runPasses (initialServiceState db) inputs).hasCompletedSyncSinceStarting =
      inputs.any passLoadsAndReloads := by
  rw [runPasses_flag]
  simp [initialServiceState]

/-! Claim C1: a fetch failure for one event and the rest of the organizer. -/

/-- Helper: if any event's fetch rejects, the whole `Promise.all` batch
rejects. -/
theorem fetchAllEventData_error {events : List EventConfig}
    {fetchData : EventConfig → Except String EventData}
    (h : events.any (fun e => fetchRejected (fetchData e)) = true) :
    ∃ msg, fetchAllEventData events fetchData = .error msg := by
  induction events with
  | nil => simp at h
  | cons e rest ih =>
    simp only [List.any_cons, Bool.or_eq_true] at h
    cases hfe : fetchData e with
    | error msg => exact ⟨msg, by simp [fetchAllEventData, hfe]⟩
    | ok d =>
      have hrest : rest.any (fun e => fetchRejected (fetchData e)) = true := by
        rcases h with h1 | h2
        · rw [hfe] at h1; simp [fetchRejected] at h1
        · exact h2
      obtain ⟨msg, hm⟩ := ih hrest
      exact ⟨msg, by simp [fetchAllEventData, hfe, hm]⟩

/-- C1 counterexample: organizer with two events; the provider fetch fails for
the first event only, while the second event's data is valid and would have
produced store writes on its own.  The organizer's pass performs no store write
at all — the second event is not synced — refuting the claim that only the
failed event's sync is aborted. -/
theorem C1_counterexample :
    (syncOrganizer exEmptyStore exOrgTwoEvents exFetchFailFirst).2 = exEmptyStore ∧
    outcomeIsFetchFailed (syncOrganizer exEmptyStore exOrgTwoEvents exFetchFailFirst).1 = true ∧
    fetchRejected (exFetchFailFirst exEventConfig2) = false ∧
    checkEventData exGoodData exEventConfig2 = [] ∧
    (syncEvent exEmptyStore exEventConfig2 exGoodData).db ≠ exEmptyStore := by
  decide

/-- C1 as amended: if the provider fetch fails for any event of an organizer,
the entire organizer's pass is aborted as a caught fetch failure: none of the
organizer's events is synced in this pass, and all the organizer's prior store
rows (including the failed event's) are left unchanged. -/
theorem C1_amended_fetch_failure_aborts_organizer (db : Store) (org : OrganizerConfig)
    (fetchData : EventConfig → Except String EventData)
    (h : org.events.any (fun e => fetchRejected (fetchData e)) = true) :
    (syncOrganizer db org fetchData).2 = db ∧
    outcomeIsFetchFailed (syncOrganizer db org fetchData).1 = true := by
  obtain ⟨msg, hm⟩ := fetchAllEventData_error h
  constructor
  · simp [syncOrganizer, hm]
  · simp [syncOrganizer, hm, outcomeIsFetchFailed]

/-- Witness for the amended C1 at the two-event organizer. -/
theorem C1_amended_fetch_failure_aborts_organizer_witness :
    (exOrgTwoEvents.events.any (fun e => fetchRejected (exFetchFailFirst e)) = true) ∧
    ((syncOrganizer exEmptyStore exOrgTwoEvents exFetchFailFirst).2 = exEmptyStore ∧
      outcomeIsFetchFailed (syncOrganizer exEmptyStore exOrgTwoEvents exFetchFailFirst).1 = true) :=
  ⟨by decide,
    C1_amended_fetch_failure_aborts_organizer exEmptyStore exOrgTwoEvents exFetchFailFirst
      (by decide)⟩

/-! Claim C3: any validation violation aborts the whole organizer with no
writes. -/

/-- C3: if all fetches succeed and validation reports at least one violation
for any event under an organizer, the organizer's pass performs no store write
for any of its events, and its outcome is the caught validation failure. -/
theorem C3_validation_failure_no_writes (db : Store) (org : OrganizerConfig)
    (fetchData : EventConfig → Except String EventData)
    (allEventData : List (EventConfig × EventData)) (ed : EventConfig × EventData)
    (hfetch : fetchAllEventData org.events fetchData = .ok allEventData)
    (hmem : ed ∈ allEventData) (hviol : checkEventData ed.2 ed.1 ≠ []) :
    (syncOrganizer db org fetchData).2 = db ∧
    outcomeIsValidationFailed (syncOrganizer db org fetchData).1 = true := by
  have hne : allEventData.flatMap (fun x => checkEventData x.2 x.1) ≠ [] :=
    list_flatMap_ne_nil hmem hviol
  have hlen : (allEventData.flatMap (fun x => checkEventData x.2 x.1)).length > 0 :=
    List.length_pos.mpr hne
  have hchar : syncOrganizer db org fetchData =
      (.error (.validationFailed (allEventData.flatMap fun x => checkEventData x.2 x.1)), db) := by
    unfold syncOrganizer
    simp only [hfetch]
    rw [if_pos hlen]
  rw [hchar]
  exact ⟨rfl, rfl⟩

/-- Witness for C3 at a one-event organizer whose settings fail validation. -/
theorem C3_validation_failure_no_writes_witness :
    (fetchAllEventData exOrgBad.events exFetchBad = .ok [(exEventConfig, exBadData)]) ∧
    ((exEventConfig, exBadData) ∈ [(exEventConfig, exBadData)]) ∧
    (checkEventData (exEventConfig, exBadData).2 (exEventConfig, exBadData).1 ≠ []) ∧
    ((syncOrganizer exEmptyStore exOrgBad exFetchBad).2 = exEmptyStore ∧
      outcomeIsValidationFailed (syncOrganizer exEmptyStore exOrgBad exFetchBad).1 = true) :=
  ⟨rfl, by decide, by decide,
    C3_validation_failure_no_writes exEmptyStore exOrgBad exFetchBad
      [(exEventConfig, exBadData)] (exEventConfig, exBadData) rfl (by decide) (by decide)⟩

/-! Claim C4: organizer isolation at the join point of `sync`. -/

/-- Helper: a caught organizer failure (fetch or validation) leaves the store
exactly as it was. -/
theorem syncOrganizer_failed_db {db : Store} {org : OrganizerConfig}
    {fetchData : EventConfig → Except String EventData}
    (h : outcomeFailed (syncOrganizer db org fetchData).1 = true) :
    (syncOrganizer db org fetchData).2 = db := by
  cases hf : fetchAllEventData org.events fetchData with
  | error msg => simp [syncOrganizer, hf]
  | ok all =>
    by_cases hl : (all.flatMap fun ed => checkEventData ed.2 ed.1).length > 0
    · unfold syncOrganizer
      simp only [hf]
      rw [if_pos hl]
    · exfalso
      unfold syncOrganizer at h
      simp only [hf] at h
      rw [if_neg hl] at h
      simp [outcomeFailed] at h

/-- C4: a failure caught inside organizer A's task (validation failure or any
other caught error) does not prevent organizer B from being fetched, validated
and synced in the same pass: the pass over `[A, B]` leaves the store exactly as
B's standalone sync from the original store would, and both organizers' tasks
settle at the join point with their own outcomes (no failure propagates). -/
theorem C4_organizer_isolation (db : Store) (A B : OrganizerConfig)
    (fetchData : OrganizerConfig → EventConfig → Except String EventData)
    (h : outcomeFailed (syncOrganizer db A (fetchData A)).1 = true) :
    (sync db [A, B] fetchData).2 = (syncOrganizer db B (fetchData B)).2 ∧
    (sync db [A, B] fetchData).1 =
      [(syncOrganizer db A (fetchData A)).1, (syncOrganizer db B (fetchData B)).1] := by
  have hdb := syncOrganizer_failed_db h
  unfold sync
  simp only [List.foldl_cons, List.foldl_nil]
  rw [hdb]
  simp

/-- Witness for C4: organizer 2 gets invalid data (validation failure), the
other organizer gets valid data and still syncs. -/
theorem C4_organizer_isolation_witness :
    (outcomeFailed (syncOrganizer exEmptyStore exOrgBad (exFetchPerOrg exOrgBad)).1 = true) ∧
    ((sync exEmptyStore [exOrgBad, exOrgGood] exFetchPerOrg).2 =
        (syncOrganizer exEmptyStore exOrgGood (exFetchPerOrg exOrgGood)).2 ∧
      (sync exEmptyStore [exOrgBad, exOrgGood] exFetchPerOrg).1 =
        [(syncOrganizer exEmptyStore exOrgBad (exFetchPerOrg exOrgBad)).1,
          (syncOrganizer exEmptyStore exOrgGood (exFetchPerOrg exOrgGood)).1]) :=
  ⟨by decide, C4_organizer_isolation exEmptyStore exOrgBad exOrgGood exFetchPerOrg (by decide)⟩

/-! Claim C5: allow-list drift fails the item phase closed. -/

/-- Helper: the event-info phase always reports success (store writes are
infallible in this model). -/
theorem syncEventInfos_success (db : Store) (event : EventConfig) (m : PretixEventMeta) :
    (syncEventInfos db event m).success = true := by
  unfold syncEventInfos
  cases fetchPretixEventInfo db event.id <;> rfl

/-- Helper: the event-info phase does not touch the item table. -/
theorem syncEventInfos_items (db : Store) (event : EventConfig) (m : PretixEventMeta) :
    (syncEventInfos db event m).db.items = db.items := by
  unfold syncEventInfos
  cases fetchPretixEventInfo db event.id <;> rfl

/-- Helper: the event-info phase does not touch the ticket table. -/
theorem syncEventInfos_tickets (db : Store) (event : EventConfig) (m : PretixEventMeta) :
    (syncEventInfos db event m).db.tickets = db.tickets := by
  unfold syncEventInfos
  cases fetchPretixEventInfo db event.id <;> rfl

/-- Helper: after the event-info phase, the EventInfo row for the event-config
id exists, with the fetched display name and the soft-delete flag cleared. -/
theorem fetch_after_syncEventInfos (db : Store) (event : EventConfig) (m : PretixEventMeta) :
    ∃ row, fetchPretixEventInfo (syncEventInfos db event m).db event.id = some row ∧
      row.event_name = m.name ∧ row.is_deleted = false := by
  unfold syncEventInfos
  cases hfind : fetchPretixEventInfo db event.id with
  | none =>
    refine ⟨⟨db.nextId, event.id, m.name, false⟩, ?_, rfl, rfl⟩
    unfold fetchPretixEventInfo at hfind ⊢
    simp only [insertPretixEventsInfo]
    rw [list_find?_append_none _ hfind]
    simp [List.find?]
  | some r =>
    refine ⟨{r with event_name := m.name, is_deleted := false}, ?_, rfl, rfl⟩
    unfold fetchPretixEventInfo at hfind ⊢
    simp only [updatePretixEventsInfo]
    have hpres := list_find?_map_pres (l := db.events)
      (f := fun q => if q.id == r.id then { q with event_name := m.name, is_deleted := false } else q)
      (p := fun q => q.pretix_events_config_id == event.id)
      (fun a => by cases hid : a.id == r.id <;> simp [hid])
    rw [hpres, hfind]
    simp

/-- Helper: with the EventInfo row present, a configured active item id missing
from the fetched items makes the item phase fail closed, with no writes. -/
theorem syncItemInfos_drift {db : Store} {event : EventConfig} {items : List PretixItem}
    {info : EventInfoRow} (hinfo : fetchPretixEventInfo db event.id = some info)
    (h : event.activeItemIDs.any
      (fun i => !((items.map (fun it => toString it.id)).contains i)) = true) :
    syncItemInfos db event items = ⟨false, some .activeItemsMissing, [], [], [], db⟩ := by
  unfold syncItemInfos
  simp only [hinfo, h]
  rfl

/-- Helper: under allow-list drift, `syncEvent` runs the event-info phase, fails
the item phase with no writes, and never reaches the ticket phase. -/
theorem syncEvent_drift {db : Store} {event : EventConfig} {eventData : EventData}
    (h : event.activeItemIDs.any
      (fun i => !((eventData.items.map (fun it => toString it.id)).contains i)) = true) :
    syncEvent db event eventData =
      ⟨syncEventInfos db event eventData.eventInfo,
        some ⟨false, some .activeItemsMissing, [], [], [],
          (syncEventInfos db event eventData.eventInfo).db⟩,
        none,
        (syncEventInfos db event eventData.eventInfo).db⟩ := by
  obtain ⟨row, hrow, -, -⟩ := fetch_after_syncEventInfos db event eventData.eventInfo
  have hs1 := syncEventInfos_success db event eventData.eventInfo
  have hitem := syncItemInfos_drift hrow h
  unfold syncEvent
  simp [hs1, hitem]

/-- C5: when the EventConfig allow-list contains an item id absent from the
fetched item list, the item-info phase performs zero ItemInfo writes (no
insert, update or soft-delete), reports the drift error, returns failure, and
the ticket phase of that event never runs (its store tables are untouched by
the rest of the event sync). -/
theorem C5_allow_list_drift_fail_closed (db : Store) (event : EventConfig)
    (eventData : EventData)
    (h : event.activeItemIDs.any
      (fun i => !((eventData.items.map (fun it => toString it.id)).contains i)) = true) :
    itemSuccessOf (syncEvent db event eventData) = some false ∧
    itemErrorOf (syncEvent db event eventData) = some .activeItemsMissing ∧
    itemInsertsOf (syncEvent db event eventData) = [] ∧
    itemUpdatesOf (syncEvent db event eventData) = [] ∧
    itemRemovalsOf (syncEvent db event eventData) = [] ∧
    (syncEvent db event eventData).ticketResult = none ∧
    (syncEvent db event eventData).db.items = db.items ∧
    (syncEvent db event eventData).db.tickets = db.tickets := by
  rw [syncEvent_drift h]
  refine ⟨rfl, rfl, rfl, rfl, rfl, rfl, ?_, ?_⟩
  · exact syncEventInfos_items db event eventData.eventInfo
  · exact syncEventInfos_tickets db event eventData.eventInfo

/-- Witness for C5: active item id 42 configured, fetch returns no items. -/
theorem C5_allow_list_drift_fail_closed_witness :
    (exC5Event.activeItemIDs.any
      (fun i => !((exGoodData.items.map (fun it => toString it.id)).contains i)) = true) ∧
    (itemSuccessOf (syncEvent exEmptyStore exC5Event exGoodData) = some false ∧
      itemErrorOf (syncEvent exEmptyStore exC5Event exGoodData) = some .activeItemsMissing ∧
      itemInsertsOf (syncEvent exEmptyStore exC5Event exGoodData) = [] ∧
      itemUpdatesOf (syncEvent exEmptyStore exC5Event exGoodData) = [] ∧
      itemRemovalsOf (syncEvent exEmptyStore exC5Event exGoodData) = [] ∧
      (syncEvent exEmptyStore exC5Event exGoodData).ticketResult = none ∧
      (syncEvent exEmptyStore exC5Event exGoodData).db.items = exEmptyStore.items ∧
      (syncEvent exEmptyStore exC5Event exGoodData).db.tickets = exEmptyStore.tickets) :=
  ⟨by decide,
    C5_allow_list_drift_fail_closed exEmptyStore exC5Event exGoodData (by decide)⟩

/-! Claim C6: the consumed flag is never touched. -/

/-- Splitting the consumed view over an append. -/
theorem consumedView_append (l l' : List TicketRow) :
    consumedView (l ++ l') = consumedView l ++ consumedView l' := by
  simp [consumedView]

/-- `ConsumedPreserved` is reflexive. -/
theorem cp_refl (l : List TicketRow) : ConsumedPreserved l l :=
  ⟨[], by simp, by simp⟩

/-- `ConsumedPreserved` is transitive. -/
theorem cp_trans {l₁ l₂ l₃ : List TicketRow}
    (h₁ : ConsumedPreserved l₁ l₂) (h₂ : ConsumedPreserved l₂ l₃) :
    ConsumedPreserved l₁ l₃ := by
  obtain ⟨e1, he1, hg1⟩ := h₁
  obtain ⟨e2, he2, hg2⟩ := h₂
  refine ⟨e1 ++ e2, ?_, ?_⟩
  · rw [he2, he1, List.append_assoc]
  · intro p hp
    rcases List.mem_append.mp hp with h | h
    · exact hg1 p h
    · exact hg2 p h

/-- Rewriting a lists' tickets by an equation transports `ConsumedPreserved`. -/
theorem cp_of_eq {l l' : List TicketRow} (h : l' = l) : ConsumedPreserved l l' := by
  rw [h]; exact cp_refl l

/-- A ticket insert preserves the consumed view and appends a fresh flag. -/
theorem cp_insertTicket (db : Store) (t : TicketRow) (h : t.is_consumed = false) :
    ConsumedPreserved db.tickets (insertDevconnectPretixTicket db t).tickets :=
  ⟨[(t.position_id, t.is_consumed)],
    by simp [insertDevconnectPretixTicket, consumedView],
    by simp [h]⟩

/-- A ticket update never changes any row's key or consumed flag. -/
theorem cp_updateTicket (db : Store) (t : TicketRow) :
    ConsumedPreserved db.tickets (updateDevconnectPretixTicket db t).tickets := by
  refine ⟨[], ?_, by simp⟩
  simp only [updateDevconnectPretixTicket, consumedView, List.map_map, List.append_nil]
  apply list_map_congr
  intro a _
  by_cases hpos : (a.position_id == t.position_id) = true
  · have heq : a.position_id = t.position_id := by simpa [beq_iff_eq] using hpos
    simp [Function.comp, hpos, heq]
  · simp [Function.comp, hpos]

/-- A ticket soft-delete never changes any row's key or consumed flag. -/
theorem cp_softDeleteTicket (db : Store) (t : TicketRow) :
    ConsumedPreserved db.tickets (softDeleteDevconnectPretixTicket db t).tickets := by
  refine ⟨[], ?_, by simp⟩
  simp only [softDeleteDevconnectPretixTicket, consumedView, List.map_map, List.append_nil]
  apply list_map_congr
  intro a _
  by_cases hpos : (a.position_id == t.position_id) = true
  · simp [Function.comp, hpos]
  · simp [Function.comp, hpos]

/-- Folding any step that preserves the consumed view preserves it. -/
theorem cp_foldl {α : Type} (step : Store → α → Store)
    (h : ∀ d x, ConsumedPreserved d.tickets (step d x).tickets) (xs : List α) :
    ∀ db : Store, ConsumedPreserved db.tickets (xs.foldl step db).tickets := by
  induction xs with
  | nil => intro db; exact cp_refl _
  | cons x rest ih =>
    intro db
    exact cp_trans (h db x) (ih (step db x))

/-- The insert step of the ticket phase preserves the consumed view when every
inserted ticket has its consumed flag initialized to false. -/
theorem cp_applyTicketInserts (xs : List TicketRow) (h : ∀ t ∈ xs, t.is_consumed = false) :
    ∀ db : Store, ConsumedPreserved db.tickets (applyTicketInserts db xs).tickets := by
  induction xs with
  | nil => intro db; exact cp_refl _
  | cons x rest ih =>
    intro db
    exact cp_trans (cp_insertTicket db x (h x (by simp)))
      (ih (fun t ht => h t (by simp [ht])) (insertDevconnectPretixTicket db x))

/-- The update step of the ticket phase preserves the consumed view. -/
theorem cp_applyTicketUpdates (xs : List TicketRow) (db : Store) :
    ConsumedPreserved db.tickets (applyTicketUpdates db xs).tickets :=
  cp_foldl _ (fun d x => cp_updateTicket d x) xs db

/-- The soft-delete step of the ticket phase preserves the consumed view. -/
theorem cp_applyTicketRemovals (xs : List TicketRow) (db : Store) :
    ConsumedPreserved db.tickets (applyTicketRemovals db xs).tickets :=
  cp_foldl _ (fun d x => cp_softDeleteTicket d x) xs db

/-- Every ticket produced by the order conversion has its consumed flag
initialized to false. -/
theorem ordersToDevconnectTickets_consumed_false (orders : List PretixOrder)
    (itemsInfo : List ItemInfoRow) :
    ∀ t ∈ ordersToDevconnectTickets orders itemsInfo, t.is_consumed = false := by
  intro t ht
  unfold ordersToDevconnectTickets at ht
  rcases List.mem_flatMap.mp ht with ⟨o, _, hto⟩
  split at hto
  · simp at hto
  · rcases List.mem_filterMap.mp hto with ⟨p, _, hpt⟩
    unfold positionToTicket at hpt
    rcases hg : (itemsInfo.filter (fun i => i.item_id == toString p.item)).getLast? with - | item
    · rw [hg] at hpt; simp at hpt
    · rw [hg] at hpt
      simp only [Option.some.injEq] at hpt
      rw [← hpt]

/-- A fold of steps that do not touch the ticket table does not touch the
ticket table. -/
theorem tickets_foldl_pres {α : Type} (step : Store → α → Store)
    (h : ∀ d x, (step d x).tickets = d.tickets) (xs : List α) :
    ∀ db : Store, (xs.foldl step db).tickets = db.tickets := by
  induction xs with
  | nil => intro db; rfl
  | cons x rest ih =>
    intro db
    rw [List.foldl_cons, ih (step db x), h db x]

/-- The item phase does not touch the ticket table: insert step. -/
theorem applyItemInserts_tickets (xs : List PretixItem) (db : Store) (eid : Nat) :
    (applyItemInserts db eid xs).tickets = db.tickets := by
  unfold applyItemInserts
  apply tickets_foldl_pres
  intro d x
  rfl

/-- The item phase does not touch the ticket table: update step. -/
theorem applyItemUpdates_tickets (xs : List PretixItem) (db : Store) (ex : List ItemInfoRow) :
    (applyItemUpdates db ex xs).tickets = db.tickets := by
  unfold applyItemUpdates
  apply tickets_foldl_pres
  intro d x
  cases h : lastItemBinding ex (toString x.id) with
  | none => simp [h]
  | some oldItem => simp [h, updatePretixItemsInfo]

/-- The item phase does not touch the ticket table: soft-delete step. -/
theorem applyItemRemovals_tickets (xs : List ItemInfoRow) (db : Store) :
    (applyItemRemovals db xs).tickets = db.tickets := by
  unfold applyItemRemovals
  apply tickets_foldl_pres
  intro d x
  rfl

/-- The item phase as a whole does not touch the ticket table. -/
theorem syncItemInfos_db_tickets (db : Store) (event : EventConfig) (items : List PretixItem) :
    (syncItemInfos db event items).db.tickets = db.tickets := by
  unfold syncItemInfos
  cases hfind : fetchPretixEventInfo db event.id with
  | none => rfl
  | some info =>
    simp only
    split
    · rfl
    · simp [applyItemRemovals_tickets, applyItemUpdates_tickets, applyItemInserts_tickets]

/-- The ticket phase preserves the consumed view. -/
theorem cp_syncTickets (db : Store) (event : EventConfig) (orders : List PretixOrder) :
    ConsumedPreserved db.tickets (syncTickets db event orders).db.tickets := by
  unfold syncTickets
  cases hfind : fetchPretixEventInfo db event.id with
  | none => exact cp_refl _
  | some info =>
    simp only
    refine cp_trans (cp_applyTicketInserts _ ?_ db) (cp_trans (cp_applyTicketUpdates _ _)
      (cp_applyTicketRemovals _ _))
    intro t ht
    exact ordersToDevconnectTickets_consumed_false orders _ t (List.mem_of_mem_filter ht)

/-- A full event sync preserves the consumed view. -/
theorem cp_syncEvent (db : Store) (event : EventConfig) (d : EventData) :
    ConsumedPreserved db.tickets (syncEvent db event d).db.tickets := by
  unfold syncEvent
  simp only [syncEventInfos_success]
  rw [if_neg (by simp)]
  by_cases h2 :
      (syncItemInfos (syncEventInfos db event d.eventInfo).db event d.items).success = false
  · rw [if_pos h2]
    dsimp only
    refine cp_of_eq ?_
    rw [syncItemInfos_db_tickets, syncEventInfos_tickets]
  · rw [if_neg h2]
    dsimp only
    have hmid : (syncItemInfos (syncEventInfos db event d.eventInfo).db event d.items).db.tickets
        = db.tickets := by
      rw [syncItemInfos_db_tickets, syncEventInfos_tickets]
    have hcp := cp_syncTickets
      (syncItemInfos (syncEventInfos db event d.eventInfo).db event d.items).db event d.tickets
    rw [hmid] at hcp
    exact hcp

/-- The store threaded through `syncAllEvents` is the fold of the per-event
stores. -/
theorem syncAllEvents_db (l : List (EventConfig × EventData)) :
    ∀ (acc : List EventSyncResult) (db : Store),
      (l.foldl (fun acc ed =>
        ((acc.1 ++ [syncEvent acc.2 ed.1 ed.2]), (syncEvent acc.2 ed.1 ed.2).db)) (acc, db)).2 =
      l.foldl (fun d ed => (syncEvent d ed.1 ed.2).db) db := by
  induction l with
  | nil => intro acc db; rfl
  | cons ed rest ih => intro acc db; exact ih _ _

/-- Syncing a list of events preserves the consumed view. -/
theorem cp_syncAllEvents (l : List (EventConfig × EventData)) (db : Store) :
    ConsumedPreserved db.tickets (syncAllEvents db l).2.tickets := by
  unfold syncAllEvents
  have heq := syncAllEvents_db l [] db
  simp only at heq
  rw [heq]
  exact cp_foldl _ (fun d ed => cp_syncEvent d ed.1 ed.2) l db

/-- An organizer sync preserves the consumed view. -/
theorem cp_syncOrganizer (db : Store) (org : OrganizerConfig)
    (fetchData : EventConfig → Except String EventData) :
    ConsumedPreserved db.tickets (syncOrganizer db org fetchData).2.tickets := by
  unfold syncOrganizer
  cases hf : fetchAllEventData org.events fetchData with
  | error msg => exact cp_refl _
  | ok all =>
    simp only
    split
    · exact cp_refl _
    · exact cp_syncAllEvents all db

/-- The store threaded through `sync` is the fold of the per-organizer
stores. -/
theorem sync_db (orgs : List OrganizerConfig)
    (fetchData : OrganizerConfig → EventConfig → Except String EventData) :
    ∀ (acc : List (Except OrgError (List EventSyncResult))) (db : Store),
      (orgs.foldl (fun acc org =>
        (acc.1 ++ [(syncOrganizer acc.2 org (fetchData org)).1],
          (syncOrganizer acc.2 org (fetchData org)).2)) (acc, db)).2 =
      orgs.foldl (fun d org => (syncOrganizer d org (fetchData org)).2) db := by
  induction orgs with
  | nil => intro acc db; rfl
  | cons org rest ih => intro acc db; exact ih _ _

/-- C6: no sync pass ever modifies the consumed (redemption) flag of an
existing ticket row — positionally, every pre-existing row keeps its natural
key and its consumed flag through the whole pass — and every row the pass
appends has its consumed flag initialized to false. -/
theorem C6_consumed_flag_never_written (db : Store) (orgs : List OrganizerConfig)
    (fetchData : OrganizerConfig → EventConfig → Except String EventData) :
    ConsumedPreserved db.tickets (sync db orgs fetchData).2.tickets := by
  unfold sync
  have heq := sync_db orgs fetchData [] db
  simp only at heq
  rw [heq]
  exact cp_foldl _ (fun d org => cp_syncOrganizer d org (fetchData org)) orgs db

/-! Claim C2, counterexample part: the second identical run still writes. -/

/-- C2 counterexample: with one active item and one paid order, the first
run inserts the EventInfo row; an immediately repeated run with identical
provider data performs an EventInfo update — `syncEventInfos` upserts
unconditionally — so the second run does not perform zero updates. -/
theorem C2_counterexample :
    (syncEvent exEmptyStore exC2Event exC2Data).eventInfoStep.action =
      some EventInfoAction.inserted ∧
    (syncEvent (syncEvent exEmptyStore exC2Event exC2Data).db exC2Event
        exC2Data).eventInfoStep.action = some EventInfoAction.updated := by
  decide

/-! Claim C2: idempotence development.  Generic list helpers first. -/

theorem list_filter_eq_self {α : Type} {l : List α} {p : α → Bool}
    (h : ∀ a ∈ l, p a = true) : l.filter p = l := by
  induction l with
  | nil => rfl
  | cons a t ih =>
    have ha := h a (by simp)
    have ht := ih (fun b hb => h b (by simp [hb]))
    simp [List.filter_cons, ha, ht]

theorem list_getLast?_mem {α : Type} {l : List α} {a : α} (h : l.getLast? = some a) : a ∈ l := by
  induction l with
  | nil => simp at h
  | cons b t ih =>
    cases t with
    | nil =>
      simp at h
      simp [h]
    | cons c u =>
      rw [List.getLast?_cons_cons] at h
      exact List.mem_cons_of_mem _ (ih h)

theorem list_filter_congr {α : Type} {l : List α} {p q : α → Bool}
    (h : ∀ a ∈ l, p a = q a) : l.filter p = l.filter q := by
  induction l with
  | nil => rfl
  | cons a t ih =>
    rw [List.filter_cons, List.filter_cons, h a (by simp),
      ih (fun b hb => h b (by simp [hb]))]

theorem list_filter_map_comm {α : Type} (l : List α) (f : α → α) (p : α → Bool) :
    (l.map f).filter p = (l.filter (fun a => p (f a))).map f := by
  induction l with
  | nil => rfl
  | cons a t ih =>
    simp only [List.map_cons, List.filter_cons]
    cases hpa : p (f a) <;> simp [hpa, ih]

theorem list_find?_key_unique {α : Type} {l : List α} {f : α → Nat}
    (hnd : (l.map f).Nodup) {a : α} (ha : a ∈ l) {k : Nat} (hk : k = f a) :
    l.find? (fun x => f x == k) = some a := by
  induction l with
  | nil => simp at ha
  | cons b t ih =>
    rw [List.map_cons, List.nodup_cons] at hnd
    rcases List.mem_cons.mp ha with rfl | hat
    · have hb : (f a == k) = true := by simp [hk]
      simp [List.find?, hb]
    · have hne : f b ≠ k := by
        rw [hk]
        intro heq
        exact hnd.1 (heq ▸ List.mem_map_of_mem f hat)
      have hb : (f b == k) = false := by simpa [beq_iff_eq] using hne
      simp only [List.find?, hb]
      exact ih hnd.2 hat

theorem list_getLast?_of_ne_nil {α : Type} {l : List α} (h : l ≠ []) :
    ∃ a, l.getLast? = some a := by
  induction l with
  | nil => exact absurd rfl h
  | cons a t ih =>
    cases t with
    | nil => exact ⟨a, rfl⟩
    | cons c u =>
      obtain ⟨b, hb⟩ := ih (by simp)
      exact ⟨b, by rw [List.getLast?_cons_cons]; exact hb⟩

/-- Generic frame lemma: a fold of steps preserving a projection preserves it. -/
theorem proj_foldl_pres {α γ : Type} (proj : Store → γ) (step : Store → α → Store)
    (h : ∀ d x, proj (step d x) = proj d) (xs : List α) :
    ∀ db : Store, proj (xs.foldl step db) = proj db := by
  induction xs with
  | nil => intro db; rfl
  | cons x rest ih =>
    intro db
    rw [List.foldl_cons, ih (step db x), h db x]

/-! Phase-1 (event-info) lemmas. -/

/-- If the EventInfo row already carries the fetched name and is active, the
event-info phase's unconditional update is a no-op on the store. -/
theorem syncEventInfos_fixpoint {db : Store} {event : EventConfig} {m : PretixEventMeta}
    {row : EventInfoRow}
    (hnd : (db.events.map (fun r => r.id)).Nodup)
    (hfind : fetchPretixEventInfo db event.id = some row)
    (hname : row.event_name = m.name) (hdel : row.is_deleted = false) :
    (syncEventInfos db event m).db = db := by
  unfold syncEventInfos
  rw [hfind]
  simp only [updatePretixEventsInfo]
  have hmem : row ∈ db.events := by
    unfold fetchPretixEventInfo at hfind
    exact List.mem_of_find?_eq_some hfind
  have hid : ∀ q ∈ db.events,
      (if q.id == row.id then { q with event_name := m.name, is_deleted := false } else q) = q := by
    intro q hq
    by_cases h : (q.id == row.id) = true
    · have hqrow : q = row :=
        List.inj_on_of_nodup_map hnd hq hmem (by simpa [beq_iff_eq] using h)
      rw [if_pos h, hqrow, ← hname, ← hdel]
    · rw [if_neg h]
  rw [list_map_id_of_eq hid]

/-- The event-info phase preserves store well-formedness. -/
theorem syncEventInfos_wf {db : Store} {event : EventConfig} {m : PretixEventMeta}
    (h : WFStore db) : WFStore (syncEventInfos db event m).db := by
  obtain ⟨h1, h2, h3, h4⟩ := h
  unfold syncEventInfos
  cases hfind : fetchPretixEventInfo db event.id with
  | none =>
    refine ⟨?_, h2, ?_, ?_⟩
    · simp only [insertPretixEventsInfo, List.map_append]
      rw [List.nodup_append]
      refine ⟨h1, by simp, ?_⟩
      intro a ha hb
      simp at hb
      rcases List.mem_map.mp ha with ⟨r, hr, hra⟩
      have := h3 r hr
      omega
    · intro r hr
      simp only [insertPretixEventsInfo] at hr
      rcases List.mem_append.mp hr with hr | hr
      · have := h3 r hr; simp only [insertPretixEventsInfo]; omega
      · simp at hr
        simp only [insertPretixEventsInfo, hr]
        omega
    · intro r hr
      have := h4 r hr
      simp only [insertPretixEventsInfo]
      omega
  | some row =>
    refine ⟨?_, h2, ?_, h4⟩
    · simp only [updatePretixEventsInfo, List.map_map]
      have : db.events.map ((fun r => r.id) ∘ (fun q =>
          if q.id == row.id then { q with event_name := m.name, is_deleted := false } else q)) =
          db.events.map (fun r => r.id) := by
        apply list_map_congr
        intro a _
        by_cases hida : (a.id == row.id) = true
        · simp [Function.comp, hida]
        · simp [Function.comp, hida]
      rw [this]
      exact h1
    · intro r hr
      simp only [updatePretixEventsInfo] at hr
      rcases List.mem_map.mp hr with ⟨q, hq, hqr⟩
      have := h3 q hq
      by_cases hida : (q.id == row.id) = true
      · rw [if_pos hida] at hqr
        rw [← hqr]
        simpa using this
      · rw [if_neg hida] at hqr
        rw [← hqr]
        exact this

/-- The event-info phase does not change the fresh-id counter in the update
case and bumps it in the insert case; either way all old bounds still hold.
Only the monotonicity is needed later. -/
theorem syncEventInfos_nextId_le (db : Store) (event : EventConfig) (m : PretixEventMeta) :
    db.nextId ≤ (syncEventInfos db event m).db.nextId := by
  unfold syncEventInfos
  cases fetchPretixEventInfo db event.id with
  | none => simp [insertPretixEventsInfo]
  | some row => simp [updatePretixEventsInfo]

/-! Phase-2 (item-info) characterization: inserts. -/

theorem applyItemInserts_items_char (xs : List PretixItem) :
    ∀ (db : Store) (eid : Nat),
      (applyItemInserts db eid xs).items = db.items ++ insertedItemRows db.nextId eid xs := by
  induction xs with
  | nil => intro db eid; simp [applyItemInserts, insertedItemRows]
  | cons x rest ih =>
    intro db eid
    have h1 : applyItemInserts db eid (x :: rest) =
        applyItemInserts (insertPretixItemsInfo db (toString x.id) eid (getI18nString x.name))
          eid rest := rfl
    rw [h1, ih]
    simp [insertPretixItemsInfo, insertedItemRows]

theorem applyItemInserts_nextId (xs : List PretixItem) :
    ∀ (db : Store) (eid : Nat), (applyItemInserts db eid xs).nextId = db.nextId + xs.length := by
  induction xs with
  | nil => intro db eid; rfl
  | cons x rest ih =>
    intro db eid
    have h1 : applyItemInserts db eid (x :: rest) =
        applyItemInserts (insertPretixItemsInfo db (toString x.id) eid (getI18nString x.name))
          eid rest := rfl
    rw [h1, ih]
    simp [insertPretixItemsInfo]
    omega

theorem applyItemInserts_events (xs : List PretixItem) (db : Store) (eid : Nat) :
    (applyItemInserts db eid xs).events = db.events := by
  unfold applyItemInserts
  apply proj_foldl_pres (fun d => d.events)
  intro d x
  rfl

theorem insertedItemRows_event (n eid : Nat) (xs : List PretixItem) :
    ∀ r ∈ insertedItemRows n eid xs, r.devconnect_pretix_events_info_id = eid := by
  induction xs generalizing n with
  | nil => intro r hr; simp [insertedItemRows] at hr
  | cons x rest ih =>
    intro r hr
    rcases List.mem_cons.mp hr with rfl | hr
    · rfl
    · exact ih (n + 1) r hr

theorem insertedItemRows_id_bounds (eid : Nat) (xs : List PretixItem) :
    ∀ n : Nat, ∀ r ∈ insertedItemRows n eid xs, n ≤ r.id ∧ r.id < n + xs.length := by
  induction xs with
  | nil => intro n r hr; simp [insertedItemRows] at hr
  | cons x rest ih =>
    intro n r hr
    rcases List.mem_cons.mp hr with rfl | hr
    · simp
    · have := ih (n + 1) r hr
      simp only [List.length_cons]
      omega

theorem insertedItemRows_ids_nodup (eid : Nat) (xs : List PretixItem) :
    ∀ n : Nat, ((insertedItemRows n eid xs).map (fun r => r.id)).Nodup := by
  induction xs with
  | nil => intro n; simp [insertedItemRows]
  | cons x rest ih =>
    intro n
    simp only [insertedItemRows, List.map_cons, List.nodup_cons]
    refine ⟨?_, ih (n + 1)⟩
    intro hmem
    rcases List.mem_map.mp hmem with ⟨r, hr, hrid⟩
    have := insertedItemRows_id_bounds eid rest (n + 1) r hr
    omega

theorem insertedItemRows_keys (n eid : Nat) (xs : List PretixItem) :
    (insertedItemRows n eid xs).map (fun r => r.item_id) = xs.map (fun x => toString x.id) := by
  induction xs generalizing n with
  | nil => rfl
  | cons x rest ih =>
    simp only [insertedItemRows, List.map_cons]
    rw [ih (n + 1)]

theorem insertedItemRows_filter_key_nil {xs : List PretixItem} {k : String}
    (h : ∀ x ∈ xs, toString x.id ≠ k) (n eid : Nat) :
    (insertedItemRows n eid xs).filter (fun r => r.item_id == k) = [] := by
  apply list_filter_eq_nil
  intro r hr
  have hkey : r.item_id ∈ (insertedItemRows n eid xs).map (fun r => r.item_id) :=
    List.mem_map_of_mem _ hr
  rw [insertedItemRows_keys] at hkey
  rcases List.mem_map.mp hkey with ⟨x, hx, hxk⟩
  have hne : r.item_id ≠ k := by rw [← hxk]; exact h x hx
  simpa [beq_iff_eq] using hne

theorem insertedItemRows_filter_key_unique {xs : List PretixItem}
    (hnd : (xs.map (fun x => toString x.id)).Nodup) {x : PretixItem} (hx : x ∈ xs) :
    ∀ n eid : Nat, ∃ m : Nat,
      (insertedItemRows n eid xs).filter (fun r => r.item_id == toString x.id) =
        [⟨m, toString x.id, eid, getI18nString x.name, false⟩] := by
  induction xs with
  | nil => simp at hx
  | cons y rest ih =>
    intro n eid
    rw [List.map_cons, List.nodup_cons] at hnd
    rcases List.mem_cons.mp hx with rfl | hxr
    · refine ⟨n, ?_⟩
      simp only [insertedItemRows, List.filter_cons]
      rw [if_pos (by simp)]
      have hnil : ∀ z ∈ rest, toString z.id ≠ toString x.id := by
        intro z hz heq
        exact hnd.1 (heq ▸ List.mem_map_of_mem (fun w => toString w.id) hz)
      rw [insertedItemRows_filter_key_nil hnil (n + 1) eid]
    · have hne : toString y.id ≠ toString x.id := by
        intro heq
        exact hnd.1 (heq ▸ List.mem_map_of_mem _ hxr)
      obtain ⟨m, hm⟩ := ih hnd.2 hxr (n + 1) eid
      refine ⟨m, ?_⟩
      simp only [insertedItemRows, List.filter_cons]
      rw [if_neg (by simpa [beq_iff_eq] using hne)]
      exact hm

/-! Phase-2 characterization: updates and soft-deletes as pointwise maps. -/

theorem applyItemUpdates_cons (db : Store) (ex : List ItemInfoRow) (x : PretixItem)
    (rest : List PretixItem) :
    applyItemUpdates db ex (x :: rest) =
      applyItemUpdates
        (match lastItemBinding ex (toString x.id) with
          | some oldItem => updatePretixItemsInfo db oldItem.id (getI18nString x.name) false
          | none => db) ex rest := rfl

theorem itemUpdateStep_store (db : Store) (ex : List ItemInfoRow) (x : PretixItem) :
    (match lastItemBinding ex (toString x.id) with
      | some oldItem => updatePretixItemsInfo db oldItem.id (getI18nString x.name) false
      | none => db).items = db.items.map (itemUpdateStep ex x) := by
  cases h : lastItemBinding ex (toString x.id) with
  | none =>
    simp only [h]
    symm
    apply list_map_id_of_eq
    intro a _
    simp [itemUpdateStep, h]
  | some oldItem =>
    simp only [h, updatePretixItemsInfo]
    apply list_map_congr
    intro a _
    simp [itemUpdateStep, h]

theorem applyItemUpdates_items_char (xs : List PretixItem) :
    ∀ (db : Store) (ex : List ItemInfoRow),
      (applyItemUpdates db ex xs).items = db.items.map (itemUpdateFn ex xs) := by
  induction xs with
  | nil =>
    intro db ex
    symm
    apply list_map_id_of_eq
    intro a _
    rfl
  | cons x rest ih =>
    intro db ex
    rw [applyItemUpdates_cons, ih, itemUpdateStep_store, List.map_map]
    apply list_map_congr
    intro a _
    rfl

theorem applyItemUpdates_events (xs : List PretixItem) (db : Store) (ex : List ItemInfoRow) :
    (applyItemUpdates db ex xs).events = db.events := by
  unfold applyItemUpdates
  apply proj_foldl_pres (fun d => d.events)
  intro d x
  cases h : lastItemBinding ex (toString x.id) <;> simp [h, updatePretixItemsInfo]

theorem applyItemUpdates_nextId (xs : List PretixItem) (db : Store) (ex : List ItemInfoRow) :
    (applyItemUpdates db ex xs).nextId = db.nextId := by
  unfold applyItemUpdates
  apply proj_foldl_pres (fun d => d.nextId)
  intro d x
  cases h : lastItemBinding ex (toString x.id) <;> simp [h, updatePretixItemsInfo]

theorem itemUpdateStep_frame (ex : List ItemInfoRow) (x : PretixItem) (r : ItemInfoRow) :
    (itemUpdateStep ex x r).id = r.id ∧ (itemUpdateStep ex x r).item_id = r.item_id ∧
    (itemUpdateStep ex x r).devconnect_pretix_events_info_id =
      r.devconnect_pretix_events_info_id := by
  unfold itemUpdateStep
  cases h : lastItemBinding ex (toString x.id) with
  | none => exact ⟨rfl, rfl, rfl⟩
  | some old =>
    dsimp only
    by_cases hid : (r.id == old.id) = true
    · rw [if_pos hid]; exact ⟨rfl, rfl, rfl⟩
    · rw [if_neg hid]; exact ⟨rfl, rfl, rfl⟩

theorem itemUpdateFn_frame (ex : List ItemInfoRow) (xs : List PretixItem) :
    ∀ r : ItemInfoRow, (itemUpdateFn ex xs r).id = r.id ∧
      (itemUpdateFn ex xs r).item_id = r.item_id ∧
      (itemUpdateFn ex xs r).devconnect_pretix_events_info_id =
        r.devconnect_pretix_events_info_id := by
  induction xs with
  | nil => intro r; exact ⟨rfl, rfl, rfl⟩
  | cons x rest ih =>
    intro r
    have hstep := itemUpdateStep_frame ex x r
    have hrec := ih (itemUpdateStep ex x r)
    exact ⟨hrec.1.trans hstep.1, hrec.2.1.trans hstep.2.1, hrec.2.2.trans hstep.2.2⟩

theorem itemUpdateFn_not_touched (ex : List ItemInfoRow) (xs : List PretixItem) :
    ∀ r : ItemInfoRow,
      (∀ x ∈ xs, ∀ old, lastItemBinding ex (toString x.id) = some old → old.id ≠ r.id) →
      itemUpdateFn ex xs r = r := by
  induction xs with
  | nil => intro r _; rfl
  | cons x rest ih =>
    intro r h
    have hstep : itemUpdateStep ex x r = r := by
      unfold itemUpdateStep
      cases hb : lastItemBinding ex (toString x.id) with
      | none => rfl
      | some old =>
        dsimp only
        have hne : r.id ≠ old.id := fun he => (h x (by simp) old hb) he.symm
        rw [if_neg (by simpa [beq_iff_eq] using hne)]
    rw [show itemUpdateFn ex (x :: rest) r = itemUpdateFn ex rest (itemUpdateStep ex x r) from rfl,
      hstep]
    exact ih r (fun z hz old hb => h z (by simp [hz]) old hb)

theorem itemRemoveFn_frame (xs : List ItemInfoRow) :
    ∀ r : ItemInfoRow, (itemRemoveFn xs r).id = r.id ∧ (itemRemoveFn xs r).item_id = r.item_id ∧
      (itemRemoveFn xs r).devconnect_pretix_events_info_id =
        r.devconnect_pretix_events_info_id ∧
      (itemRemoveFn xs r).item_name = r.item_name := by
  induction xs with
  | nil => intro r; exact ⟨rfl, rfl, rfl, rfl⟩
  | cons x rest ih =>
    intro r
    have hstep : ((if r.id == x.id then { r with is_deleted := true } else r).id = r.id ∧
        (if r.id == x.id then { r with is_deleted := true } else r).item_id = r.item_id ∧
        (if r.id == x.id then { r with is_deleted := true } else r).devconnect_pretix_events_info_id
          = r.devconnect_pretix_events_info_id ∧
        (if r.id == x.id then { r with is_deleted := true } else r).item_name = r.item_name) := by
      by_cases hid : (r.id == x.id) = true
      · rw [if_pos hid]; exact ⟨rfl, rfl, rfl, rfl⟩
      · rw [if_neg hid]; exact ⟨rfl, rfl, rfl, rfl⟩
    have hrec := ih (if r.id == x.id then { r with is_deleted := true } else r)
    exact ⟨hrec.1.trans hstep.1, hrec.2.1.trans hstep.2.1, hrec.2.2.1.trans hstep.2.2.1,
      hrec.2.2.2.trans hstep.2.2.2⟩

theorem itemRemoveFn_not_touched (xs : List ItemInfoRow) :
    ∀ r : ItemInfoRow, (∀ x ∈ xs, x.id ≠ r.id) → itemRemoveFn xs r = r := by
  induction xs with
  | nil => intro r _; rfl
  | cons x rest ih =>
    intro r h
    have hne : r.id ≠ x.id := fun he => (h x (by simp)) he.symm
    have hstep : (if r.id == x.id then { r with is_deleted := true } else r) = r := by
      rw [if_neg (by simpa [beq_iff_eq] using hne)]
    rw [show itemRemoveFn (x :: rest) r =
        itemRemoveFn rest (if r.id == x.id then { r with is_deleted := true } else r) from rfl,
      hstep]
    exact ih r (fun z hz => h z (by simp [hz]))

theorem itemRemoveFn_keeps_deleted (xs : List ItemInfoRow) :
    ∀ r : ItemInfoRow, r.is_deleted = true → (itemRemoveFn xs r).is_deleted = true := by
  induction xs with
  | nil => intro r h; exact h
  | cons x rest ih =>
    intro r h
    rw [show itemRemoveFn (x :: rest) r =
        itemRemoveFn rest (if r.id == x.id then { r with is_deleted := true } else r) from rfl]
    by_cases hid : (r.id == x.id) = true
    · rw [if_pos hid]
      exact ih _ rfl
    · rw [if_neg hid]
      exact ih _ h

theorem itemRemoveFn_deleted (xs : List ItemInfoRow) :
    ∀ r : ItemInfoRow, (∃ x ∈ xs, x.id = r.id) → (itemRemoveFn xs r).is_deleted = true := by
  induction xs with
  | nil => intro r h; simp at h
  | cons x rest ih =>
    intro r h
    rw [show itemRemoveFn (x :: rest) r =
        itemRemoveFn rest (if r.id == x.id then { r with is_deleted := true } else r) from rfl]
    by_cases hid : (r.id == x.id) = true
    · rw [if_pos hid]
      exact itemRemoveFn_keeps_deleted rest _ rfl
    · rw [if_neg hid]
      obtain ⟨z, hz, hzid⟩ := h
      rcases List.mem_cons.mp hz with rfl | hzr
      · exact absurd (by simpa [beq_iff_eq] using hzid.symm) hid
      · exact ih r ⟨z, hzr, hzid⟩

theorem applyItemRemovals_items_char (xs : List ItemInfoRow) :
    ∀ db : Store, (applyItemRemovals db xs).items = db.items.map (itemRemoveFn xs) := by
  induction xs with
  | nil =>
    intro db
    symm
    apply list_map_id_of_eq
    intro a _
    rfl
  | cons x rest ih =>
    intro db
    rw [show applyItemRemovals db (x :: rest) =
        applyItemRemovals (softDeletePretixItemInfo db x.id) rest from rfl, ih]
    simp only [softDeletePretixItemInfo]
    rw [List.map_map]
    apply list_map_congr
    intro a _
    rfl

theorem applyItemRemovals_events (xs : List ItemInfoRow) (db : Store) :
    (applyItemRemovals db xs).events = db.events := by
  unfold applyItemRemovals
  apply proj_foldl_pres (fun d => d.events)
  intro d x
  rfl

theorem applyItemRemovals_nextId (xs : List ItemInfoRow) (db : Store) :
    (applyItemRemovals db xs).nextId = db.nextId := by
  unfold applyItemRemovals
  apply proj_foldl_pres (fun d => d.nextId)
  intro d x
  rfl

theorem softDeletePretixItemInfo_noop {db : Store} {x : Nat}
    (h : ∀ r ∈ db.items, r.id = x → r.is_deleted = true) :
    softDeletePretixItemInfo db x = db := by
  unfold softDeletePretixItemInfo
  have hmap : db.items.map (fun r => if r.id == x then { r with is_deleted := true } else r) =
      db.items := by
    apply list_map_id_of_eq
    intro a ha
    by_cases hid : (a.id == x) = true
    · have hdel := h a ha (by simpa [beq_iff_eq] using hid)
      rw [if_pos hid, ← hdel]
    · rw [if_neg hid]
  rw [hmap]

theorem applyItemRemovals_noop (xs : List ItemInfoRow) :
    ∀ db : Store, (∀ x ∈ xs, ∀ r ∈ db.items, r.id = x.id → r.is_deleted = true) →
      applyItemRemovals db xs = db := by
  induction xs with
  | nil => intro db _; rfl
  | cons x rest ih =>
    intro db h
    have h0 : softDeletePretixItemInfo db x.id = db :=
      softDeletePretixItemInfo_noop (fun r hr => h x (by simp) r hr)
    rw [show applyItemRemovals db (x :: rest) =
        applyItemRemovals (softDeletePretixItemInfo db x.id) rest from rfl, h0]
    exact ih db (fun z hz r hr => h z (by simp [hz]) r hr)

/-! Phase-3 (ticket) characterization. -/

theorem applyTicketInserts_char (xs : List TicketRow) :
    ∀ db : Store, (applyTicketInserts db xs).tickets = db.tickets ++ xs := by
  induction xs with
  | nil => intro db; simp [applyTicketInserts]
  | cons x rest ih =>
    intro db
    rw [show applyTicketInserts db (x :: rest) =
        applyTicketInserts (insertDevconnectPretixTicket db x) rest from rfl, ih]
    simp [insertDevconnectPretixTicket]

theorem applyTicketInserts_items (xs : List TicketRow) (db : Store) :
    (applyTicketInserts db xs).items = db.items := by
  unfold applyTicketInserts
  apply proj_foldl_pres (fun d => d.items)
  intro d x
  rfl

theorem applyTicketInserts_events (xs : List TicketRow) (db : Store) :
    (applyTicketInserts db xs).events = db.events := by
  unfold applyTicketInserts
  apply proj_foldl_pres (fun d => d.events)
  intro d x
  rfl

theorem applyTicketInserts_nextId (xs : List TicketRow) (db : Store) :
    (applyTicketInserts db xs).nextId = db.nextId := by
  unfold applyTicketInserts
  apply proj_foldl_pres (fun d => d.nextId)
  intro d x
  rfl

theorem applyTicketUpdates_tickets_char (xs : List TicketRow) :
    ∀ db : Store, (applyTicketUpdates db xs).tickets = db.tickets.map (ticketUpdateFn xs) := by
  induction xs with
  | nil =>
    intro db
    symm
    apply list_map_id_of_eq
    intro a _
    rfl
  | cons x rest ih =>
    intro db
    rw [show applyTicketUpdates db (x :: rest) =
        applyTicketUpdates (updateDevconnectPretixTicket db x) rest from rfl, ih]
    simp only [updateDevconnectPretixTicket]
    rw [List.map_map]
    apply list_map_congr
    intro a _
    rfl

theorem applyTicketUpdates_items (xs : List TicketRow) (db : Store) :
    (applyTicketUpdates db xs).items = db.items := by
  unfold applyTicketUpdates
  apply proj_foldl_pres (fun d => d.items)
  intro d x
  rfl

theorem applyTicketUpdates_events (xs : List TicketRow) (db : Store) :
    (applyTicketUpdates db xs).events = db.events := by
  unfold applyTicketUpdates
  apply proj_foldl_pres (fun d => d.events)
  intro d x
  rfl

theorem applyTicketUpdates_nextId (xs : List TicketRow) (db : Store) :
    (applyTicketUpdates db xs).nextId = db.nextId := by
  unfold applyTicketUpdates
  apply proj_foldl_pres (fun d => d.nextId)
  intro d x
  rfl

theorem applyTicketRemovals_tickets_char (xs : List TicketRow) :
    ∀ db : Store, (applyTicketRemovals db xs).tickets = db.tickets.map (ticketRemoveFn xs) := by
  induction xs with
  | nil =>
    intro db
    symm
    apply list_map_id_of_eq
    intro a _
    rfl
  | cons x rest ih =>
    intro db
    rw [show applyTicketRemovals db (x :: rest) =
        applyTicketRemovals (softDeleteDevconnectPretixTicket db x) rest from rfl, ih]
    simp only [softDeleteDevconnectPretixTicket]
    rw [List.map_map]
    apply list_map_congr
    intro a _
    rfl

theorem applyTicketRemovals_items (xs : List TicketRow) (db : Store) :
    (applyTicketRemovals db xs).items = db.items := by
  unfold applyTicketRemovals
  apply proj_foldl_pres (fun d => d.items)
  intro d x
  rfl

theorem applyTicketRemovals_events (xs : List TicketRow) (db : Store) :
    (applyTicketRemovals db xs).events = db.events := by
  unfold applyTicketRemovals
  apply proj_foldl_pres (fun d => d.events)
  intro d x
  rfl

theorem applyTicketRemovals_nextId (xs : List TicketRow) (db : Store) :
    (applyTicketRemovals db xs).nextId = db.nextId := by
  unfold applyTicketRemovals
  apply proj_foldl_pres (fun d => d.nextId)
  intro d x
  rfl

theorem ticketUpdateStep_pos (t r : TicketRow) :
    (ticketUpdateStep t r).position_id = r.position_id := by
  unfold ticketUpdateStep
  by_cases h : (r.position_id == t.position_id) = true
  · rw [if_pos h]
    exact (beq_iff_eq.mp h).symm
  · rw [if_neg h]

theorem ticketUpdateFn_pos (xs : List TicketRow) :
    ∀ r : TicketRow, (ticketUpdateFn xs r).position_id = r.position_id := by
  induction xs with
  | nil => intro r; rfl
  | cons x rest ih =>
    intro r
    have hrec := ih (ticketUpdateStep x r)
    exact hrec.trans (ticketUpdateStep_pos x r)

theorem ticketUpdateFn_not_touched (xs : List TicketRow) :
    ∀ r : TicketRow, (∀ t ∈ xs, t.position_id ≠ r.position_id) → ticketUpdateFn xs r = r := by
  induction xs with
  | nil => intro r _; rfl
  | cons x rest ih =>
    intro r h
    have hne : r.position_id ≠ x.position_id := fun he => (h x (by simp)) he.symm
    have hstep : ticketUpdateStep x r = r := by
      unfold ticketUpdateStep
      rw [if_neg (by simpa [beq_iff_eq] using hne)]
    rw [show ticketUpdateFn (x :: rest) r = ticketUpdateFn rest (ticketUpdateStep x r) from rfl,
      hstep]
    exact ih r (fun z hz => h z (by simp [hz]))

theorem ticketUpdateFn_hit (xs : List TicketRow)
    (hnd : (xs.map (fun t => t.position_id)).Nodup) :
    ∀ (t : TicketRow), t ∈ xs → ∀ r : TicketRow, r.position_id = t.position_id →
      ticketUpdateFn xs r = { t with is_consumed := r.is_consumed } := by
  induction xs with
  | nil => intro t ht; simp at ht
  | cons y rest ih =>
    intro t ht r hpos
    rw [List.map_cons, List.nodup_cons] at hnd
    rcases List.mem_cons.mp ht with rfl | htr
    · have hstep : ticketUpdateStep t r = { t with is_consumed := r.is_consumed } := by
        unfold ticketUpdateStep
        rw [if_pos (by simpa [beq_iff_eq] using hpos)]
      rw [show ticketUpdateFn (t :: rest) r = ticketUpdateFn rest (ticketUpdateStep t r) from rfl,
        hstep]
      apply ticketUpdateFn_not_touched
      intro z hz heq
      exact hnd.1 (heq ▸ List.mem_map_of_mem (fun t => t.position_id) hz)
    · have hne : r.position_id ≠ y.position_id := by
        rw [hpos]
        intro heq
        exact hnd.1 (heq ▸ List.mem_map_of_mem (fun t => t.position_id) htr)
      have hstep : ticketUpdateStep y r = r := by
        unfold ticketUpdateStep
        rw [if_neg (by simpa [beq_iff_eq] using hne)]
      rw [show ticketUpdateFn (y :: rest) r = ticketUpdateFn rest (ticketUpdateStep y r) from rfl,
        hstep]
      exact ih hnd.2 t htr r hpos

theorem ticketRemoveFn_frame (xs : List TicketRow) :
    ∀ r : TicketRow, (ticketRemoveFn xs r).position_id = r.position_id ∧
      (ticketRemoveFn xs r).devconnect_pretix_items_info_id =
        r.devconnect_pretix_items_info_id := by
  induction xs with
  | nil => intro r; exact ⟨rfl, rfl⟩
  | cons x rest ih =>
    intro r
    have hstep : ((if r.position_id == x.position_id then { r with is_deleted := true }
          else r).position_id = r.position_id ∧
        (if r.position_id == x.position_id then { r with is_deleted := true }
          else r).devconnect_pretix_items_info_id = r.devconnect_pretix_items_info_id) := by
      by_cases hid : (r.position_id == x.position_id) = true
      · rw [if_pos hid]; exact ⟨rfl, rfl⟩
      · rw [if_neg hid]; exact ⟨rfl, rfl⟩
    have hrec :=
      ih (if r.position_id == x.position_id then { r with is_deleted := true } else r)
    exact ⟨hrec.1.trans hstep.1, hrec.2.trans hstep.2⟩

theorem ticketRemoveFn_not_touched (xs : List TicketRow) :
    ∀ r : TicketRow, (∀ x ∈ xs, x.position_id ≠ r.position_id) → ticketRemoveFn xs r = r := by
  induction xs with
  | nil => intro r _; rfl
  | cons x rest ih =>
    intro r h
    have hne : r.position_id ≠ x.position_id := fun he => (h x (by simp)) he.symm
    have hstep : (if r.position_id == x.position_id then { r with is_deleted := true } else r)
        = r := by
      rw [if_neg (by simpa [beq_iff_eq] using hne)]
    rw [show ticketRemoveFn (x :: rest) r =
        ticketRemoveFn rest
          (if r.position_id == x.position_id then { r with is_deleted := true } else r) from rfl,
      hstep]
    exact ih r (fun z hz => h z (by simp [hz]))

theorem ticketRemoveFn_keeps_deleted (xs : List TicketRow) :
    ∀ r : TicketRow, r.is_deleted = true → (ticketRemoveFn xs r).is_deleted = true := by
  induction xs with
  | nil => intro r h; exact h
  | cons x rest ih =>
    intro r h
    rw [show ticketRemoveFn (x :: rest) r =
        ticketRemoveFn rest
          (if r.position_id == x.position_id then { r with is_deleted := true } else r) from rfl]
    by_cases hid : (r.position_id == x.position_id) = true
    · rw [if_pos hid]
      exact ih _ rfl
    · rw [if_neg hid]
      exact ih _ h

theorem ticketRemoveFn_deleted (xs : List TicketRow) :
    ∀ r : TicketRow, (∃ x ∈ xs, x.position_id = r.position_id) →
      (ticketRemoveFn xs r).is_deleted = true := by
  induction xs with
  | nil => intro r h; simp at h
  | cons x rest ih =>
    intro r h
    rw [show ticketRemoveFn (x :: rest) r =
        ticketRemoveFn rest
          (if r.position_id == x.position_id then { r with is_deleted := true } else r) from rfl]
    by_cases hid : (r.position_id == x.position_id) = true
    · rw [if_pos hid]
      exact ticketRemoveFn_keeps_deleted rest _ rfl
    · rw [if_neg hid]
      obtain ⟨z, hz, hzid⟩ := h
      rcases List.mem_cons.mp hz with rfl | hzr
      · exact absurd (by simpa [beq_iff_eq] using hzid.symm) hid
      · exact ih r ⟨z, hzr, hzid⟩

theorem softDeleteDevconnectPretixTicket_noop {db : Store} {t : TicketRow}
    (h : ∀ r ∈ db.tickets, r.position_id = t.position_id → r.is_deleted = true) :
    softDeleteDevconnectPretixTicket db t = db := by
  unfold softDeleteDevconnectPretixTicket
  have hmap : db.tickets.map
      (fun old => if old.position_id == t.position_id then { old with is_deleted := true }
        else old) = db.tickets := by
    apply list_map_id_of_eq
    intro a ha
    by_cases hid : (a.position_id == t.position_id) = true
    · have hdel := h a ha (by simpa [beq_iff_eq] using hid)
      rw [if_pos hid, ← hdel]
    · rw [if_neg hid]
  rw [hmap]

theorem applyTicketRemovals_noop (xs : List TicketRow) :
    ∀ db : Store,
      (∀ x ∈ xs, ∀ r ∈ db.tickets, r.position_id = x.position_id → r.is_deleted = true) →
      applyTicketRemovals db xs = db := by
  induction xs with
  | nil => intro db _; rfl
  | cons x rest ih =>
    intro db h
    have h0 : softDeleteDevconnectPretixTicket db x = db :=
      softDeleteDevconnectPretixTicket_noop (fun r hr => h x (by simp) r hr)
    rw [show applyTicketRemovals db (x :: rest) =
        applyTicketRemovals (softDeleteDevconnectPretixTicket db x) rest from rfl, h0]
    exact ih db (fun z hz r hr => h z (by simp [hz]) r hr)

/-! Conversion and join lemmas for the ticket phase. -/

theorem positionToTicket_pos {o : PretixOrder} {info : List ItemInfoRow} {p : PretixPosition}
    {t : TicketRow} (h : positionToTicket o info p = some t) :
    t.position_id = toString p.id := by
  unfold positionToTicket at h
  rcases hg : (info.filter (fun i => i.item_id == toString p.item)).getLast? with - | item
  · rw [hg] at h; simp at h
  · rw [hg] at h
    simp only [Option.some.injEq] at h
    rw [← h]

theorem positionToTicket_ref {o : PretixOrder} {info : List ItemInfoRow} {p : PretixPosition}
    {t : TicketRow} (h : positionToTicket o info p = some t) :
    ∃ item ∈ info, t.devconnect_pretix_items_info_id = item.id := by
  unfold positionToTicket at h
  rcases hg : (info.filter (fun i => i.item_id == toString p.item)).getLast? with - | item
  · rw [hg] at h; simp at h
  · rw [hg] at h
    simp only [Option.some.injEq] at h
    refine ⟨item, ?_, ?_⟩
    · exact List.mem_of_mem_filter (list_getLast?_mem hg)
    · rw [← h]

theorem ordersToTickets_ref_mem (orders : List PretixOrder) (info : List ItemInfoRow) :
    ∀ t ∈ ordersToDevconnectTickets orders info,
      ∃ item ∈ info, t.devconnect_pretix_items_info_id = item.id := by
  intro t ht
  unfold ordersToDevconnectTickets at ht
  rcases List.mem_flatMap.mp ht with ⟨o, _, hto⟩
  split at hto
  · simp at hto
  · rcases List.mem_filterMap.mp hto with ⟨p, _, hpt⟩
    exact positionToTicket_ref hpt

theorem filterMap_pos_sublist (o : PretixOrder) (info : List ItemInfoRow)
    (ps : List PretixPosition) :
    List.Sublist ((ps.filterMap (positionToTicket o info)).map (fun t => t.position_id))
      (ps.map (fun p => toString p.id)) := by
  induction ps with
  | nil => simp
  | cons p rest ih =>
    rw [List.filterMap_cons]
    cases hf : positionToTicket o info p with
    | none =>
      simp only [List.map_cons]
      exact ih.cons _
    | some t =>
      simp only [List.map_cons]
      rw [positionToTicket_pos hf]
      exact ih.cons₂ _

theorem ordersToTickets_pos_sublist (orders : List PretixOrder) (info : List ItemInfoRow) :
    List.Sublist ((ordersToDevconnectTickets orders info).map (fun t => t.position_id))
      ((orders.flatMap (fun o => o.positions)).map (fun p => toString p.id)) := by
  induction orders with
  | nil => simp [ordersToDevconnectTickets]
  | cons o rest ih =>
    unfold ordersToDevconnectTickets at *
    rw [List.flatMap_cons, List.flatMap_cons, List.map_append, List.map_append]
    apply List.Sublist.append
    · split
      · simp
      · exact filterMap_pos_sublist o info o.positions
    · exact ih

theorem ordersToTickets_pos_nodup {orders : List PretixOrder} {info : List ItemInfoRow}
    (hpos : ((orders.flatMap (fun o => o.positions)).map (fun p => toString p.id)).Nodup) :
    ((ordersToDevconnectTickets orders info).map (fun t => t.position_id)).Nodup :=
  List.Nodup.sublist (ordersToTickets_pos_sublist orders info) hpos

theorem ticketJoins_ref_congr (items : List ItemInfoRow) (events : List EventInfoRow)
    (c : String) {t t' : TicketRow}
    (h : t.devconnect_pretix_items_info_id = t'.devconnect_pretix_items_info_id) :
    ticketJoins items events c t = ticketJoins items events c t' := by
  unfold ticketJoins
  rw [h]

theorem ticketJoins_true {items : List ItemInfoRow} {events : List EventInfoRow}
    {configID : String} {t : TicketRow}
    (hndItems : (items.map (fun r => r.id)).Nodup)
    (hndEvents : (events.map (fun r => r.id)).Nodup)
    {item : ItemInfoRow} (hitem : item ∈ items)
    (href : t.devconnect_pretix_items_info_id = item.id)
    {ev : EventInfoRow} (hev : ev ∈ events)
    (heid : item.devconnect_pretix_events_info_id = ev.id)
    (hcfg : (ev.pretix_events_config_id == configID) = true) :
    ticketJoins items events configID t = true := by
  unfold ticketJoins
  have h1 : items.find? (fun i => i.id == t.devconnect_pretix_items_info_id) = some item :=
    list_find?_key_unique hndItems hitem href
  rw [h1]
  dsimp only
  have h2 : events.find? (fun e => e.id == item.devconnect_pretix_events_info_id) = some ev :=
    list_find?_key_unique hndEvents hev heid
  rw [h2]
  exact hcfg

/-! Binding lemmas and the update-hit lemma. -/

theorem lastItemBinding_mem {F : List ItemInfoRow} {k : String} {old : ItemInfoRow}
    (h : lastItemBinding F k = some old) : old ∈ F :=
  List.mem_of_mem_filter (list_getLast?_mem h)

theorem lastItemBinding_key {F : List ItemInfoRow} {k : String} {old : ItemInfoRow}
    (h : lastItemBinding F k = some old) : old.item_id = k := by
  have := (List.mem_filter.mp (list_getLast?_mem h)).2
  simpa [beq_iff_eq] using this

theorem lastTicketBinding_mem {F : List TicketRow} {k : String} {old : TicketRow}
    (h : lastTicketBinding F k = some old) : old ∈ F :=
  List.mem_of_mem_filter (list_getLast?_mem h)

theorem lastTicketBinding_key {F : List TicketRow} {k : String} {old : TicketRow}
    (h : lastTicketBinding F k = some old) : old.position_id = k := by
  have := (List.mem_filter.mp (list_getLast?_mem h)).2
  simpa [beq_iff_eq] using this

theorem filtered_ids_nodup {l : List ItemInfoRow} (h : (l.map (fun r => r.id)).Nodup)
    (p : ItemInfoRow → Bool) : ((l.filter p).map (fun r => r.id)).Nodup :=
  List.Nodup.sublist (List.Sublist.map _ (List.filter_sublist l)) h

theorem filtered_keys_nodup {l : List PretixItem}
    (h : (l.map (fun i => toString i.id)).Nodup) (p : PretixItem → Bool) :
    ((l.filter p).map (fun i => toString i.id)).Nodup :=
  List.Nodup.sublist (List.Sublist.map _ (List.filter_sublist l)) h

/-- When the update list contains the item whose last stored binding is `old`,
the composite update function rewrites any row carrying `old`'s row id to that
item's fetched name (and clears the soft-delete flag), provided row ids in the
pre-read map and item keys in the update list are unique. -/
theorem itemUpdateFn_hit {F : List ItemInfoRow} (hFnd : (F.map (fun r => r.id)).Nodup) :
    ∀ upd : List PretixItem, (upd.map (fun x => toString x.id)).Nodup →
      ∀ i ∈ upd, ∀ old : ItemInfoRow, lastItemBinding F (toString i.id) = some old →
        ∀ r : ItemInfoRow, r.id = old.id →
          itemUpdateFn F upd r =
            { r with item_name := getI18nString i.name, is_deleted := false } := by
  intro upd
  induction upd with
  | nil => intro _ i hi; simp at hi
  | cons y rest ih =>
    intro hknd i hi old hb r hr
    rw [List.map_cons, List.nodup_cons] at hknd
    rcases List.mem_cons.mp hi with rfl | hir
    · have hstep : itemUpdateStep F i r =
          { r with item_name := getI18nString i.name, is_deleted := false } := by
        unfold itemUpdateStep
        rw [hb]
        dsimp only
        rw [if_pos (by simpa [beq_iff_eq] using hr)]
      rw [show itemUpdateFn F (i :: rest) r = itemUpdateFn F rest (itemUpdateStep F i r) from rfl,
        hstep]
      apply itemUpdateFn_not_touched
      intro x hx old' hb' heq'
      have hmem' := lastItemBinding_mem hb'
      have hmem := lastItemBinding_mem hb
      have hoo : old' = old := List.inj_on_of_nodup_map hFnd hmem' hmem (by rw [heq', hr])
      apply hknd.1
      have hkk : toString x.id = toString i.id := by
        rw [← lastItemBinding_key hb', hoo, lastItemBinding_key hb]
      rw [← hkk]
      exact List.mem_map_of_mem _ hx
    · have hstep : itemUpdateStep F y r = r := by
        unfold itemUpdateStep
        cases hby : lastItemBinding F (toString y.id) with
        | none => rfl
        | some oldy =>
          dsimp only
          have hne : r.id ≠ oldy.id := by
            intro he
            have hoo : oldy = old :=
              List.inj_on_of_nodup_map hFnd (lastItemBinding_mem hby) (lastItemBinding_mem hb)
                (by rw [← he, hr])
            apply hknd.1
            have hkk : toString y.id = toString i.id := by
              rw [← lastItemBinding_key hby, hoo, lastItemBinding_key hb]
            rw [hkk]
            exact List.mem_map_of_mem _ hir
          rw [if_neg (by simpa [beq_iff_eq] using hne)]
      rw [show itemUpdateFn F (y :: rest) r = itemUpdateFn F rest (itemUpdateStep F y r) from rfl,
        hstep]
      exact ih hknd.2 i hir old hb r hr

/-! Branch equations for the two diff phases. -/

theorem syncItemInfos_run {db : Store} {event : EventConfig} {items : List PretixItem}
    {info : EventInfoRow} (hinfo : fetchPretixEventInfo db event.id = some info)
    (hdrift : (event.activeItemIDs.any
      (fun i => !((items.map (fun i => toString i.id)).contains i))) = false) :
    syncItemInfos db event items =
      ⟨true, none,
        itemsToInsertOf (fetchPretixItemsInfoByEvent db info.id) (newActiveOf event items),
        itemsToUpdateOf (fetchPretixItemsInfoByEvent db info.id) (newActiveOf event items),
        itemsToRemoveOf (fetchPretixItemsInfoByEvent db info.id) (newActiveOf event items),
        applyItemRemovals
          (applyItemUpdates
            (applyItemInserts db info.id
              (itemsToInsertOf (fetchPretixItemsInfoByEvent db info.id)
                (newActiveOf event items)))
            (fetchPretixItemsInfoByEvent db info.id)
            (itemsToUpdateOf (fetchPretixItemsInfoByEvent db info.id) (newActiveOf event items)))
          (itemsToRemoveOf (fetchPretixItemsInfoByEvent db info.id)
            (newActiveOf event items))⟩ := by
  unfold syncItemInfos newActiveOf itemsToInsertOf itemsToUpdateOf itemsToRemoveOf
  rw [hinfo]
  dsimp only
  rw [if_neg (by rw [hdrift]; simp)]

theorem syncTickets_run {db : Store} {event : EventConfig} {orders : List PretixOrder}
    {info : EventInfoRow} (hinfo : fetchPretixEventInfo db event.id = some info) :
    syncTickets db event orders =
      ⟨true, none,
        ticketsToInsertOf (fetchDevconnectPretixTicketsByEvent db event.id)
          (ordersToDevconnectTickets orders (fetchPretixItemsInfoByEvent db info.id)),
        ticketsToUpdateOf (fetchDevconnectPretixTicketsByEvent db event.id)
          (ordersToDevconnectTickets orders (fetchPretixItemsInfoByEvent db info.id)),
        ticketsToRemoveOf (fetchDevconnectPretixTicketsByEvent db event.id)
          (ordersToDevconnectTickets orders (fetchPretixItemsInfoByEvent db info.id)),
        applyTicketRemovals
          (applyTicketUpdates
            (applyTicketInserts db
              (ticketsToInsertOf (fetchDevconnectPretixTicketsByEvent db event.id)
                (ordersToDevconnectTickets orders (fetchPretixItemsInfoByEvent db info.id))))
            (ticketsToUpdateOf (fetchDevconnectPretixTicketsByEvent db event.id)
              (ordersToDevconnectTickets orders (fetchPretixItemsInfoByEvent db info.id))))
          (ticketsToRemoveOf (fetchDevconnectPretixTicketsByEvent db event.id)
            (ordersToDevconnectTickets orders (fetchPretixItemsInfoByEvent db info.id)))⟩ := by
  unfold syncTickets ticketsToInsertOf ticketsToUpdateOf ticketsToRemoveOf
  rw [hinfo]

/-! Item-phase post-state characterization. -/

theorem list_not_mem_filter {α : Type} {l : List α} {p : α → Bool} {a : α}
    (ha : a ∈ l) (h : a ∉ l.filter p) : p a = false := by
  cases hpa : p a with
  | false => rfl
  | true => exact absurd (List.mem_filter.mpr ⟨ha, hpa⟩) h

theorem fetchItems_eq (X : Store) (eid : Nat) :
    fetchPretixItemsInfoByEvent X eid =
      X.items.filter (fun r => r.devconnect_pretix_events_info_id == eid) := rfl

theorem item_pipeline_items (db : Store) (eid : Nat) (E : List ItemInfoRow)
    (INS UPD : List PretixItem) (REM : List ItemInfoRow)
    (hE : ∀ old ∈ E, old.id < db.nextId)
    (hREM : ∀ x ∈ REM, x.id < db.nextId) :
    (applyItemRemovals (applyItemUpdates (applyItemInserts db eid INS) E UPD) REM).items =
      db.items.map (fun r => itemRemoveFn REM (itemUpdateFn E UPD r)) ++
        insertedItemRows db.nextId eid INS := by
  rw [applyItemRemovals_items_char, applyItemUpdates_items_char, applyItemInserts_items_char]
  rw [List.map_append, List.map_append]
  congr 1
  · rw [List.map_map]
    apply list_map_congr
    intro a _
    rfl
  · have h1 : (insertedItemRows db.nextId eid INS).map (itemUpdateFn E UPD) =
        insertedItemRows db.nextId eid INS := by
      apply list_map_id_of_eq
      intro a ha
      apply itemUpdateFn_not_touched
      intro x hx old hb
      have h1 := hE old (lastItemBinding_mem hb)
      have h2 := (insertedItemRows_id_bounds eid INS db.nextId a ha).1
      omega
    rw [h1]
    apply list_map_id_of_eq
    intro a ha
    apply itemRemoveFn_not_touched
    intro x hx
    have h1 := hREM x hx
    have h2 := (insertedItemRows_id_bounds eid INS db.nextId a ha).1
    omega

theorem syncItemInfos_items_after {db : Store} {event : EventConfig} {items : List PretixItem}
    {info : EventInfoRow} (hwf : WFStore db)
    (hinfo : fetchPretixEventInfo db event.id = some info)
    (hdrift : (event.activeItemIDs.any
      (fun i => !((items.map (fun i => toString i.id)).contains i))) = false) :
    (syncItemInfos db event items).db.items =
      db.items.map (fun r =>
        itemRemoveFn
          (itemsToRemoveOf (fetchPretixItemsInfoByEvent db info.id) (newActiveOf event items))
          (itemUpdateFn (fetchPretixItemsInfoByEvent db info.id)
            (itemsToUpdateOf (fetchPretixItemsInfoByEvent db info.id) (newActiveOf event items))
            r)) ++
        insertedItemRows db.nextId info.id
          (itemsToInsertOf (fetchPretixItemsInfoByEvent db info.id)
            (newActiveOf event items)) := by
  rw [syncItemInfos_run hinfo hdrift]
  apply item_pipeline_items
  · intro old hold
    exact hwf.2.2.2 old (List.mem_of_mem_filter hold)
  · intro x hx
    exact hwf.2.2.2 x (List.mem_of_mem_filter (List.mem_of_mem_filter hx))

theorem syncItemInfos_fetch_after {db : Store} {event : EventConfig} {items : List PretixItem}
    {info : EventInfoRow} (hwf : WFStore db)
    (hinfo : fetchPretixEventInfo db event.id = some info)
    (hdrift : (event.activeItemIDs.any
      (fun i => !((items.map (fun i => toString i.id)).contains i))) = false) :
    fetchPretixItemsInfoByEvent (syncItemInfos db event items).db info.id =
      (fetchPretixItemsInfoByEvent db info.id).map
        (fun r =>
          itemRemoveFn
            (itemsToRemoveOf (fetchPretixItemsInfoByEvent db info.id) (newActiveOf event items))
            (itemUpdateFn (fetchPretixItemsInfoByEvent db info.id)
              (itemsToUpdateOf (fetchPretixItemsInfoByEvent db info.id)
                (newActiveOf event items)) r)) ++
      insertedItemRows db.nextId info.id
        (itemsToInsertOf (fetchPretixItemsInfoByEvent db info.id) (newActiveOf event items)) := by
  rw [fetchItems_eq (syncItemInfos db event items).db info.id,
    syncItemInfos_items_after hwf hinfo hdrift, List.filter_append]
  congr 1
  · rw [list_filter_map_comm]
    have hcong : db.items.filter (fun a =>
        (itemRemoveFn
          (itemsToRemoveOf (fetchPretixItemsInfoByEvent db info.id) (newActiveOf event items))
          (itemUpdateFn (fetchPretixItemsInfoByEvent db info.id)
            (itemsToUpdateOf (fetchPretixItemsInfoByEvent db info.id) (newActiveOf event items))
            a)).devconnect_pretix_events_info_id == info.id) =
        db.items.filter (fun a => a.devconnect_pretix_events_info_id == info.id) := by
      apply list_filter_congr
      intro a _
      rw [(itemRemoveFn_frame _ _).2.2.1, (itemUpdateFn_frame _ _ _).2.2]
    rw [hcong]
    rfl
  · apply list_filter_eq_self
    intro a ha
    have := insertedItemRows_event db.nextId info.id _ a ha
    simp [this]

/-- The composite update function never touches a row whose id belongs to the
soft-delete set (such a row's key is outside the active set, while every
update targets an active key). -/
theorem updFn_skips_removed {E : List ItemInfoRow} {NA : List PretixItem}
    (hEnd : (E.map (fun r => r.id)).Nodup)
    {e0 : ItemInfoRow} (he0 : e0 ∈ itemsToRemoveOf E NA) :
    ∀ z : ItemInfoRow, z.id = e0.id → itemUpdateFn E (itemsToUpdateOf E NA) z = z := by
  intro z hz
  apply itemUpdateFn_not_touched
  intro x hx old hb heq
  have holdE := lastItemBinding_mem hb
  have he0E : e0 ∈ E := List.mem_of_mem_filter he0
  have hoe : old = e0 := List.inj_on_of_nodup_map hEnd holdE he0E (by rw [heq, hz])
  have hkey := lastItemBinding_key hb
  have hcond := (List.mem_filter.mp he0).2
  have hxNA : x ∈ NA := List.mem_of_mem_filter (List.mem_of_mem_filter hx)
  have hany : NA.any (fun i => toString i.id == e0.item_id) = true :=
    List.any_eq_true.mpr ⟨x, hxNA, by rw [← hoe, hkey]; simp⟩
  rw [hany] at hcond
  simp at hcond

/-- The composite soft-delete function never touches a row whose id is that of
a stored row with an active key. -/
theorem remFn_skips_active {E : List ItemInfoRow} {NA : List PretixItem}
    (hEnd : (E.map (fun r => r.id)).Nodup)
    {old : ItemInfoRow} (holdE : old ∈ E)
    (hkey : NA.any (fun i => toString i.id == old.item_id) = true) :
    ∀ z : ItemInfoRow, z.id = old.id → itemRemoveFn (itemsToRemoveOf E NA) z = z := by
  intro z hz
  apply itemRemoveFn_not_touched
  intro x hx heq
  have hxE : x ∈ E := List.mem_of_mem_filter hx
  have hxold : x = old := List.inj_on_of_nodup_map hEnd hxE holdE (by rw [heq, hz])
  have hcond := (List.mem_filter.mp hx).2
  rw [hxold, hkey] at hcond
  simp at hcond

theorem list_any_false {α : Type} {l : List α} {p : α → Bool} (h : l.any p = false) :
    ∀ a ∈ l, p a = false := by
  intro a ha
  cases hpa : p a with
  | false => rfl
  | true =>
    rw [List.any_eq_true.mpr ⟨a, ha, hpa⟩] at h
    simp at h

/-- After the item phase, every active item's key is present among the event's
rows (abstract form over the pre-read rows `E` and active items `NA`). -/
theorem itemPhase_any (E : List ItemInfoRow) (NA : List PretixItem) (n eid : Nat) :
    ∀ i ∈ NA,
      ((E.map (fun r => itemRemoveFn (itemsToRemoveOf E NA)
          (itemUpdateFn E (itemsToUpdateOf E NA) r)) ++
        insertedItemRows n eid (itemsToInsertOf E NA)).any
        (fun e => e.item_id == toString i.id)) = true := by
  intro i hi
  rw [List.any_append]
  cases hE : E.any (fun e => e.item_id == toString i.id) with
  | true =>
    obtain ⟨e, heE, hekey⟩ := List.any_eq_true.mp hE
    have hleft : (E.map (fun r => itemRemoveFn (itemsToRemoveOf E NA)
        (itemUpdateFn E (itemsToUpdateOf E NA) r))).any
        (fun e => e.item_id == toString i.id) = true := by
      apply List.any_eq_true.mpr
      refine ⟨itemRemoveFn (itemsToRemoveOf E NA) (itemUpdateFn E (itemsToUpdateOf E NA) e),
        List.mem_map_of_mem _ heE, ?_⟩
      rw [(itemRemoveFn_frame (itemsToRemoveOf E NA) _).2.1,
        (itemUpdateFn_frame E (itemsToUpdateOf E NA) e).2.1]
      exact hekey
    rw [hleft]
    rfl
  | false =>
    have hiINS : i ∈ itemsToInsertOf E NA := List.mem_filter.mpr ⟨hi, by rw [hE]; rfl⟩
    have hkeymem : toString i.id ∈
        (insertedItemRows n eid (itemsToInsertOf E NA)).map (fun r => r.item_id) := by
      rw [insertedItemRows_keys]
      exact List.mem_map_of_mem _ hiINS
    obtain ⟨row, hrow, hrowkey⟩ := List.mem_map.mp hkeymem
    have hright : (insertedItemRows n eid (itemsToInsertOf E NA)).any
        (fun e => e.item_id == toString i.id) = true := by
      apply List.any_eq_true.mpr
      refine ⟨row, hrow, ?_⟩
      have h2 : row.item_id = toString i.id := hrowkey
      rw [h2]
      simp
    rw [hright]
    simp

/-- After the item phase, every active item's last stored binding carries the
fetched display name. -/
theorem itemPhase_binding (E : List ItemInfoRow) (NA : List PretixItem) (n eid : Nat)
    (hEnd : (E.map (fun r => r.id)).Nodup)
    (hNAnd : (NA.map (fun x => toString x.id)).Nodup) :
    ∀ i ∈ NA,
      ∃ row, lastItemBinding
          (E.map (fun r => itemRemoveFn (itemsToRemoveOf E NA)
            (itemUpdateFn E (itemsToUpdateOf E NA) r)) ++
          insertedItemRows n eid (itemsToInsertOf E NA)) (toString i.id) = some row ∧
        row.item_name = getI18nString i.name := by
  intro i hi
  unfold lastItemBinding
  rw [List.filter_append]
  cases hE : E.any (fun e => e.item_id == toString i.id) with
  | false =>
    have hmapnil : (E.map (fun r => itemRemoveFn (itemsToRemoveOf E NA)
        (itemUpdateFn E (itemsToUpdateOf E NA) r))).filter
        (fun r => r.item_id == toString i.id) = [] := by
      rw [list_filter_map_comm]
      have hc : E.filter (fun a => (itemRemoveFn (itemsToRemoveOf E NA)
          (itemUpdateFn E (itemsToUpdateOf E NA) a)).item_id == toString i.id) =
          E.filter (fun a => a.item_id == toString i.id) := by
        apply list_filter_congr
        intro a _
        rw [(itemRemoveFn_frame _ _).2.1, (itemUpdateFn_frame _ _ _).2.1]
      rw [hc, list_filter_eq_nil (list_any_false hE), List.map_nil]
    have hiINS : i ∈ itemsToInsertOf E NA := List.mem_filter.mpr ⟨hi, by rw [hE]; rfl⟩
    have hINSkeys : ((itemsToInsertOf E NA).map (fun x => toString x.id)).Nodup :=
      filtered_keys_nodup hNAnd _
    obtain ⟨m, hm⟩ := insertedItemRows_filter_key_unique hINSkeys hiINS n eid
    rw [hmapnil, hm]
    exact ⟨⟨m, toString i.id, eid, getI18nString i.name, false⟩, by rw [List.nil_append]; rfl, rfl⟩
  | true =>
    have hIRnil : (insertedItemRows n eid (itemsToInsertOf E NA)).filter
        (fun r => r.item_id == toString i.id) = [] := by
      apply insertedItemRows_filter_key_nil
      intro x hx heq
      have hxc := (List.mem_filter.mp hx).2
      rw [heq, hE] at hxc
      simp at hxc
    rw [hIRnil, List.append_nil, list_filter_map_comm]
    have hc : E.filter (fun a => (itemRemoveFn (itemsToRemoveOf E NA)
        (itemUpdateFn E (itemsToUpdateOf E NA) a)).item_id == toString i.id) =
        E.filter (fun a => a.item_id == toString i.id) := by
      apply list_filter_congr
      intro a _
      rw [(itemRemoveFn_frame _ _).2.1, (itemUpdateFn_frame _ _ _).2.1]
    rw [hc, list_getLast?_map]
    obtain ⟨e, heE, hekey⟩ := List.any_eq_true.mp hE
    have hne : E.filter (fun a => a.item_id == toString i.id) ≠ [] := by
      intro h0
      have hmem : e ∈ E.filter (fun a => a.item_id == toString i.id) :=
        List.mem_filter.mpr ⟨heE, hekey⟩
      rw [h0] at hmem
      simp at hmem
    obtain ⟨old, hold⟩ := list_getLast?_of_ne_nil hne
    have holdb : lastItemBinding E (toString i.id) = some old := hold
    rw [hold]
    refine ⟨_, rfl, ?_⟩
    show (itemRemoveFn (itemsToRemoveOf E NA)
      (itemUpdateFn E (itemsToUpdateOf E NA) old)).item_name = getI18nString i.name
    have holdE := lastItemBinding_mem holdb
    have hkeyold := lastItemBinding_key holdb
    have hactive : NA.any (fun i' => toString i'.id == old.item_id) = true :=
      List.any_eq_true.mpr ⟨i, hi, by rw [hkeyold]; simp⟩
    by_cases hupd : i ∈ itemsToUpdateOf E NA
    · have hUPDnd : ((itemsToUpdateOf E NA).map (fun x => toString x.id)).Nodup :=
        filtered_keys_nodup (filtered_keys_nodup hNAnd _) _
      rw [itemUpdateFn_hit hEnd _ hUPDnd i hupd old holdb old rfl,
        remFn_skips_active hEnd holdE hactive
          { old with item_name := getI18nString i.name, is_deleted := false } rfl]
    · have hipre : i ∈ NA.filter (fun i' => E.any (fun e => e.item_id == toString i'.id)) :=
        List.mem_filter.mpr ⟨hi, hE⟩
      have hcondf := list_not_mem_filter hipre hupd
      rw [holdb] at hcondf
      have hnameeq : old.item_name = getI18nString i.name := by
        simpa using hcondf
      have h1 : itemUpdateFn E (itemsToUpdateOf E NA) old = old := by
        apply itemUpdateFn_not_touched
        intro x hx old' hb' heq'
        have ho : old' = old :=
          List.inj_on_of_nodup_map hEnd (lastItemBinding_mem hb') holdE heq'
        have hkx := lastItemBinding_key hb'
        have hxi : x = i := by
          have hkk : toString x.id = toString i.id := by rw [← hkx, ho, hkeyold]
          have hxNA : x ∈ NA := List.mem_of_mem_filter (List.mem_of_mem_filter hx)
          exact List.inj_on_of_nodup_map hNAnd hxNA hi hkk
        exact absurd (hxi ▸ hx) hupd
      rw [h1, remFn_skips_active hEnd holdE hactive old rfl, hnameeq]

/-- After the item phase, any row of the event whose key is no longer active is
soft-deleted, and so is every row of the whole table sharing its id. -/
theorem itemPhase_removed (E : List ItemInfoRow) (NA : List PretixItem)
    (M : List ItemInfoRow) (n eid : Nat)
    (hEnd : (E.map (fun r => r.id)).Nodup)
    (hMnd : (M.map (fun r => r.id)).Nodup)
    (hEM : ∀ r ∈ E, r ∈ M)
    (hMbound : ∀ r ∈ M, r.id < n) :
    ∀ e ∈ (E.map (fun r => itemRemoveFn (itemsToRemoveOf E NA)
          (itemUpdateFn E (itemsToUpdateOf E NA) r)) ++
        insertedItemRows n eid (itemsToInsertOf E NA)),
      (NA.any (fun i => toString i.id == e.item_id)) = false →
      ∀ q ∈ (M.map (fun r => itemRemoveFn (itemsToRemoveOf E NA)
          (itemUpdateFn E (itemsToUpdateOf E NA) r)) ++
        insertedItemRows n eid (itemsToInsertOf E NA)),
        q.id = e.id → q.is_deleted = true := by
  intro e heF hcond q hq hqid
  rcases List.mem_append.mp heF with heM | heIR
  · obtain ⟨e0, he0E, he0eq⟩ := List.mem_map.mp heM
    have he0eq' : itemRemoveFn (itemsToRemoveOf E NA)
        (itemUpdateFn E (itemsToUpdateOf E NA) e0) = e := he0eq
    have hkeyeq : e.item_id = e0.item_id := by
      rw [← he0eq', (itemRemoveFn_frame _ _).2.1, (itemUpdateFn_frame _ _ _).2.1]
    have hideq : e.id = e0.id := by
      rw [← he0eq', (itemRemoveFn_frame _ _).1, (itemUpdateFn_frame _ _ _).1]
    have he0REM : e0 ∈ itemsToRemoveOf E NA := by
      apply List.mem_filter.mpr
      refine ⟨he0E, ?_⟩
      rw [← hkeyeq, hcond]
      rfl
    rcases List.mem_append.mp hq with hqM | hqIR
    · obtain ⟨q0, hq0, hq0eq⟩ := List.mem_map.mp hqM
      have hq0eq' : itemRemoveFn (itemsToRemoveOf E NA)
          (itemUpdateFn E (itemsToUpdateOf E NA) q0) = q := hq0eq
      have hq0id : q0.id = e0.id := by
        rw [← hideq, ← hqid, ← hq0eq', (itemRemoveFn_frame _ _).1, (itemUpdateFn_frame _ _ _).1]
      have hq0e0 : q0 = e0 := List.inj_on_of_nodup_map hMnd hq0 (hEM e0 he0E) hq0id
      rw [← hq0eq', hq0e0, updFn_skips_removed hEnd he0REM e0 rfl]
      exact itemRemoveFn_deleted _ e0 ⟨e0, he0REM, rfl⟩
    · have hb1 := (insertedItemRows_id_bounds eid _ n q hqIR).1
      have hb2 := hMbound e0 (hEM e0 he0E)
      omega
  · have hkeymem : e.item_id ∈
        (insertedItemRows n eid (itemsToInsertOf E NA)).map (fun r => r.item_id) :=
      List.mem_map_of_mem _ heIR
    rw [insertedItemRows_keys] at hkeymem
    obtain ⟨x, hx, hxk⟩ := List.mem_map.mp hkeymem
    have hxNA : x ∈ NA := List.mem_of_mem_filter hx
    have hany : NA.any (fun i => toString i.id == e.item_id) = true :=
      List.any_eq_true.mpr ⟨x, hxNA, by rw [hxk]; simp⟩
    rw [hany] at hcond
    simp at hcond

/-! Frame and well-formedness lemmas for the two diff phases. -/

theorem syncItemInfos_db_events (db : Store) (event : EventConfig) (items : List PretixItem) :
    (syncItemInfos db event items).db.events = db.events := by
  unfold syncItemInfos
  cases hfind : fetchPretixEventInfo db event.id with
  | none => rfl
  | some info =>
    simp only
    split
    · rfl
    · simp [applyItemRemovals_events, applyItemUpdates_events, applyItemInserts_events]

theorem syncItemInfos_nextId_after {db : Store} {event : EventConfig} {items : List PretixItem}
    {info : EventInfoRow} (hinfo : fetchPretixEventInfo db event.id = some info)
    (hdrift : (event.activeItemIDs.any
      (fun i => !((items.map (fun i => toString i.id)).contains i))) = false) :
    (syncItemInfos db event items).db.nextId =
      db.nextId + (itemsToInsertOf (fetchPretixItemsInfoByEvent db info.id)
        (newActiveOf event items)).length := by
  rw [syncItemInfos_run hinfo hdrift]
  dsimp only
  rw [applyItemRemovals_nextId, applyItemUpdates_nextId, applyItemInserts_nextId]

theorem syncItemInfos_wf {db : Store} {event : EventConfig} {items : List PretixItem}
    (hwf : WFStore db) : WFStore (syncItemInfos db event items).db := by
  cases hfind : fetchPretixEventInfo db event.id with
  | none =>
    unfold syncItemInfos
    rw [hfind]
    exact hwf
  | some info =>
    by_cases hdrift : (event.activeItemIDs.any
        (fun i => !((items.map (fun i => toString i.id)).contains i))) = true
    · rw [syncItemInfos_drift hfind hdrift]
      exact hwf
    · have hdrift' : (event.activeItemIDs.any
          (fun i => !((items.map (fun i => toString i.id)).contains i))) = false := by
        cases h : (event.activeItemIDs.any
            (fun i => !((items.map (fun i => toString i.id)).contains i))) with
        | false => rfl
        | true => exact absurd h hdrift
      obtain ⟨h1, h2, h3, h4⟩ := hwf
      have hnext := syncItemInfos_nextId_after hfind hdrift'
      refine ⟨?_, ?_, ?_, ?_⟩
      · rw [syncItemInfos_db_events]
        exact h1
      · rw [syncItemInfos_items_after ⟨h1, h2, h3, h4⟩ hfind hdrift', List.map_append,
          List.nodup_append]
        refine ⟨?_, insertedItemRows_ids_nodup _ _ db.nextId, ?_⟩
        · rw [List.map_map]
          have hmm : db.items.map ((fun r => r.id) ∘ (fun r =>
              itemRemoveFn (itemsToRemoveOf (fetchPretixItemsInfoByEvent db info.id)
                  (newActiveOf event items))
                (itemUpdateFn (fetchPretixItemsInfoByEvent db info.id)
                  (itemsToUpdateOf (fetchPretixItemsInfoByEvent db info.id)
                    (newActiveOf event items)) r))) = db.items.map (fun r => r.id) := by
            apply list_map_congr
            intro a _
            show (itemRemoveFn _ (itemUpdateFn _ _ a)).id = a.id
            rw [(itemRemoveFn_frame _ _).1, (itemUpdateFn_frame _ _ _).1]
          rw [hmm]
          exact h2
        · intro a haA haB
          rcases List.mem_map.mp haA with ⟨q, hq, hqa⟩
          rcases List.mem_map.mp hq with ⟨q0, hq0, hq0q⟩
          have hq0a : q0.id = a := by
            rw [← hqa, ← hq0q]
            exact ((itemRemoveFn_frame _ _).1.trans (itemUpdateFn_frame _ _ _).1).symm ▸ rfl
          rcases List.mem_map.mp haB with ⟨r, hr, hra⟩
          have hb := (insertedItemRows_id_bounds info.id _ db.nextId r hr).1
          have hq0b := h4 q0 hq0
          omega
      · intro r hr
        rw [syncItemInfos_db_events] at hr
        have := h3 r hr
        omega
      · intro r hr
        rw [syncItemInfos_items_after ⟨h1, h2, h3, h4⟩ hfind hdrift'] at hr
        rcases List.mem_append.mp hr with hrM | hrB
        · rcases List.mem_map.mp hrM with ⟨q0, hq0, hq0r⟩
          have hrid : r.id = q0.id := by
            rw [← hq0r]
            exact (itemRemoveFn_frame _ _).1.trans (itemUpdateFn_frame _ _ _).1
          have := h4 q0 hq0
          omega
        · have := (insertedItemRows_id_bounds info.id _ db.nextId r hrB).2
          rw [hnext]
          have hlen : (insertedItemRows db.nextId info.id
              (itemsToInsertOf (fetchPretixItemsInfoByEvent db info.id)
                (newActiveOf event items))).length = (itemsToInsertOf
              (fetchPretixItemsInfoByEvent db info.id) (newActiveOf event items)).length := by
            have hk := insertedItemRows_keys db.nextId info.id
              (itemsToInsertOf (fetchPretixItemsInfoByEvent db info.id)
                (newActiveOf event items))
            have := congrArg List.length hk
            simpa using this
          omega

theorem syncTickets_db_items (db : Store) (event : EventConfig) (orders : List PretixOrder) :
    (syncTickets db event orders).db.items = db.items := by
  unfold syncTickets
  cases hfind : fetchPretixEventInfo db event.id with
  | none => rfl
  | some info =>
    simp [applyTicketRemovals_items, applyTicketUpdates_items, applyTicketInserts_items]

theorem syncTickets_db_events (db : Store) (event : EventConfig) (orders : List PretixOrder) :
    (syncTickets db event orders).db.events = db.events := by
  unfold syncTickets
  cases hfind : fetchPretixEventInfo db event.id with
  | none => rfl
  | some info =>
    simp [applyTicketRemovals_events, applyTicketUpdates_events, applyTicketInserts_events]

theorem syncTickets_db_nextId (db : Store) (event : EventConfig) (orders : List PretixOrder) :
    (syncTickets db event orders).db.nextId = db.nextId := by
  unfold syncTickets
  cases hfind : fetchPretixEventInfo db event.id with
  | none => rfl
  | some info =>
    simp [applyTicketRemovals_nextId, applyTicketUpdates_nextId, applyTicketInserts_nextId]

theorem syncTickets_wf {db : Store} {event : EventConfig} {orders : List PretixOrder}
    (hwf : WFStore db) : WFStore (syncTickets db event orders).db := by
  unfold WFStore
  rw [syncTickets_db_items, syncTickets_db_events, syncTickets_db_nextId]
  exact hwf

/-- Second-run no-op for the item phase: when every active item's key is
already present with the fetched name and every stale row is already
soft-deleted (as a first run leaves things), the phase performs no insert, no
update, and only re-issues soft-deletes of already-deleted rows, leaving the
store unchanged. -/
theorem syncItemInfos_second {db : Store} {event : EventConfig} {items : List PretixItem}
    {info : EventInfoRow} (hinfo : fetchPretixEventInfo db event.id = some info)
    (hdrift : (event.activeItemIDs.any
      (fun i => !((items.map (fun i => toString i.id)).contains i))) = false)
    (hA2 : ∀ i ∈ newActiveOf event items,
      ((fetchPretixItemsInfoByEvent db info.id).any
        (fun e => e.item_id == toString i.id)) = true)
    (hA3 : ∀ i ∈ newActiveOf event items,
      ∃ row, lastItemBinding (fetchPretixItemsInfoByEvent db info.id) (toString i.id) = some row ∧
        row.item_name = getI18nString i.name)
    (hA4 : ∀ e ∈ fetchPretixItemsInfoByEvent db info.id,
      ((newActiveOf event items).any (fun i => toString i.id == e.item_id)) = false →
      ∀ q ∈ db.items, q.id = e.id → q.is_deleted = true) :
    syncItemInfos db event items = ⟨true, none, [], [],
      itemsToRemoveOf (fetchPretixItemsInfoByEvent db info.id) (newActiveOf event items), db⟩ ∧
    ∀ x ∈ itemsToRemoveOf (fetchPretixItemsInfoByEvent db info.id) (newActiveOf event items),
      x.is_deleted = true := by
  have hins : itemsToInsertOf (fetchPretixItemsInfoByEvent db info.id)
      (newActiveOf event items) = [] := by
    unfold itemsToInsertOf
    apply list_filter_eq_nil
    intro i hi
    rw [hA2 i hi]
    rfl
  have hupd : itemsToUpdateOf (fetchPretixItemsInfoByEvent db info.id)
      (newActiveOf event items) = [] := by
    unfold itemsToUpdateOf
    apply list_filter_eq_nil
    intro i hi
    have hiNA : i ∈ newActiveOf event items := List.mem_of_mem_filter hi
    obtain ⟨row, hrow, hname⟩ := hA3 i hiNA
    rw [hrow]
    simp [hname]
  have hremcond : ∀ x ∈ itemsToRemoveOf (fetchPretixItemsInfoByEvent db info.id)
      (newActiveOf event items),
      x ∈ fetchPretixItemsInfoByEvent db info.id ∧
      ((newActiveOf event items).any (fun i => toString i.id == x.item_id)) = false := by
    intro x hx
    unfold itemsToRemoveOf at hx
    have hxE := (List.mem_filter.mp hx).1
    have hcond := (List.mem_filter.mp hx).2
    refine ⟨hxE, ?_⟩
    cases h : (newActiveOf event items).any (fun i => toString i.id == x.item_id) with
    | false => rfl
    | true => rw [h] at hcond; simp at hcond
  have hrem : ∀ x ∈ itemsToRemoveOf (fetchPretixItemsInfoByEvent db info.id)
      (newActiveOf event items), x.is_deleted = true := by
    intro x hx
    obtain ⟨hxE, hcond⟩ := hremcond x hx
    have hxdb : x ∈ db.items := by
      rw [fetchItems_eq] at hxE
      exact List.mem_of_mem_filter hxE
    exact hA4 x hxE hcond x hxdb rfl
  refine ⟨?_, hrem⟩
  rw [syncItemInfos_run hinfo hdrift, hins, hupd]
  have hnoop : applyItemRemovals db (itemsToRemoveOf (fetchPretixItemsInfoByEvent db info.id)
      (newActiveOf event items)) = db := by
    apply applyItemRemovals_noop
    intro x hx r hr hrid
    obtain ⟨hxE, hcond⟩ := hremcond x hx
    exact hA4 x hxE hcond r hr hrid
  rw [show applyItemInserts db info.id [] = db from rfl,
    show applyItemUpdates db (fetchPretixItemsInfoByEvent db info.id) [] = db from rfl, hnoop]

/-! Ticket-phase post-state characterization. -/

theorem list_filter_filter {α : Type} (l : List α) (p q : α → Bool) :
    (l.filter p).filter q = l.filter (fun a => p a && q a) := by
  induction l with
  | nil => rfl
  | cons a t ih =>
    rw [List.filter_cons, List.filter_cons]
    cases hpa : p a with
    | false =>
      rw [if_neg (by simp [hpa]), if_neg (by simp [hpa])]
      exact ih
    | true =>
      rw [if_pos (by simp [hpa]), List.filter_cons]
      cases hqa : q a with
      | false =>
        rw [if_neg (by simp [hqa]), if_neg (by simp [hpa, hqa])]
        exact ih
      | true =>
        rw [if_pos (by simp [hqa]), if_pos (by simp [hpa, hqa]), ih]

theorem fetchTickets_eq (X : Store) (c : String) :
    fetchDevconnectPretixTicketsByEvent X c =
      X.tickets.filter (ticketJoins X.items X.events c) := rfl

theorem ticket_pipeline (db : Store) (INS UPD REM : List TicketRow)
    (hIU : ∀ x ∈ INS, ∀ t ∈ UPD, t.position_id ≠ x.position_id)
    (hIR : ∀ x ∈ INS, ∀ t ∈ REM, t.position_id ≠ x.position_id) :
    (applyTicketRemovals (applyTicketUpdates (applyTicketInserts db INS) UPD) REM).tickets =
      db.tickets.map (fun r => ticketRemoveFn REM (ticketUpdateFn UPD r)) ++ INS := by
  rw [applyTicketRemovals_tickets_char, applyTicketUpdates_tickets_char,
    applyTicketInserts_char, List.map_append, List.map_append]
  congr 1
  · rw [List.map_map]
    apply list_map_congr
    intro a _
    rfl
  · have h1 : INS.map (ticketUpdateFn UPD) = INS :=
      list_map_id_of_eq (fun x hx =>
        ticketUpdateFn_not_touched _ x (fun t ht => hIU x hx t ht))
    rw [h1]
    exact list_map_id_of_eq (fun x hx =>
      ticketRemoveFn_not_touched _ x (fun t ht => hIR x hx t ht))

theorem ticket_disjoint_INS_UPD (ET T : List TicketRow) :
    ∀ x ∈ ticketsToInsertOf ET T, ∀ t ∈ ticketsToUpdateOf ET T,
      t.position_id ≠ x.position_id := by
  intro x hx t ht heq
  unfold ticketsToInsertOf at hx
  unfold ticketsToUpdateOf at ht
  have hxc := (List.mem_filter.mp hx).2
  have htc := (List.mem_filter.mp (List.mem_of_mem_filter ht)).2
  rw [heq] at htc
  rw [htc] at hxc
  simp at hxc

theorem ticket_disjoint_INS_REM (ET T : List TicketRow) :
    ∀ x ∈ ticketsToInsertOf ET T, ∀ e ∈ ticketsToRemoveOf ET T,
      e.position_id ≠ x.position_id := by
  intro x hx e he heq
  unfold ticketsToInsertOf at hx
  unfold ticketsToRemoveOf at he
  have hec := (List.mem_filter.mp he).2
  have hxT := List.mem_of_mem_filter hx
  have hany : T.any (fun t => t.position_id == e.position_id) = true :=
    List.any_eq_true.mpr ⟨x, hxT, by rw [heq]; simp⟩
  rw [hany] at hec
  simp at hec

/-- Every converted ticket joins into the event (its owning item row belongs to
the event's item-info rows, whose event row carries the event-config id). -/
theorem T_joins {db : Store} {event : EventConfig} {orders : List PretixOrder}
    {info : EventInfoRow} (hwf : WFStore db)
    (hinfo : fetchPretixEventInfo db event.id = some info) :
    ∀ t ∈ ordersToDevconnectTickets orders (fetchPretixItemsInfoByEvent db info.id),
      ticketJoins db.items db.events event.id t = true := by
  intro t ht
  obtain ⟨item, hitemF, href⟩ := ordersToTickets_ref_mem _ _ t ht
  rw [fetchItems_eq] at hitemF
  have hitemM := List.mem_of_mem_filter hitemF
  have hitemE : item.devconnect_pretix_events_info_id = info.id := by
    have := (List.mem_filter.mp hitemF).2
    simpa [beq_iff_eq] using this
  have hinfomem : info ∈ db.events := by
    unfold fetchPretixEventInfo at hinfo
    exact List.mem_of_find?_eq_some hinfo
  have hinfocfg : (info.pretix_events_config_id == event.id) = true := by
    unfold fetchPretixEventInfo at hinfo
    have h := List.find?_some hinfo
    exact h
  exact ticketJoins_true hwf.2.1 hwf.1 hitemM href hinfomem hitemE hinfocfg

theorem syncTickets_tickets_after {db : Store} {event : EventConfig} {orders : List PretixOrder}
    {info : EventInfoRow} (hinfo : fetchPretixEventInfo db event.id = some info) :
    (syncTickets db event orders).db.tickets =
      db.tickets.map (fun r =>
        ticketRemoveFn
          (ticketsToRemoveOf (fetchDevconnectPretixTicketsByEvent db event.id)
            (ordersToDevconnectTickets orders (fetchPretixItemsInfoByEvent db info.id)))
          (ticketUpdateFn
            (ticketsToUpdateOf (fetchDevconnectPretixTicketsByEvent db event.id)
              (ordersToDevconnectTickets orders (fetchPretixItemsInfoByEvent db info.id))) r)) ++
        ticketsToInsertOf (fetchDevconnectPretixTicketsByEvent db event.id)
          (ordersToDevconnectTickets orders (fetchPretixItemsInfoByEvent db info.id)) := by
  rw [syncTickets_run hinfo]
  exact ticket_pipeline db _ _ _ (ticket_disjoint_INS_UPD _ _) (ticket_disjoint_INS_REM _ _)

theorem syncTickets_fetch_after {db : Store} {event : EventConfig} {orders : List PretixOrder}
    {info : EventInfoRow} (hwf : WFStore db)
    (hinfo : fetchPretixEventInfo db event.id = some info) :
    fetchDevconnectPretixTicketsByEvent (syncTickets db event orders).db event.id =
      (db.tickets.map (fun r =>
        ticketRemoveFn
          (ticketsToRemoveOf (fetchDevconnectPretixTicketsByEvent db event.id)
            (ordersToDevconnectTickets orders (fetchPretixItemsInfoByEvent db info.id)))
          (ticketUpdateFn
            (ticketsToUpdateOf (fetchDevconnectPretixTicketsByEvent db event.id)
              (ordersToDevconnectTickets orders (fetchPretixItemsInfoByEvent db info.id)))
            r))).filter (ticketJoins db.items db.events event.id) ++
        ticketsToInsertOf (fetchDevconnectPretixTicketsByEvent db event.id)
          (ordersToDevconnectTickets orders (fetchPretixItemsInfoByEvent db info.id)) := by
  rw [fetchTickets_eq, syncTickets_db_items, syncTickets_db_events,
    syncTickets_tickets_after hinfo, List.filter_append]
  congr 1
  apply list_filter_eq_self
  intro x hx
  unfold ticketsToInsertOf at hx
  exact T_joins hwf hinfo x (List.mem_of_mem_filter hx)

/-- A row never compares different from its own update image: the consumed flag
is outside the comparison. -/
theorem pretixTicketsDifferent_update_self (t : TicketRow) (c : Bool) :
    pretixTicketsDifferent { t with is_consumed := c } t = false := by
  simp [pretixTicketsDifferent]

theorem pretixTicketsDifferent_self (t : TicketRow) :
    pretixTicketsDifferent t t = false := by
  simp [pretixTicketsDifferent]

theorem updT_nodup {ET T : List TicketRow}
    (hTnd : (T.map (fun t => t.position_id)).Nodup) :
    ((ticketsToUpdateOf ET T).map (fun t => t.position_id)).Nodup := by
  unfold ticketsToUpdateOf
  exact List.Nodup.sublist
    (List.Sublist.map _ ((List.filter_sublist _).trans (List.filter_sublist _))) hTnd

theorem updT_subset {ET T : List TicketRow} {t : TicketRow}
    (ht : t ∈ ticketsToUpdateOf ET T) : t ∈ T := by
  unfold ticketsToUpdateOf at ht
  exact List.mem_of_mem_filter (List.mem_of_mem_filter ht)

theorem insT_subset {ET T : List TicketRow} {t : TicketRow}
    (ht : t ∈ ticketsToInsertOf ET T) : t ∈ T := by
  unfold ticketsToInsertOf at ht
  exact List.mem_of_mem_filter ht

/-- The soft-delete pass of the ticket phase skips any row whose position is
still present among the converted tickets. -/
theorem remT_skips_live (ET T : List TicketRow) (r : TicketRow)
    (hr : T.any (fun t => t.position_id == r.position_id) = true) :
    ticketRemoveFn (ticketsToRemoveOf ET T) r = r := by
  apply ticketRemoveFn_not_touched
  intro x hx heq
  unfold ticketsToRemoveOf at hx
  have hxc := (List.mem_filter.mp hx).2
  rw [heq, hr] at hxc
  simp at hxc

/-- The update pass of the ticket phase skips any row whose position is absent
from the converted tickets. -/
theorem updT_skips_dead (ET T : List TicketRow) (r : TicketRow)
    (hdead : T.any (fun t => t.position_id == r.position_id) = false) :
    ticketUpdateFn (ticketsToUpdateOf ET T) r = r := by
  apply ticketUpdateFn_not_touched
  intro t ht heq
  have h := list_any_false hdead t (updT_subset ht)
  rw [heq] at h
  simp at h

/-- Row-level effect of the whole ticket phase on a row whose position belongs
to an update-set ticket. -/
theorem tfT_hit (ET T : List TicketRow)
    (hTnd : (T.map (fun t => t.position_id)).Nodup) {t : TicketRow}
    (ht : t ∈ ticketsToUpdateOf ET T) {r : TicketRow}
    (hpos : r.position_id = t.position_id) :
    ticketRemoveFn (ticketsToRemoveOf ET T)
      (ticketUpdateFn (ticketsToUpdateOf ET T) r) =
      { t with is_consumed := r.is_consumed } := by
  rw [ticketUpdateFn_hit _ (updT_nodup hTnd) t ht r hpos]
  apply remT_skips_live
  exact List.any_eq_true.mpr ⟨t, updT_subset ht, by simp⟩

/-- Row-level effect of the whole ticket phase on a live row that no update-set
ticket targets: the row is untouched. -/
theorem tfT_skip (ET T : List TicketRow) {r : TicketRow}
    (hU : ∀ tu ∈ ticketsToUpdateOf ET T, tu.position_id ≠ r.position_id)
    (hlive : T.any (fun t => t.position_id == r.position_id) = true) :
    ticketRemoveFn (ticketsToRemoveOf ET T)
      (ticketUpdateFn (ticketsToUpdateOf ET T) r) = r := by
  rw [ticketUpdateFn_not_touched _ r hU]
  exact remT_skips_live _ _ r hlive

theorem updT_eq_of_pos {ET T : List TicketRow}
    (hTnd : (T.map (fun t => t.position_id)).Nodup) {t tu : TicketRow}
    (ht : t ∈ T) (htu : tu ∈ ticketsToUpdateOf ET T)
    (hpos : tu.position_id = t.position_id) : tu = t :=
  List.inj_on_of_nodup_map hTnd (updT_subset htu) ht hpos

theorem insT_eq_of_pos {ET T : List TicketRow}
    (hTnd : (T.map (fun t => t.position_id)).Nodup) {t x : TicketRow}
    (ht : t ∈ T) (hx : x ∈ ticketsToInsertOf ET T)
    (hpos : x.position_id = t.position_id) : x = t :=
  List.inj_on_of_nodup_map hTnd (insT_subset hx) ht hpos

theorem list_filter_skey_singleton {l : List TicketRow}
    (hnd : (l.map (fun x => x.position_id)).Nodup) {t : TicketRow} (ht : t ∈ l) :
    l.filter (fun x => x.position_id == t.position_id) = [t] := by
  induction l with
  | nil => simp at ht
  | cons b u ih =>
    rw [List.map_cons, List.nodup_cons] at hnd
    rw [List.filter_cons]
    rcases List.mem_cons.mp ht with rfl | htu
    · rw [if_pos (by simp)]
      have hrest : u.filter (fun x => x.position_id == t.position_id) = [] := by
        apply list_filter_eq_nil
        intro a ha
        cases hpa : (a.position_id == t.position_id) with
        | false => rfl
        | true =>
          exfalso
          apply hnd.1
          have hpa' : a.position_id = t.position_id := by simpa [beq_iff_eq] using hpa
          rw [← hpa']
          exact List.mem_map_of_mem _ ha
      rw [hrest]
    · have hbne : (b.position_id == t.position_id) = false := by
        cases hb : (b.position_id == t.position_id) with
        | false => rfl
        | true =>
          exfalso
          apply hnd.1
          rw [show b.position_id = t.position_id from by simpa [beq_iff_eq] using hb]
          exact List.mem_map_of_mem _ htu
      rw [if_neg (by simp [hbne])]
      exact ih hnd.2 htu

/-- After a ticket phase, every converted ticket's position is present in the
re-fetched ticket set of the event. -/
theorem ticketPhase_any (DB ET T : List TicketRow) (J : TicketRow → Bool)
    (hET : ET = DB.filter J)
    (hJT : ∀ t ∈ T, J t = true)
    (hJref : ∀ t t' : TicketRow,
      t.devconnect_pretix_items_info_id = t'.devconnect_pretix_items_info_id →
      J t = J t')
    (hTnd : (T.map (fun t => t.position_id)).Nodup) :
    ∀ t ∈ T,
      (((DB.map (fun r => ticketRemoveFn (ticketsToRemoveOf ET T)
          (ticketUpdateFn (ticketsToUpdateOf ET T) r))).filter J ++
        ticketsToInsertOf ET T).any (fun e => e.position_id == t.position_id)) = true := by
  intro t ht
  rw [List.any_append]
  cases hE : ET.any (fun e => e.position_id == t.position_id) with
  | false =>
    have htINS : t ∈ ticketsToInsertOf ET T := by
      unfold ticketsToInsertOf
      exact List.mem_filter.mpr ⟨ht, by rw [hE]; rfl⟩
    have hright : (ticketsToInsertOf ET T).any (fun e => e.position_id == t.position_id) = true :=
      List.any_eq_true.mpr ⟨t, htINS, by simp⟩
    rw [hright, Bool.or_true]
  | true =>
    obtain ⟨e, heET, hekey⟩ := List.any_eq_true.mp hE
    have heDB : e ∈ DB := by rw [hET] at heET; exact List.mem_of_mem_filter heET
    have hJe : J e = true := by rw [hET] at heET; exact (List.mem_filter.mp heET).2
    have hepos : e.position_id = t.position_id := by simpa [beq_iff_eq] using hekey
    have hJtf : J (ticketRemoveFn (ticketsToRemoveOf ET T)
        (ticketUpdateFn (ticketsToUpdateOf ET T) e)) = true := by
      by_cases hU : ∃ tu ∈ ticketsToUpdateOf ET T, tu.position_id = e.position_id
      · obtain ⟨tu, htu, htupos⟩ := hU
        rw [tfT_hit ET T hTnd htu htupos.symm]
        rw [hJref { tu with is_consumed := e.is_consumed } tu rfl]
        exact hJT tu (updT_subset htu)
      · push_neg at hU
        rw [tfT_skip ET T hU (List.any_eq_true.mpr ⟨t, ht, by rw [hepos]; simp⟩)]
        exact hJe
    have hpos : (ticketRemoveFn (ticketsToRemoveOf ET T)
        (ticketUpdateFn (ticketsToUpdateOf ET T) e)).position_id = t.position_id := by
      rw [(ticketRemoveFn_frame _ _).1, ticketUpdateFn_pos]
      exact hepos
    have hleft : ((DB.map (fun r => ticketRemoveFn (ticketsToRemoveOf ET T)
        (ticketUpdateFn (ticketsToUpdateOf ET T) r))).filter J).any
        (fun x => x.position_id == t.position_id) = true := by
      apply List.any_eq_true.mpr
      refine ⟨ticketRemoveFn (ticketsToRemoveOf ET T)
        (ticketUpdateFn (ticketsToUpdateOf ET T) e),
        List.mem_filter.mpr ⟨List.mem_map_of_mem _ heDB, hJtf⟩, ?_⟩
      rw [hpos]
      simp
    rw [hleft]
    rfl

/-- After a ticket phase, any fetched row whose position has disappeared from
the converted tickets is soft-deleted, along with every row sharing its
position. -/
theorem ticketPhase_removed (DB ET T : List TicketRow) (J : TicketRow → Bool)
    (hET : ET = DB.filter J)
    (hJref : ∀ t t' : TicketRow,
      t.devconnect_pretix_items_info_id = t'.devconnect_pretix_items_info_id →
      J t = J t') :
    ∀ e ∈ ((DB.map (fun r => ticketRemoveFn (ticketsToRemoveOf ET T)
          (ticketUpdateFn (ticketsToUpdateOf ET T) r))).filter J ++
        ticketsToInsertOf ET T),
      (T.any (fun t => t.position_id == e.position_id)) = false →
      ∀ q ∈ (DB.map (fun r => ticketRemoveFn (ticketsToRemoveOf ET T)
          (ticketUpdateFn (ticketsToUpdateOf ET T) r)) ++
        ticketsToInsertOf ET T),
        q.position_id = e.position_id → q.is_deleted = true := by
  intro e heF hcond q hq hqpos
  rcases List.mem_append.mp heF with heL | heINS
  case inr =>
    exfalso
    have heT : e ∈ T := insT_subset heINS
    rw [List.any_eq_true.mpr ⟨e, heT, by simp⟩] at hcond
    exact Bool.noConfusion hcond
  case inl =>
    obtain ⟨r0, hr0DB, hr0eq⟩ := List.mem_map.mp (List.mem_of_mem_filter heL)
    have hr0eq' : ticketRemoveFn (ticketsToRemoveOf ET T)
        (ticketUpdateFn (ticketsToUpdateOf ET T) r0) = e := hr0eq
    have hr0pos : e.position_id = r0.position_id := by
      rw [← hr0eq', (ticketRemoveFn_frame _ _).1, ticketUpdateFn_pos]
    have hr0dead : T.any (fun t => t.position_id == r0.position_id) = false := by
      rw [← hr0pos]
      exact hcond
    have hr0upd : ticketUpdateFn (ticketsToUpdateOf ET T) r0 = r0 :=
      updT_skips_dead ET T r0 hr0dead
    have hJr0 : J r0 = true := by
      have hJe : J e = true := (List.mem_filter.mp heL).2
      rw [← hr0eq', hr0upd] at hJe
      rw [← hJe]
      exact (hJref _ _ (ticketRemoveFn_frame _ _).2).symm
    have hr0ET : r0 ∈ ET := by
      rw [hET]
      exact List.mem_filter.mpr ⟨hr0DB, hJr0⟩
    have hr0REM : r0 ∈ ticketsToRemoveOf ET T := by
      unfold ticketsToRemoveOf
      exact List.mem_filter.mpr ⟨hr0ET, by rw [hr0dead]; rfl⟩
    rcases List.mem_append.mp hq with hqL | hqINS
    · obtain ⟨p, hpDB, hpeq⟩ := List.mem_map.mp hqL
      have hpeq' : ticketRemoveFn (ticketsToRemoveOf ET T)
          (ticketUpdateFn (ticketsToUpdateOf ET T) p) = q := hpeq
      have hppos : p.position_id = e.position_id := by
        rw [← hqpos, ← hpeq', (ticketRemoveFn_frame _ _).1, ticketUpdateFn_pos]
      have hpdead : T.any (fun t => t.position_id == p.position_id) = false := by
        rw [hppos]
        exact hcond
      rw [← hpeq', updT_skips_dead ET T p hpdead]
      exact ticketRemoveFn_deleted _ p ⟨r0, hr0REM, by rw [← hr0pos, ← hppos]⟩
    · exfalso
      have hqT : q ∈ T := insT_subset hqINS
      rw [List.any_eq_true.mpr ⟨q, hqT, by rw [hqpos]; simp⟩] at hcond
      exact Bool.noConfusion hcond

/-- After a ticket phase, every converted ticket's last stored binding exists
and does not compare different from the ticket, so a second run updates
nothing. -/
theorem ticketPhase_binding (DB ET T : List TicketRow) (J : TicketRow → Bool)
    (hET : ET = DB.filter J)
    (hJT : ∀ t ∈ T, J t = true)
    (hJref : ∀ t t' : TicketRow,
      t.devconnect_pretix_items_info_id = t'.devconnect_pretix_items_info_id →
      J t = J t')
    (hTnd : (T.map (fun t => t.position_id)).Nodup) :
    ∀ t ∈ T, ∃ old,
      lastTicketBinding ((DB.map (fun r => ticketRemoveFn (ticketsToRemoveOf ET T)
          (ticketUpdateFn (ticketsToUpdateOf ET T) r))).filter J ++
        ticketsToInsertOf ET T) t.position_id = some old ∧
      pretixTicketsDifferent old t = false := by
  intro t ht
  unfold lastTicketBinding
  rw [List.filter_append]
  by_cases hU : ∃ tu ∈ ticketsToUpdateOf ET T, tu.position_id = t.position_id
  · obtain ⟨tu, htu, htupos⟩ := hU
    have htUPD : t ∈ ticketsToUpdateOf ET T :=
      (updT_eq_of_pos hTnd ht htu htupos) ▸ htu
    have hEany : ET.any (fun e => e.position_id == t.position_id) = true := by
      unfold ticketsToUpdateOf at htUPD
      exact (List.mem_filter.mp (List.mem_of_mem_filter htUPD)).2
    have hINSnil : (ticketsToInsertOf ET T).filter
        (fun x => x.position_id == t.position_id) = [] := by
      apply list_filter_eq_nil
      intro x hx
      cases hxt : (x.position_id == t.position_id) with
      | false => rfl
      | true =>
        exfalso
        have hxeq : x = t := insT_eq_of_pos hTnd ht hx (by simpa [beq_iff_eq] using hxt)
        subst hxeq
        unfold ticketsToInsertOf at hx
        have hc := (List.mem_filter.mp hx).2
        rw [hEany] at hc
        simp at hc
    rw [hINSnil, List.append_nil]
    have hshape : ∀ row ∈ ((DB.map (fun r => ticketRemoveFn (ticketsToRemoveOf ET T)
        (ticketUpdateFn (ticketsToUpdateOf ET T) r))).filter J).filter
        (fun x => x.position_id == t.position_id),
        ∃ c, row = { t with is_consumed := c } := by
      intro row hrow
      have hrowpos : row.position_id = t.position_id := by
        simpa [beq_iff_eq] using (List.mem_filter.mp hrow).2
      obtain ⟨r, hrDB, hreq⟩ :=
        List.mem_map.mp (List.mem_of_mem_filter (List.mem_of_mem_filter hrow))
      have hreq' : ticketRemoveFn (ticketsToRemoveOf ET T)
          (ticketUpdateFn (ticketsToUpdateOf ET T) r) = row := hreq
      have hrpos : r.position_id = t.position_id := by
        rw [← hrowpos, ← hreq', (ticketRemoveFn_frame _ _).1, ticketUpdateFn_pos]
      exact ⟨r.is_consumed, by rw [← hreq', tfT_hit ET T hTnd htUPD hrpos]⟩
    have hne : ((DB.map (fun r => ticketRemoveFn (ticketsToRemoveOf ET T)
        (ticketUpdateFn (ticketsToUpdateOf ET T) r))).filter J).filter
        (fun x => x.position_id == t.position_id) ≠ [] := by
      obtain ⟨e, heET, hekey⟩ := List.any_eq_true.mp hEany
      have heDB : e ∈ DB := by rw [hET] at heET; exact List.mem_of_mem_filter heET
      have hepos : e.position_id = t.position_id := by simpa [beq_iff_eq] using hekey
      have hfe : ticketRemoveFn (ticketsToRemoveOf ET T)
          (ticketUpdateFn (ticketsToUpdateOf ET T) e) =
          { t with is_consumed := e.is_consumed } := tfT_hit ET T hTnd htUPD hepos
      have hJfe : J (ticketRemoveFn (ticketsToRemoveOf ET T)
          (ticketUpdateFn (ticketsToUpdateOf ET T) e)) = true := by
        rw [hfe, hJref { t with is_consumed := e.is_consumed } t rfl]
        exact hJT t ht
      apply List.ne_nil_of_mem
      apply List.mem_filter.mpr
      refine ⟨List.mem_filter.mpr ⟨List.mem_map_of_mem _ heDB, hJfe⟩, ?_⟩
      rw [hfe]
      simp
    obtain ⟨old, hold⟩ := list_getLast?_of_ne_nil hne
    obtain ⟨c, hc⟩ := hshape old (list_getLast?_mem hold)
    exact ⟨old, hold, by rw [hc]; exact pretixTicketsDifferent_update_self t c⟩
  · push_neg at hU
    cases hE : ET.any (fun e => e.position_id == t.position_id) with
    | true =>
      have hINSnil : (ticketsToInsertOf ET T).filter
          (fun x => x.position_id == t.position_id) = [] := by
        apply list_filter_eq_nil
        intro x hx
        cases hxt : (x.position_id == t.position_id) with
        | false => rfl
        | true =>
          exfalso
          have hxeq : x = t := insT_eq_of_pos hTnd ht hx (by simpa [beq_iff_eq] using hxt)
          subst hxeq
          unfold ticketsToInsertOf at hx
          have hc := (List.mem_filter.mp hx).2
          rw [hE] at hc
          simp at hc
      rw [hINSnil, List.append_nil]
      have hmapeq : ((DB.map (fun r => ticketRemoveFn (ticketsToRemoveOf ET T)
          (ticketUpdateFn (ticketsToUpdateOf ET T) r))).filter J).filter
          (fun x => x.position_id == t.position_id) =
          ET.filter (fun x => x.position_id == t.position_id) := by
        rw [list_filter_filter, list_filter_map_comm]
        have hcong : DB.filter (fun r =>
            J (ticketRemoveFn (ticketsToRemoveOf ET T)
              (ticketUpdateFn (ticketsToUpdateOf ET T) r)) &&
            ((ticketRemoveFn (ticketsToRemoveOf ET T)
              (ticketUpdateFn (ticketsToUpdateOf ET T) r)).position_id == t.position_id)) =
            DB.filter (fun r => (r.position_id == t.position_id) && J r) := by
          apply list_filter_congr
          intro r _
          by_cases hrp : (r.position_id == t.position_id) = true
          · have hrpe : r.position_id = t.position_id := by simpa [beq_iff_eq] using hrp
            have hfr : ticketRemoveFn (ticketsToRemoveOf ET T)
                (ticketUpdateFn (ticketsToUpdateOf ET T) r) = r :=
              tfT_skip ET T (fun tu htu heq => hU tu htu (heq.trans hrpe))
                (List.any_eq_true.mpr ⟨t, ht, by rw [hrpe]; simp⟩)
            rw [hfr, hrp]
            simp
          · have hrp' : (r.position_id == t.position_id) = false := Bool.eq_false_iff.mpr hrp
            have hfrpos : (ticketRemoveFn (ticketsToRemoveOf ET T)
                (ticketUpdateFn (ticketsToUpdateOf ET T) r)).position_id = r.position_id := by
              rw [(ticketRemoveFn_frame _ _).1, ticketUpdateFn_pos]
            rw [hfrpos, hrp']
            simp
        rw [hcong]
        have hid : (DB.filter (fun r => (r.position_id == t.position_id) && J r)).map
            (fun r => ticketRemoveFn (ticketsToRemoveOf ET T)
              (ticketUpdateFn (ticketsToUpdateOf ET T) r)) =
            DB.filter (fun r => (r.position_id == t.position_id) && J r) := by
          apply list_map_id_of_eq
          intro r hr
          have h2 := (List.mem_filter.mp hr).2
          simp only [Bool.and_eq_true] at h2
          have hrpe : r.position_id = t.position_id := by simpa [beq_iff_eq] using h2.1
          exact tfT_skip ET T (fun tu htu heq => hU tu htu (heq.trans hrpe))
            (List.any_eq_true.mpr ⟨t, ht, by rw [hrpe]; simp⟩)
        rw [hid, hET, list_filter_filter]
        apply list_filter_congr
        intro a _
        exact Bool.and_comm _ _
      rw [hmapeq]
      obtain ⟨e, heET, hekey⟩ := List.any_eq_true.mp hE
      have hne : ET.filter (fun x => x.position_id == t.position_id) ≠ [] :=
        List.ne_nil_of_mem (List.mem_filter.mpr ⟨heET, hekey⟩)
      obtain ⟨old, hold⟩ := list_getLast?_of_ne_nil hne
      refine ⟨old, hold, ?_⟩
      have hpre : t ∈ T.filter
          (fun tt => ET.any (fun e => e.position_id == tt.position_id)) :=
        List.mem_filter.mpr ⟨ht, hE⟩
      have hnotupd : t ∉ (T.filter
          (fun tt => ET.any (fun e => e.position_id == tt.position_id))).filter
          (fun tt =>
            match lastTicketBinding ET tt.position_id with
            | some oldTicket => pretixTicketsDifferent oldTicket tt
            | none => false) := by
        intro hmem
        exact hU t hmem rfl
      have hcondt := list_not_mem_filter hpre hnotupd
      have hcondt' : (match lastTicketBinding ET t.position_id with
          | some oldTicket => pretixTicketsDifferent oldTicket t
          | none => false) = false := hcondt
      have hbind : lastTicketBinding ET t.position_id = some old := by
        unfold lastTicketBinding
        exact hold
      rw [hbind] at hcondt'
      exact hcondt'
    | false =>
      have htINS : t ∈ ticketsToInsertOf ET T := by
        unfold ticketsToInsertOf
        exact List.mem_filter.mpr ⟨ht, by rw [hE]; rfl⟩
      have hINSnd : ((ticketsToInsertOf ET T).map (fun x => x.position_id)).Nodup := by
        unfold ticketsToInsertOf
        exact List.Nodup.sublist (List.Sublist.map _ (List.filter_sublist _)) hTnd
      have hsing : (ticketsToInsertOf ET T).filter
          (fun x => x.position_id == t.position_id) = [t] :=
        list_filter_skey_singleton hINSnd htINS
      have hmapnil : ((DB.map (fun r => ticketRemoveFn (ticketsToRemoveOf ET T)
          (ticketUpdateFn (ticketsToUpdateOf ET T) r))).filter J).filter
          (fun x => x.position_id == t.position_id) = [] := by
        rw [list_filter_filter, list_filter_map_comm]
        rw [list_filter_eq_nil, List.map_nil]
        intro r hr
        by_cases hrp : (r.position_id == t.position_id) = true
        · have hrpe : r.position_id = t.position_id := by simpa [beq_iff_eq] using hrp
          have hfr : ticketRemoveFn (ticketsToRemoveOf ET T)
              (ticketUpdateFn (ticketsToUpdateOf ET T) r) = r :=
            tfT_skip ET T (fun tu htu heq => hU tu htu (heq.trans hrpe))
              (List.any_eq_true.mpr ⟨t, ht, by rw [hrpe]; simp⟩)
          have hJr : J r = false := by
            cases hJ : J r with
            | false => rfl
            | true =>
              exfalso
              have hrET : r ∈ ET := by
                rw [hET]
                exact List.mem_filter.mpr ⟨hr, hJ⟩
              rw [List.any_eq_true.mpr ⟨r, hrET, hrp⟩] at hE
              exact Bool.noConfusion hE
          rw [hfr, hJr]
          simp
        · have hrp' : (r.position_id == t.position_id) = false := Bool.eq_false_iff.mpr hrp
          have hfrpos : (ticketRemoveFn (ticketsToRemoveOf ET T)
              (ticketUpdateFn (ticketsToUpdateOf ET T) r)).position_id = r.position_id := by
            rw [(ticketRemoveFn_frame _ _).1, ticketUpdateFn_pos]
          rw [hfrpos, hrp']
          simp
      rw [hmapnil, hsing]
      exact ⟨t, rfl, pretixTicketsDifferent_self t⟩

/-- Second-run no-op for the ticket phase: when every converted ticket's
position is already present with an equal last binding, and every stale row is
already soft-deleted, the phase succeeds, inserts nothing, updates nothing, and
its soft-delete pass rewrites only rows that are already deleted, leaving the
store unchanged. -/
theorem syncTickets_second {db : Store} {event : EventConfig} {orders : List PretixOrder}
    {info : EventInfoRow} (hinfo : fetchPretixEventInfo db event.id = some info)
    (hB2 : ∀ t ∈ ordersToDevconnectTickets orders (fetchPretixItemsInfoByEvent db info.id),
      ((fetchDevconnectPretixTicketsByEvent db event.id).any
        (fun e => e.position_id == t.position_id)) = true)
    (hB3 : ∀ t ∈ ordersToDevconnectTickets orders (fetchPretixItemsInfoByEvent db info.id),
      ∃ old, lastTicketBinding (fetchDevconnectPretixTicketsByEvent db event.id)
          t.position_id = some old ∧ pretixTicketsDifferent old t = false)
    (hB4 : ∀ e ∈ fetchDevconnectPretixTicketsByEvent db event.id,
      ((ordersToDevconnectTickets orders (fetchPretixItemsInfoByEvent db info.id)).any
        (fun t => t.position_id == e.position_id)) = false →
      ∀ q ∈ db.tickets, q.position_id = e.position_id → q.is_deleted = true) :
    syncTickets db event orders = ⟨true, none, [], [],
      ticketsToRemoveOf (fetchDevconnectPretixTicketsByEvent db event.id)
        (ordersToDevconnectTickets orders (fetchPretixItemsInfoByEvent db info.id)), db⟩ ∧
    ∀ x ∈ ticketsToRemoveOf (fetchDevconnectPretixTicketsByEvent db event.id)
        (ordersToDevconnectTickets orders (fetchPretixItemsInfoByEvent db info.id)),
      x.is_deleted = true := by
  have hins : ticketsToInsertOf (fetchDevconnectPretixTicketsByEvent db event.id)
      (ordersToDevconnectTickets orders (fetchPretixItemsInfoByEvent db info.id)) = [] := by
    unfold ticketsToInsertOf
    apply list_filter_eq_nil
    intro t ht
    rw [hB2 t ht]
    rfl
  have hupd : ticketsToUpdateOf (fetchDevconnectPretixTicketsByEvent db event.id)
      (ordersToDevconnectTickets orders (fetchPretixItemsInfoByEvent db info.id)) = [] := by
    unfold ticketsToUpdateOf
    apply list_filter_eq_nil
    intro t ht
    have htT := List.mem_of_mem_filter ht
    obtain ⟨old, hold, hdiff⟩ := hB3 t htT
    rw [hold]
    exact hdiff
  have hremcond : ∀ x ∈ ticketsToRemoveOf (fetchDevconnectPretixTicketsByEvent db event.id)
      (ordersToDevconnectTickets orders (fetchPretixItemsInfoByEvent db info.id)),
      x ∈ fetchDevconnectPretixTicketsByEvent db event.id ∧
      ((ordersToDevconnectTickets orders (fetchPretixItemsInfoByEvent db info.id)).any
        (fun t => t.position_id == x.position_id)) = false := by
    intro x hx
    unfold ticketsToRemoveOf at hx
    refine ⟨(List.mem_filter.mp hx).1, ?_⟩
    have hcond := (List.mem_filter.mp hx).2
    cases h : (ordersToDevconnectTickets orders (fetchPretixItemsInfoByEvent db info.id)).any
        (fun t => t.position_id == x.position_id) with
    | false => rfl
    | true => rw [h] at hcond; simp at hcond
  have hrem : ∀ x ∈ ticketsToRemoveOf (fetchDevconnectPretixTicketsByEvent db event.id)
      (ordersToDevconnectTickets orders (fetchPretixItemsInfoByEvent db info.id)),
      x.is_deleted = true := by
    intro x hx
    obtain ⟨hxE, hcond⟩ := hremcond x hx
    have hxdb : x ∈ db.tickets := by
      rw [fetchTickets_eq] at hxE
      exact List.mem_of_mem_filter hxE
    exact hB4 x hxE hcond x hxdb rfl
  refine ⟨?_, hrem⟩
  rw [syncTickets_run hinfo, hins, hupd]
  have hnoop : applyTicketRemovals db
      (ticketsToRemoveOf (fetchDevconnectPretixTicketsByEvent db event.id)
        (ordersToDevconnectTickets orders (fetchPretixItemsInfoByEvent db info.id))) = db := by
    apply applyTicketRemovals_noop
    intro x hx r hr hrid
    obtain ⟨hxE, hcond⟩ := hremcond x hx
    exact hB4 x hxE hcond r hr hrid
  rw [show applyTicketInserts db [] = db from rfl,
    show applyTicketUpdates db [] = db from rfl, hnoop]

/-- Full-structure fixpoint for the event-info phase: on an already-synced row
the phase still reports an (unconditional) update, but the store is unchanged. -/
theorem syncEventInfos_fixpoint_full {db : Store} {event : EventConfig} {m : PretixEventMeta}
    {row : EventInfoRow}
    (hnd : (db.events.map (fun r => r.id)).Nodup)
    (hfind : fetchPretixEventInfo db event.id = some row)
    (hname : row.event_name = m.name) (hdel : row.is_deleted = false) :
    syncEventInfos db event m = ⟨true, some .updated, db⟩ := by
  have hdb := syncEventInfos_fixpoint hnd hfind hname hdel
  unfold syncEventInfos at hdb ⊢
  rw [hfind] at hdb ⊢
  dsimp only at hdb ⊢
  rw [hdb]

/-- After a successful item phase, every active item's key is present in the
re-fetched item-info rows. -/
theorem syncItemInfos_establish_any {db : Store} {event : EventConfig} {items : List PretixItem}
    {info : EventInfoRow} (hwf : WFStore db)
    (hinfo : fetchPretixEventInfo db event.id = some info)
    (hdrift : (event.activeItemIDs.any
      (fun i => !((items.map (fun i => toString i.id)).contains i))) = false) :
    ∀ i ∈ newActiveOf event items,
      ((fetchPretixItemsInfoByEvent (syncItemInfos db event items).db info.id).any
        (fun e => e.item_id == toString i.id)) = true := by
  rw [syncItemInfos_fetch_after hwf hinfo hdrift]
  exact itemPhase_any _ _ _ _

/-- After a successful item phase, every active item's last stored binding
carries the fetched display name. -/
theorem syncItemInfos_establish_binding {db : Store} {event : EventConfig}
    {items : List PretixItem} {info : EventInfoRow} (hwf : WFStore db)
    (hinfo : fetchPretixEventInfo db event.id = some info)
    (hdrift : (event.activeItemIDs.any
      (fun i => !((items.map (fun i => toString i.id)).contains i))) = false)
    (hitemsnd : (items.map (fun i => toString i.id)).Nodup) :
    ∀ i ∈ newActiveOf event items,
      ∃ row, lastItemBinding (fetchPretixItemsInfoByEvent (syncItemInfos db event items).db
          info.id) (toString i.id) = some row ∧
        row.item_name = getI18nString i.name := by
  rw [syncItemInfos_fetch_after hwf hinfo hdrift]
  apply itemPhase_binding
  · rw [fetchItems_eq]
    exact filtered_ids_nodup hwf.2.1 _
  · unfold newActiveOf
    exact filtered_keys_nodup hitemsnd _

/-- After a successful item phase, every re-fetched row not matching an active
item is soft-deleted, along with all same-key rows of the item table. -/
theorem syncItemInfos_establish_removed {db : Store} {event : EventConfig}
    {items : List PretixItem} {info : EventInfoRow} (hwf : WFStore db)
    (hinfo : fetchPretixEventInfo db event.id = some info)
    (hdrift : (event.activeItemIDs.any
      (fun i => !((items.map (fun i => toString i.id)).contains i))) = false) :
    ∀ e ∈ fetchPretixItemsInfoByEvent (syncItemInfos db event items).db info.id,
      ((newActiveOf event items).any (fun i => toString i.id == e.item_id)) = false →
      ∀ q ∈ (syncItemInfos db event items).db.items, q.id = e.id → q.is_deleted = true := by
  rw [syncItemInfos_fetch_after hwf hinfo hdrift, syncItemInfos_items_after hwf hinfo hdrift]
  apply itemPhase_removed
  · rw [fetchItems_eq]
    exact filtered_ids_nodup hwf.2.1 _
  · exact hwf.2.1
  · intro r hr
    rw [fetchItems_eq] at hr
    exact List.mem_of_mem_filter hr
  · exact hwf.2.2.2

/-- After a ticket phase, every converted ticket's position is present in the
re-fetched ticket rows of the event (stated on the post-phase store). -/
theorem syncTickets_establish_any {db : Store} {event : EventConfig} {orders : List PretixOrder}
    {info : EventInfoRow} (hwf : WFStore db)
    (hinfo : fetchPretixEventInfo db event.id = some info)
    (hposnd : ((orders.flatMap (fun o => o.positions)).map (fun p => toString p.id)).Nodup) :
    ∀ t ∈ ordersToDevconnectTickets orders
        (fetchPretixItemsInfoByEvent (syncTickets db event orders).db info.id),
      ((fetchDevconnectPretixTicketsByEvent (syncTickets db event orders).db event.id).any
        (fun e => e.position_id == t.position_id)) = true := by
  have hTfix : fetchPretixItemsInfoByEvent (syncTickets db event orders).db info.id =
      fetchPretixItemsInfoByEvent db info.id := by
    rw [fetchItems_eq, fetchItems_eq, syncTickets_db_items]
  rw [hTfix, syncTickets_fetch_after hwf hinfo]
  exact ticketPhase_any db.tickets _ _ _ (fetchTickets_eq db event.id)
    (T_joins hwf hinfo)
    (fun t t' h => ticketJoins_ref_congr db.items db.events event.id h)
    (ordersToTickets_pos_nodup hposnd)

/-- After a ticket phase, every converted ticket's last stored binding is not
different from the ticket (stated on the post-phase store). -/
theorem syncTickets_establish_binding {db : Store} {event : EventConfig}
    {orders : List PretixOrder} {info : EventInfoRow} (hwf : WFStore db)
    (hinfo : fetchPretixEventInfo db event.id = some info)
    (hposnd : ((orders.flatMap (fun o => o.positions)).map (fun p => toString p.id)).Nodup) :
    ∀ t ∈ ordersToDevconnectTickets orders
        (fetchPretixItemsInfoByEvent (syncTickets db event orders).db info.id),
      ∃ old, lastTicketBinding
          (fetchDevconnectPretixTicketsByEvent (syncTickets db event orders).db event.id)
          t.position_id = some old ∧
        pretixTicketsDifferent old t = false := by
  have hTfix : fetchPretixItemsInfoByEvent (syncTickets db event orders).db info.id =
      fetchPretixItemsInfoByEvent db info.id := by
    rw [fetchItems_eq, fetchItems_eq, syncTickets_db_items]
  rw [hTfix, syncTickets_fetch_after hwf hinfo]
  exact ticketPhase_binding db.tickets _ _ _ (fetchTickets_eq db event.id)
    (T_joins hwf hinfo)
    (fun t t' h => ticketJoins_ref_congr db.items db.events event.id h)
    (ordersToTickets_pos_nodup hposnd)

/-- After a ticket phase, every re-fetched row whose position is absent from
the converted tickets is soft-deleted, along with all same-position rows of the
ticket table (stated on the post-phase store). -/
theorem syncTickets_establish_removed {db : Store} {event : EventConfig}
    {orders : List PretixOrder} {info : EventInfoRow} (hwf : WFStore db)
    (hinfo : fetchPretixEventInfo db event.id = some info) :
    ∀ e ∈ fetchDevconnectPretixTicketsByEvent (syncTickets db event orders).db event.id,
      ((ordersToDevconnectTickets orders
        (fetchPretixItemsInfoByEvent (syncTickets db event orders).db info.id)).any
        (fun t => t.position_id == e.position_id)) = false →
      ∀ q ∈ (syncTickets db event orders).db.tickets,
        q.position_id = e.position_id → q.is_deleted = true := by
  have hTfix : fetchPretixItemsInfoByEvent (syncTickets db event orders).db info.id =
      fetchPretixItemsInfoByEvent db info.id := by
    rw [fetchItems_eq, fetchItems_eq, syncTickets_db_items]
  rw [hTfix, syncTickets_fetch_after hwf hinfo, syncTickets_tickets_after hinfo]
  exact ticketPhase_removed db.tickets _ _ _ (fetchTickets_eq db event.id)
    (fun t t' h => ticketJoins_ref_congr db.items db.events event.id h)

/-- Success-path unfolding of `syncEvent`: when the item phase succeeds, all
three phases run in order. -/
theorem syncEvent_success_path {db : Store} {event : EventConfig} {data : EventData}
    (h2 : (syncItemInfos (syncEventInfos db event data.eventInfo).db event
      data.items).success = true) :
    syncEvent db event data =
      ⟨syncEventInfos db event data.eventInfo,
        some (syncItemInfos (syncEventInfos db event data.eventInfo).db event data.items),
        some (syncTickets
          (syncItemInfos (syncEventInfos db event data.eventInfo).db event data.items).db
          event data.tickets),
        (syncTickets
          (syncItemInfos (syncEventInfos db event data.eventInfo).db event data.items).db
          event data.tickets).db⟩ := by
  have hs1 := syncEventInfos_success db event data.eventInfo
  unfold syncEvent
  simp [hs1, h2]

/-- C2 (amended): running the event sync a second time on its own output, with
the same provider data, performs no insert and no update in the item and ticket
phases, re-issues soft-deletes only on rows that are already soft-deleted, still
performs the unconditional event-info update (writing identical values), and
leaves the store unchanged.  Assumes a well-formed store and provider data with
unique item ids and unique position ids. -/
theorem C2_amended_second_run_noop (db : Store) (event : EventConfig) (data : EventData)
    (hwf : WFStore db)
    (hitemsnd : (data.items.map (fun i => toString i.id)).Nodup)
    (hposnd : ((data.tickets.flatMap (fun o => o.positions)).map
      (fun p => toString p.id)).Nodup) :
    (syncEvent (syncEvent db event data).db event data).db = (syncEvent db event data).db ∧
    (syncEvent (syncEvent db event data).db event data).eventInfoStep.action =
      some EventInfoAction.updated ∧
    itemInsertsOf (syncEvent (syncEvent db event data).db event data) = [] ∧
    itemUpdatesOf (syncEvent (syncEvent db event data).db event data) = [] ∧
    ticketInsertsOf (syncEvent (syncEvent db event data).db event data) = [] ∧
    ticketUpdatesOf (syncEvent (syncEvent db event data).db event data) = [] ∧
    (∀ x ∈ itemRemovalsOf (syncEvent (syncEvent db event data).db event data),
      x.is_deleted = true) ∧
    (∀ x ∈ ticketRemovalsOf (syncEvent (syncEvent db event data).db event data),
      x.is_deleted = true) := by
  obtain ⟨row, hrow, hname, hdel⟩ := fetch_after_syncEventInfos db event data.eventInfo
  have hwf1 : WFStore (syncEventInfos db event data.eventInfo).db := syncEventInfos_wf hwf
  by_cases hdriftT : event.activeItemIDs.any
      (fun i => !((data.items.map (fun it => toString it.id)).contains i)) = true
  · rw [syncEvent_drift hdriftT]
    rw [syncEvent_drift hdriftT]
    dsimp only
    rw [syncEventInfos_fixpoint_full hwf1.1 hrow hname hdel]
    refine ⟨rfl, rfl, rfl, rfl, rfl, rfl, ?_, ?_⟩
    · intro x hx
      exact absurd hx (List.not_mem_nil x)
    · intro x hx
      exact absurd hx (List.not_mem_nil x)
  · have hdrift' : event.activeItemIDs.any
        (fun i => !((data.items.map (fun it => toString it.id)).contains i)) = false := by
      cases h : event.activeItemIDs.any
          (fun i => !((data.items.map (fun it => toString it.id)).contains i)) with
      | false => rfl
      | true => exact absurd h hdriftT
    have hinfo1 : fetchPretixEventInfo (syncEventInfos db event data.eventInfo).db
        event.id = some row := hrow
    have hirsucc : (syncItemInfos (syncEventInfos db event data.eventInfo).db event
        data.items).success = true := by
      rw [syncItemInfos_run hinfo1 hdrift']
    have hwf2 : WFStore (syncItemInfos (syncEventInfos db event data.eventInfo).db event
        data.items).db := syncItemInfos_wf hwf1
    have hinfo2 : fetchPretixEventInfo
        (syncItemInfos (syncEventInfos db event data.eventInfo).db event data.items).db
        event.id = some row := by
      unfold fetchPretixEventInfo
      rw [syncItemInfos_db_events]
      exact hrow
    have hwf3 : WFStore (syncTickets
        (syncItemInfos (syncEventInfos db event data.eventInfo).db event data.items).db
        event data.tickets).db := syncTickets_wf hwf2
    have hinfo3 : fetchPretixEventInfo (syncTickets
        (syncItemInfos (syncEventInfos db event data.eventInfo).db event data.items).db
        event data.tickets).db event.id = some row := by
      unfold fetchPretixEventInfo
      rw [syncTickets_db_events, syncItemInfos_db_events]
      exact hrow
    have hIfix : fetchPretixItemsInfoByEvent (syncTickets
        (syncItemInfos (syncEventInfos db event data.eventInfo).db event data.items).db
        event data.tickets).db row.id =
        fetchPretixItemsInfoByEvent
          (syncItemInfos (syncEventInfos db event data.eventInfo).db event data.items).db
          row.id := by
      rw [fetchItems_eq, fetchItems_eq, syncTickets_db_items]
    have hA2 : ∀ i ∈ newActiveOf event data.items,
        ((fetchPretixItemsInfoByEvent (syncTickets
          (syncItemInfos (syncEventInfos db event data.eventInfo).db event data.items).db
          event data.tickets).db row.id).any
          (fun e => e.item_id == toString i.id)) = true := by
      rw [hIfix]
      exact syncItemInfos_establish_any hwf1 hinfo1 hdrift'
    have hA3 : ∀ i ∈ newActiveOf event data.items,
        ∃ r, lastItemBinding (fetchPretixItemsInfoByEvent (syncTickets
          (syncItemInfos (syncEventInfos db event data.eventInfo).db event data.items).db
          event data.tickets).db row.id) (toString i.id) = some r ∧
          r.item_name = getI18nString i.name := by
      rw [hIfix]
      exact syncItemInfos_establish_binding hwf1 hinfo1 hdrift' hitemsnd
    have hA4 : ∀ e ∈ fetchPretixItemsInfoByEvent (syncTickets
        (syncItemInfos (syncEventInfos db event data.eventInfo).db event data.items).db
        event data.tickets).db row.id,
        ((newActiveOf event data.items).any (fun i => toString i.id == e.item_id)) = false →
        ∀ q ∈ (syncTickets
          (syncItemInfos (syncEventInfos db event data.eventInfo).db event data.items).db
          event data.tickets).db.items, q.id = e.id → q.is_deleted = true := by
      rw [hIfix, syncTickets_db_items]
      exact syncItemInfos_establish_removed hwf1 hinfo1 hdrift'
    obtain ⟨hsecI, hremI⟩ := syncItemInfos_second hinfo3 hdrift' hA2 hA3 hA4
    obtain ⟨hsecT, hremT⟩ := syncTickets_second hinfo3
      (syncTickets_establish_any hwf2 hinfo2 hposnd)
      (syncTickets_establish_binding hwf2 hinfo2 hposnd)
      (syncTickets_establish_removed hwf2 hinfo2)
    have hfix := syncEventInfos_fixpoint_full hwf3.1 hinfo3 hname hdel
    have h2succ : (syncItemInfos (syncEventInfos (syncTickets
        (syncItemInfos (syncEventInfos db event data.eventInfo).db event data.items).db
        event data.tickets).db event data.eventInfo).db event data.items).success = true := by
      rw [hfix]
      dsimp only
      rw [hsecI]
    rw [syncEvent_success_path hirsucc]
    dsimp only
    rw [syncEvent_success_path h2succ]
    rw [hfix]
    dsimp only
    rw [hsecI]
    dsimp only
    rw [hsecT]
    exact ⟨rfl, rfl, rfl, rfl, rfl, rfl, hremI, hremT⟩

/-- Witness for C2 (amended): on the one-item, one-order example the second run
changes nothing and performs no insert or update. -/
theorem C2_amended_second_run_noop_witness :
    (WFStore exEmptyStore ∧
      (exC2Data.items.map (fun i => toString i.id)).Nodup ∧
      ((exC2Data.tickets.flatMap (fun o => o.positions)).map
        (fun p => toString p.id)).Nodup) ∧
    ((syncEvent (syncEvent exEmptyStore exC2Event exC2Data).db exC2Event exC2Data).db =
        (syncEvent exEmptyStore exC2Event exC2Data).db ∧
      (syncEvent (syncEvent exEmptyStore exC2Event exC2Data).db exC2Event
        exC2Data).eventInfoStep.action = some EventInfoAction.updated ∧
      itemInsertsOf (syncEvent (syncEvent exEmptyStore exC2Event exC2Data).db exC2Event
        exC2Data) = [] ∧
      itemUpdatesOf (syncEvent (syncEvent exEmptyStore exC2Event exC2Data).db exC2Event
        exC2Data) = [] ∧
      ticketInsertsOf (syncEvent (syncEvent exEmptyStore exC2Event exC2Data).db exC2Event
        exC2Data) = [] ∧
      ticketUpdatesOf (syncEvent (syncEvent exEmptyStore exC2Event exC2Data).db exC2Event
        exC2Data) = [] ∧
      (∀ x ∈ itemRemovalsOf (syncEvent (syncEvent exEmptyStore exC2Event exC2Data).db
        exC2Event exC2Data), x.is_deleted = true) ∧
      (∀ x ∈ ticketRemovalsOf (syncEvent (syncEvent exEmptyStore exC2Event exC2Data).db
        exC2Event exC2Data), x.is_deleted = true)) :=
  ⟨⟨by unfold WFStore; decide, by decide, by decide⟩,
    C2_amended_second_run_noop exEmptyStore exC2Event exC2Data
      (by unfold WFStore; decide) (by decide) (by decide)⟩

end DevconnectSync
